import Mathlib

/-!
# Metric namer of the custom-metrics Prometheus adapter

Shallow embedding of `pkg/custom-provider/metric_namer.go`.

Conventions of the embedding

* Go `error` results are `Except String _`; only the failure/success and the
  wrapping structure of the messages are kept, not the `%q`/`%v` formatting.
* A Go run-time panic is a separate outcome (`QueryResult.crash`).
* The mutable receiver `*metricNamer` is passed and returned explicitly; the
  read/write lock is not modelled (sequential semantics).
* Go maps that the code only indexes (`labelToResource`, `resourceToLabel`)
  are total functions into `Option`.  Go maps that the code ranges over
  (`series.Labels`, `rule.Resources.Overrides`, the local `updates`) are lists
  of pairs, listed in the order in which the `range` loop visits them; a
  well-formed map has pairwise different keys.
* The libraries `regexp`, `text/template` and the REST mapper are external:
  a compiled pattern, a parsed template and a mapper are records of their
  observable operations, and `Env` bundles the two constructors
  (`regexp.Compile`, `template.Parse`).
-/

namespace provider

/-! ## External types -/

/-- The type `schema.GroupResource`. -/
structure GroupResource where
  Group : String
  Resource : String
deriving DecidableEq, Repr, Inhabited

/-- The type `prom.Series`: a name and its label set, the labels listed in the order
in which a `range` over the label map visits them. -/
structure Series where
  Name : String
  Labels : List (String × String)
deriving DecidableEq, Repr

/-- A compiled `*regexp.Regexp`, by its observable operations.
`FindStringSubmatch s` is `none` for Go's `nil` (no match), otherwise the text of the
leftmost match followed by the text of each capture group. -/
structure Regexp where
  FindStringSubmatch : String → Option (List String)
  SubexpNames : List String

/-- The method `(*Regexp).MatchString`: whether the string contains any match. -/
def Regexp.MatchString (re : Regexp) (s : String) : Bool :=
  (re.FindStringSubmatch s).isSome

/-- A parsed `*template.Template`, executed on data of type `α`;
`Execute` returns the rendered text or the execution error. -/
structure Template (α : Type) where
  Execute : α → Except String String

/-- The `apimeta.RESTMapper` as the namer uses it: `ResourceSingularizer`, and
`Normalize` for `provider.CustomMetricInfo{GroupResource: gr}.Normalized(mapper)`
(the normalized group-resource, or the error). -/
structure RESTMapper where
  ResourceSingularizer : String → Except String String
  Normalize : GroupResource → Except String GroupResource

/-- The variable `nsGroupResource`. -/
def nsGroupResource : GroupResource := { Group := "", Resource := "namespaces" }

/-- The replacer `groupNameSanitizer = strings.NewReplacer(".", "_", "-", "_")`, applied with
`Replace`. -/
def groupNameSanitizer (s : String) : String :=
  String.mk (s.toList.map fun c => if c = '.' ∨ c = '-' then '_' else c)

/-- The type `queryTemplateArgs`: the arguments for the metrics query template. -/
structure queryTemplateArgs where
  Series : String
  LabelMatchers : String
  LabelValuesByName : List (String × List String)
  GroupBy : String
  GroupBySlice : List String
deriving DecidableEq, Repr

/-! ## Configuration types (`pkg/config`) -/

/-- The type `config.RegexFilter`. -/
structure RegexFilter where
  Is : String
  IsNot : String
deriving DecidableEq, Repr

/-- The type `config.ResourceMapping`; `Overrides` in the order the `range` loop visits it. -/
structure ResourceMapping where
  Template : String
  Overrides : List (String × GroupResource)
deriving DecidableEq, Repr

/-- The type `config.NameMapping`. -/
structure NameMapping where
  Matches : String
  As : String
deriving DecidableEq, Repr

/-- The type `config.DiscoveryRule`. -/
structure DiscoveryRule where
  SeriesQuery : String
  SeriesFilters : List RegexFilter
  Resources : ResourceMapping
  Name : NameMapping
  MetricsQuery : String
deriving DecidableEq, Repr

/-- The type `config.MetricsDiscoveryConfig`. -/
structure MetricsDiscoveryConfig where
  Rules : List DiscoveryRule
deriving DecidableEq, Repr

/-- The constructors of the two external libraries.  `Compile` is `regexp.Compile`;
`ParseLabel` and `ParseQuery` are `template.New(..).Delims("<<", ">>").Parse` for a template
that is executed on a group-resource, respectively on `queryTemplateArgs`;
`matchAll` is `regexp.MustCompile(".*")`, which always succeeds. -/
structure Env where
  Compile : String → Except String Regexp
  ParseLabel : String → Except String (Template GroupResource)
  ParseQuery : String → Except String (Template queryTemplateArgs)
  matchAll : Regexp
  compile_matchAll : Compile ".*" = Except.ok matchAll

/-! ## Helpers of `pkg/client` -/

/-- Modelled from the spec: `prom.LabelEq` of `pkg/client`, which is not among the sources; the
spec writes an equality clause as `namespace="ns1"`. -/
def prom.LabelEq (label value : String) : String :=
  label ++ "=\"" ++ value ++ "\""

/-- Modelled from the spec: `prom.LabelMatches` of `pkg/client`, which is not among the
sources; the spec writes an alternation clause as `pod=~"a|b"`. -/
def prom.LabelMatches (label expr : String) : String :=
  label ++ "=~\"" ++ expr ++ "\""

/-! ## Label / resource extractor -/

/-- The type `labelGroupResExtractor` (its unused `mapper` field left out). -/
structure labelGroupResExtractor where
  regex : Regexp
  resourceInd : Nat
  groupInd : Option Nat

/-- The loop over `labelRegex.SubexpNames()` of `newLabelGroupResExtractor`: the pair
`(groupInd, resInd)` after visiting `names`, whose first element has index `i`. -/
def subexpInds : List String → Nat → Option Nat × Option Nat → Option Nat × Option Nat
  | [], _, acc => acc
  | name :: rest, i, (groupInd, resInd) =>
    if name = "group" then subexpInds rest (i + 1) (some i, resInd)
    else if name = "resource" then subexpInds rest (i + 1) (groupInd, some i)
    else subexpInds rest (i + 1) (groupInd, resInd)

/-- The function `newLabelGroupResExtractor`. -/
def newLabelGroupResExtractor (env : Env) (labelTemplate : Template GroupResource) :
    Except String labelGroupResExtractor :=
  match labelTemplate.Execute { Group := "(?P<group>.+?)", Resource := "(?P<resource>.+?)" } with
  | .error err => .error ("unable to convert label template to matcher: " ++ err)
  | .ok labelRegexBuff =>
    if labelRegexBuff = "" then
      .error "unable to convert label template to matcher: empty template"
    else
      match env.Compile ("^" ++ labelRegexBuff ++ "$") with
      | .error err => .error ("unable to convert label template to matcher: " ++ err)
      | .ok labelRegex =>
        match subexpInds labelRegex.SubexpNames 0 (none, none) with
        | (_, none) => .error "must include at least .Resource in the label template"
        | (groupInd, some resInd) =>
          .ok { regex := labelRegex, resourceInd := resInd, groupInd := groupInd }

/-- The method `GroupResourceForLabel`.  An index into `matchGroups` is in range for every
extractor that `newLabelGroupResExtractor` builds (it is an index of `SubexpNames`, and
a submatch slice has one entry per name); outside that range the entry reads as empty. -/
def labelGroupResExtractor.GroupResourceForLabel (e : labelGroupResExtractor) (lbl : String) :
    GroupResource × Bool :=
  match e.regex.FindStringSubmatch lbl with
  | some matchGroups =>
    let group := match e.groupInd with
      | some gi => matchGroups.getD gi ""
      | none => ""
    ({ Group := group, Resource := matchGroups.getD e.resourceInd "" }, true)
  | none => ({ Group := "", Resource := "" }, false)

/-! ## Regex matcher -/

/-- The type `reMatcher`: either positively or negatively matches a regex. -/
structure reMatcher where
  regex : Regexp
  positive : Bool

/-- The function `newReMatcher`. -/
def newReMatcher (env : Env) (cfg : RegexFilter) : Except String reMatcher :=
  if cfg.Is ≠ "" ∧ cfg.IsNot ≠ "" then
    .error "cannot have both an is and isNot expression in a single filter"
  else if cfg.Is = "" ∧ cfg.IsNot = "" then
    .error "must have either an is or isNot expression in a filter"
  else
    let positive := decide (cfg.Is ≠ "")
    let regexRaw := if cfg.Is ≠ "" then cfg.Is else cfg.IsNot
    match env.Compile regexRaw with
    | .error err => .error ("unable to compile series filter " ++ regexRaw ++ ": " ++ err)
    | .ok regex => .ok { regex := regex, positive := positive }

/-- The method `(*reMatcher).Matches`. -/
def reMatcher.Matches (m : reMatcher) (val : String) : Bool :=
  m.regex.MatchString val == m.positive

/-! ## The metric namer -/

/-- The type `metricNamer` (without its lock). -/
structure metricNamer where
  seriesQuery : String
  labelTemplate : Option (Template GroupResource)
  labelResExtractor : Option labelGroupResExtractor
  metricsQueryTemplate : Template queryTemplateArgs
  nameMatches : Regexp
  nameAs : String
  seriesMatchers : List reMatcher
  labelToResource : String → Option GroupResource
  resourceToLabel : GroupResource → Option String
  mapper : RESTMapper

/-- The method `Selector`. -/
def metricNamer.Selector (r : metricNamer) : String := r.seriesQuery

/-- The inner loop of `FilterSeries`: `false` when some matcher, in order, sends the
series to `continue SeriesLoop`. -/
def matchersLoop : List reMatcher → String → Bool
  | [], _ => true
  | matcher :: rest, name => if !matcher.Matches name then false else matchersLoop rest name

/-- The outer loop of `FilterSeries`, appending to `finalSeries`. -/
def seriesLoop (matchers : List reMatcher) : List Series → List Series → List Series
  | [], finalSeries => finalSeries
  | series :: rest, finalSeries =>
    if matchersLoop matchers series.Name then seriesLoop matchers rest (finalSeries ++ [series])
    else seriesLoop matchers rest finalSeries

/-- The method `FilterSeries`. -/
def metricNamer.FilterSeries (n : metricNamer) (initialSeries : List Series) : List Series :=
  if n.seriesMatchers.length = 0 then initialSeries
  else seriesLoop n.seriesMatchers initialSeries []

/-- The method `schema.GroupResource.String`. -/
def GroupResource.String (gr : GroupResource) : String :=
  if gr.Group = "" then gr.Resource else gr.Resource ++ "." ++ gr.Group

/-- The method `makeLabelForResource`: constructs a label name for the given resource, and
saves the result. -/
def metricNamer.makeLabelForResource (n : metricNamer) (resource : GroupResource) :
    Except String String × metricNamer :=
  match n.labelTemplate with
  | none => (.error "no generic resource label form specified for this metric", n)
  | some labelTemplate =>
    match n.mapper.ResourceSingularizer resource.Resource with
    | .error err =>
      (.error ("unable to singularize resource " ++ resource.String ++ ": " ++ err), n)
    | .ok singularRes =>
      let convResource : GroupResource :=
        { Group := groupNameSanitizer resource.Group, Resource := singularRes }
      match labelTemplate.Execute convResource with
      | .error err => (.error err, n)
      | .ok buff =>
        if buff = "" then (.error "empty label produced by label template", n)
        else
          let lbl := buff
          (.ok lbl,
            { n with
              resourceToLabel := Function.update n.resourceToLabel resource (some lbl)
              labelToResource := Function.update n.labelToResource lbl (some resource) })

/-- The method `LabelForResource`. -/
def metricNamer.LabelForResource (n : metricNamer) (resource : GroupResource) :
    Except String String × metricNamer :=
  match n.resourceToLabel resource with
  | some lbl => (.ok lbl, n)
  | none =>
    match n.makeLabelForResource resource with
    | (.error err, n1) =>
      (.error ("unable to convert resource " ++ resource.String ++ " into label: " ++ err), n1)
    | (.ok lbl, n1) => (.ok lbl, n1)

/-- Outcome of `QueryForSeries`: the selector, the returned error, or a run-time panic. -/
inductive QueryResult where
  | ok (query : String)
  | err (msg : String)
  | crash
deriving DecidableEq, Repr

/-- Assignment `m[k] = v` on a map kept as a list of pairs. -/
def mapSet {β : Type} : List (String × β) → String → β → List (String × β)
  | [], k, v => [(k, v)]
  | (k1, v1) :: rest, k, v => if k1 = k then (k, v) :: rest else (k1, v1) :: mapSet rest k v

/-- The method `QueryForSeries`. -/
def metricNamer.QueryForSeries (n : metricNamer) (series : String) (resource : GroupResource)
    (namespaceName : String) (names : List String) : QueryResult × metricNamer :=
  let nsStep : Except String (List String × List (String × List String)) × metricNamer :=
    if namespaceName ≠ "" then
      match n.LabelForResource nsGroupResource with
      | (.error err, n1) => (.error err, n1)
      | (.ok namespaceLbl, n1) =>
        (.ok ([prom.LabelEq namespaceLbl namespaceName], [(namespaceLbl, [namespaceName])]), n1)
    else (.ok ([], []), n)
  match nsStep with
  | (.error err, n1) => (.err err, n1)
  | (.ok (exprs, valuesByName), n1) =>
    match n1.LabelForResource resource with
    | (.error err, n2) => (.err err, n2)
    | (.ok resourceLbl, n2) =>
      match names with
      | [] => (.crash, n2)
      | name0 :: _ =>
        let matcher := if names.length > 1 then prom.LabelMatches else prom.LabelEq
        let targetValue := if names.length > 1 then String.intercalate "|" names else name0
        let exprs := exprs ++ [matcher resourceLbl targetValue]
        let valuesByName := mapSet valuesByName resourceLbl names
        let args : queryTemplateArgs :=
          { Series := series
            LabelMatchers := String.intercalate "," exprs
            LabelValuesByName := valuesByName
            GroupBy := resourceLbl
            GroupBySlice := [resourceLbl] }
        match n2.metricsQueryTemplate.Execute args with
        | .error err => (.err err, n2)
        | .ok queryBuff =>
          if queryBuff = "" then (.err "empty query produced by metrics query template", n2)
          else (.ok queryBuff, n2)

/-- The local variables of the scan of `ResourcesForSeries`. -/
structure scanState where
  resources : List GroupResource
  updates : List (String × GroupResource)
  namespaced : Bool
deriving DecidableEq, Repr

/-- The test `if groupRes == nsGroupResource { namespaced = true }` that ends an iteration. -/
def scanState.flag (st : scanState) (groupRes : GroupResource) : scanState :=
  if groupRes = nsGroupResource then { st with namespaced := true } else st

/-- One iteration of the loop over `series.Labels` in `ResourcesForSeries`.  A failed map
lookup leaves the zero group-resource in `groupRes`; a normalization error is the
`continue`, which skips the final test. -/
def metricNamer.scanLabel (n : metricNamer) (st : scanState) (lbl : String) : scanState :=
  match n.labelToResource lbl with
  | some groupRes => ({ st with resources := st.resources ++ [groupRes] }).flag groupRes
  | none =>
    match st.updates.lookup lbl with
    | some groupRes => ({ st with resources := st.resources ++ [groupRes] }).flag groupRes
    | none =>
      match n.labelResExtractor with
      | some labelResExtractor =>
        match labelResExtractor.GroupResourceForLabel lbl with
        | (groupRes, true) =>
          match n.mapper.Normalize groupRes with
          | .error _ => st
          | .ok info =>
            ({ st with
               resources := st.resources ++ [info]
               updates := mapSet st.updates lbl info }).flag info
        | (groupRes, false) => st.flag groupRes
      | none => st.flag { Group := "", Resource := "" }

/-- The loop over `series.Labels`. -/
def metricNamer.scanLabels (n : metricNamer) : List (String × String) → scanState → scanState
  | [], st => st
  | (lbl, _) :: rest, st => n.scanLabels rest (n.scanLabel st lbl)

/-- The loop `for lbl, groupRes := range updates { n.labelToResource[lbl] = groupRes }`. -/
def mergeUpdates : List (String × GroupResource) → (String → Option GroupResource) →
    (String → Option GroupResource)
  | [], labelToResource => labelToResource
  | (lbl, groupRes) :: rest, labelToResource =>
    mergeUpdates rest (Function.update labelToResource lbl (some groupRes))

/-- The method `ResourcesForSeries`: the resources, the namespaced flag, and the namer after
the update of its cache. -/
def metricNamer.ResourcesForSeries (n : metricNamer) (series : Series) :
    (List GroupResource × Bool) × metricNamer :=
  let st := n.scanLabels series.Labels { resources := [], updates := [], namespaced := false }
  let n1 := if st.updates.length > 0 then
      { n with labelToResource := mergeUpdates st.updates n.labelToResource }
    else n
  ((st.resources, st.namespaced), n1)

/-! ## Building the namers -/

/-- The loop over `rule.SeriesFilters` in `NamersFromConfig`. -/
def filtersLoop (env : Env) (seriesQuery : String) : List RegexFilter →
    Except String (List reMatcher)
  | [] => .ok []
  | filterRaw :: rest =>
    match newReMatcher env filterRaw with
    | .error err =>
      .error ("unable to generate series name filter associated with series query " ++
        seriesQuery ++ ": " ++ err)
    | .ok matcher =>
      match filtersLoop env seriesQuery rest with
      | .error err => .error err
      | .ok matchers => .ok (matcher :: matchers)

/-- The loop over `rule.Resources.Overrides` in `NamersFromConfig`. -/
def overridesLoop (mapper : RESTMapper) : List (String × GroupResource) → metricNamer →
    Except String metricNamer
  | [], namer => .ok namer
  | (lbl, groupRes) :: rest, namer =>
    match mapper.Normalize { Group := groupRes.Group, Resource := groupRes.Resource } with
    | .error err =>
      .error ("unable to normalize group-resource " ++ groupRes.String ++ ": " ++ err)
    | .ok info =>
      overridesLoop mapper rest
        { namer with
          labelToResource := Function.update namer.labelToResource lbl (some info)
          resourceToLabel := Function.update namer.resourceToLabel info (some lbl) }

/-- The label template and its extractor, first step of the body of `NamersFromConfig`. -/
def labelTemplateOfRule (env : Env) (rule : DiscoveryRule) :
    Except String (Option (Template GroupResource) × Option labelGroupResExtractor) :=
  if rule.Resources.Template ≠ "" then
    match env.ParseLabel rule.Resources.Template with
    | .error err =>
      .error ("unable to parse label template " ++ rule.Resources.Template ++
        " associated with series query " ++ rule.SeriesQuery ++ ": " ++ err)
    | .ok labelTemplate =>
      match newLabelGroupResExtractor env labelTemplate with
      | .error err =>
        .error ("unable to generate label format from template " ++ rule.Resources.Template ++
          " associated with series query " ++ rule.SeriesQuery ++ ": " ++ err)
      | .ok labelResExtractor => .ok (some labelTemplate, some labelResExtractor)
  else .ok (none, none)

/-- The series matchers of a rule: its filters and then, if there is one, its name pattern. -/
def seriesMatchersOfRule (env : Env) (rule : DiscoveryRule) : Except String (List reMatcher) :=
  match filtersLoop env rule.SeriesQuery rule.SeriesFilters with
  | .error err => .error err
  | .ok seriesMatchers =>
    if rule.Name.Matches ≠ "" then
      match newReMatcher env { Is := rule.Name.Matches, IsNot := "" } with
      | .error err =>
        .error ("unable to generate series name filter from name rules associated with " ++
          "series query " ++ rule.SeriesQuery ++ ": " ++ err)
      | .ok matcher => .ok (seriesMatchers ++ [matcher])
    else .ok seriesMatchers

/-- The name pattern and substitution of a rule. -/
def nameOfRule (env : Env) (rule : DiscoveryRule) : Except String (Regexp × String) :=
  let nameMatchesE : Except String Regexp :=
    if rule.Name.Matches ≠ "" then
      match env.Compile rule.Name.Matches with
      | .error err =>
        .error ("unable to compile series name match expression " ++ rule.Name.Matches ++
          " associated with series query " ++ rule.SeriesQuery ++ ": " ++ err)
      | .ok re => .ok re
    else .ok env.matchAll
  match nameMatchesE with
  | .error err => .error err
  | .ok nameMatches =>
    if rule.Name.As = "" then
      if nameMatches.SubexpNames.length = 1 then .ok (nameMatches, "$0")
      else if nameMatches.SubexpNames.length = 2 then .ok (nameMatches, "$1")
      else
        .error ("must specify an as value for name matcher " ++ rule.Name.Matches ++
          " associated with series query " ++ rule.SeriesQuery)
    else .ok (nameMatches, rule.Name.As)

/-- The body of the loop over `cfg.Rules` in `NamersFromConfig`: the namer of one rule. -/
def namerFromRule (env : Env) (mapper : RESTMapper) (rule : DiscoveryRule) :
    Except String metricNamer :=
  match labelTemplateOfRule env rule with
  | .error err => .error err
  | .ok (labelTemplate, labelResExtractor) =>
    match env.ParseQuery rule.MetricsQuery with
    | .error err =>
      .error ("unable to parse metrics query template " ++ rule.MetricsQuery ++
        " associated with series query " ++ rule.SeriesQuery ++ ": " ++ err)
    | .ok metricsQueryTemplate =>
      match seriesMatchersOfRule env rule with
      | .error err => .error err
      | .ok seriesMatchers =>
        match nameOfRule env rule with
        | .error err => .error err
        | .ok (nameMatches, nameAs) =>
          overridesLoop mapper rule.Resources.Overrides
            { seriesQuery := rule.SeriesQuery
              labelTemplate := labelTemplate
              labelResExtractor := labelResExtractor
              metricsQueryTemplate := metricsQueryTemplate
              mapper := mapper
              nameMatches := nameMatches
              nameAs := nameAs
              seriesMatchers := seriesMatchers
              labelToResource := fun _ => none
              resourceToLabel := fun _ => none }

/-- The loop over `cfg.Rules` in `NamersFromConfig`. -/
def rulesLoop (env : Env) (mapper : RESTMapper) : List DiscoveryRule →
    Except String (List metricNamer)
  | [] => .ok []
  | rule :: rest =>
    match namerFromRule env mapper rule with
    | .error err => .error err
    | .ok namer =>
      match rulesLoop env mapper rest with
      | .error err => .error err
      | .ok namers => .ok (namer :: namers)

/-- The function `NamersFromConfig`: a namer for each rule in the given config. -/
def NamersFromConfig (env : Env) (cfg : MetricsDiscoveryConfig) (mapper : RESTMapper) :
    Except String (List metricNamer) :=
  rulesLoop env mapper cfg.Rules

/-! ## Sequences of calls on one namer, and notions used in the statements -/

/-- A call of one of the three methods that can write the cache of a namer. -/
inductive Call where
  | resourcesForSeries (series : Series)
  | labelForResource (resource : GroupResource)
  | queryForSeries (series : String) (resource : GroupResource) (namespaceName : String)
      (names : List String)

/-- The namer after a call. -/
def metricNamer.call (n : metricNamer) : Call → metricNamer
  | .resourcesForSeries series => (n.ResourcesForSeries series).2
  | .labelForResource resource => (n.LabelForResource resource).2
  | .queryForSeries series resource namespaceName names =>
    (n.QueryForSeries series resource namespaceName names).2

/-- The namer after a sequence of calls. -/
def metricNamer.run (n : metricNamer) : List Call → metricNamer
  | [] => n
  | c :: cs => (n.call c).run cs

/-- How `ResourcesForSeries` resolves one label, in the words of the specification: the
label->resource cache entry if there is one; otherwise, if there is an extractor and it
matches the label and normalization succeeds, the normalized extracted resource. -/
def metricNamer.resolveLabel (n : metricNamer) (lbl : String) : Option GroupResource :=
  match n.labelToResource lbl with
  | some groupRes => some groupRes
  | none =>
    match n.labelResExtractor with
    | none => none
    | some e =>
      if (e.GroupResourceForLabel lbl).2 then
        match n.mapper.Normalize (e.GroupResourceForLabel lbl).1 with
        | .ok info => some info
        | .error _ => none
      else none

/-- The clause that `QueryForSeries` puts on the label of the resource: equality for one
target name, alternation over the joined names for more than one. -/
def resourceClause (resourceLbl : String) (names : List String) : String :=
  if names.length > 1 then prom.LabelMatches resourceLbl (String.intercalate "|" names)
  else prom.LabelEq resourceLbl (names.headD "")

/-- The invariant of the scan of `ResourcesForSeries`: a label is in `updates` only if the
cache of the namer has no entry for it, and then with the resource it resolves to. -/
def metricNamer.scanInv (n : metricNamer) (st : scanState) : Prop :=
  ∀ p ∈ st.updates, n.labelToResource p.1 = none ∧ n.resolveLabel p.1 = some p.2

/-- The fields of a namer that no method writes are the same in `n1` as in `n`. -/
def metricNamer.sameRule (n n1 : metricNamer) : Prop :=
  n1.seriesQuery = n.seriesQuery ∧ n1.labelTemplate = n.labelTemplate ∧
  n1.labelResExtractor = n.labelResExtractor ∧
  n1.metricsQueryTemplate = n.metricsQueryTemplate ∧ n1.nameMatches = n.nameMatches ∧
  n1.nameAs = n.nameAs ∧ n1.seriesMatchers = n.seriesMatchers ∧ n1.mapper = n.mapper

/-- `LabelForResource(R)` misses the cache of `n` and renders the label `L`. -/
def metricNamer.missRenders (n : metricNamer) (R : GroupResource) (L : String) : Prop :=
  n.resourceToLabel R = none ∧ (n.LabelForResource R).1 = .ok L

/-- Some `LabelForResource` lookup made by the call `c` on `n` misses the cache and renders
the label `L`. -/
def metricNamer.callRenders (n : metricNamer) (L : String) : Call → Prop
  | .resourcesForSeries _ => False
  | .labelForResource R => n.missRenders R L
  | .queryForSeries _ resource namespaceName _ =>
    if namespaceName = "" then n.missRenders resource L
    else
      match n.LabelForResource nsGroupResource with
      | (.ok _, n1) => n.missRenders nsGroupResource L ∨ n1.missRenders resource L
      | (.error _, _) => False

/-- No `LabelForResource` lookup made by the calls `cs`, run in order from `n`, misses the
cache and renders the label `L`. -/
def metricNamer.neverRenders (n : metricNamer) (L : String) : List Call → Prop
  | [] => True
  | c :: cs => ¬ n.callRenders L c ∧ (n.call c).neverRenders L cs

/-- The two cache maps of `n` agree: whenever `resourceToLabel[R] = L` then
`labelToResource[L] = R`. -/
def metricNamer.consistent (n : metricNamer) : Prop :=
  ∀ (R : GroupResource) (L : String), n.resourceToLabel R = some L →
    n.labelToResource L = some R

/-- `LabelForResource(R)` misses the cache of `n` and renders a label that the
resource->label map already holds for another resource. -/
def metricNamer.missCollides (n : metricNamer) (R : GroupResource) : Prop :=
  n.resourceToLabel R = none ∧
    ∃ (L : String) (R1 : GroupResource),
      (n.LabelForResource R).1 = .ok L ∧ n.resourceToLabel R1 = some L

/-- Some `LabelForResource` lookup made by the call `c` on `n` misses the cache and renders
a label that the resource->label map already holds for another resource. -/
def metricNamer.callCollides (n : metricNamer) : Call → Prop
  | .resourcesForSeries _ => False
  | .labelForResource R => n.missCollides R
  | .queryForSeries _ resource namespaceName _ =>
    if namespaceName = "" then n.missCollides resource
    else
      match n.LabelForResource nsGroupResource with
      | (.ok _, n1) => n.missCollides nsGroupResource ∨ n1.missCollides resource
      | (.error _, _) => False

/-- No `LabelForResource` lookup made by the calls `cs`, run in order from `n`, misses the
cache and renders a label that the resource->label map already holds for another
resource. -/
def metricNamer.neverCollides (n : metricNamer) : List Call → Prop
  | [] => True
  | c :: cs => ¬ n.callCollides c ∧ (n.call c).neverCollides cs

/-! ## A concrete environment

A small instance of the external libraries, used to run the namer on the
configuration of the tests: templates whose actions are field references, the
compiled form of the patterns that occur there, and the REST mapper of the tests. -/

/-- A node of a parsed template: literal text, or the action `<<.name>>`. -/
inductive tmplNode where
  | text (s : String)
  | field (name : String)
deriving DecidableEq, Repr

/-- Scanner of a template with the delimiters `<<` and `>>`; `inAction` tells whether an
action is open and `cur` holds, reversed, the characters read since the last delimiter. -/
def tmplScan : List Char → Bool → List Char → Except String (List tmplNode)
  | [], false, cur => .ok [tmplNode.text (String.mk cur.reverse)]
  | [], true, _ => .error "unclosed action"
  | '<' :: '<' :: rest, false, cur =>
    match tmplScan rest true [] with
    | .error err => .error err
    | .ok nodes => .ok (tmplNode.text (String.mk cur.reverse) :: nodes)
  | '>' :: '>' :: rest, true, cur =>
    match cur.reverse with
    | '.' :: name =>
      match tmplScan rest false [] with
      | .error err => .error err
      | .ok nodes => .ok (tmplNode.field (String.mk name) :: nodes)
    | _ => .error "action outside the modelled fragment"
  | c :: rest, inAction, cur => tmplScan rest inAction (c :: cur)

/-- Execution of a scanned template, the fields looked up by `lookupField`. -/
def tmplExec (lookupField : String → Option String) : List tmplNode → Except String String
  | [] => .ok ""
  | tmplNode.text s :: rest =>
    match tmplExec lookupField rest with
    | .error err => .error err
    | .ok out => .ok (s ++ out)
  | tmplNode.field name :: rest =>
    match lookupField name with
    | none => .error ("can not evaluate field " ++ name)
    | some v =>
      match tmplExec lookupField rest with
      | .error err => .error err
      | .ok out => .ok (v ++ out)

/-- The string fields of a group-resource. -/
def groupResourceField (gr : GroupResource) : String → Option String
  | "Group" => some gr.Group
  | "Resource" => some gr.Resource
  | _ => none

/-- The string fields of the query template arguments.  `GroupBySlice` and
`LabelValuesByName`, which are not strings, are outside the modelled fragment of the
templates: an action on one of them fails here. -/
def queryArgsField (args : queryTemplateArgs) : String → Option String
  | "Series" => some args.Series
  | "LabelMatchers" => some args.LabelMatchers
  | "GroupBy" => some args.GroupBy
  | _ => none

/-- Parsing of a label template in the modelled fragment. -/
def parseLabelTemplate (text : String) : Except String (Template GroupResource) :=
  match tmplScan text.toList false [] with
  | .error err => .error err
  | .ok nodes => .ok { Execute := fun gr => tmplExec (groupResourceField gr) nodes }

/-- Parsing of a query template in the modelled fragment. -/
def parseQueryTemplate (text : String) : Except String (Template queryTemplateArgs) :=
  match tmplScan text.toList false [] with
  | .error err => .error err
  | .ok nodes => .ok { Execute := fun args => tmplExec (queryArgsField args) nodes }

/-- The compiled pattern `.*`: it matches at the start of every string, up to the first
line break, and has no capture group. -/
def reMatchAll : Regexp :=
  { FindStringSubmatch := fun s => some [String.mk (s.toList.takeWhile fun c => c ≠ '\n')]
    SubexpNames := [""] }

/-- The compiled pattern `^(?P<resource>.+?)$`: it matches the non-empty strings without a
line break, and its one group, named `resource`, captures the whole string. -/
def reResourceOnly : Regexp :=
  { FindStringSubmatch := fun s =>
      if s ≠ "" ∧ s.toList.all (fun c => c ≠ '\n') then some [s, s] else none
    SubexpNames := ["", "resource"] }

/-- The compiled pattern `^container_.*`: it matches the strings that start with
`container_`, up to the first line break, and has no capture group. -/
def reContainer : Regexp :=
  { FindStringSubmatch := fun s =>
      if "container_".toList.isPrefixOf s.toList then
        some [String.mk (s.toList.takeWhile fun c => c ≠ '\n')]
      else none
    SubexpNames := [""] }

/-- The function `regexp.Compile` on the patterns above. -/
def compilePattern : String → Except String Regexp
  | ".*" => .ok reMatchAll
  | "^(?P<resource>.+?)$" => .ok reResourceOnly
  | "^container_.*" => .ok reContainer
  | _ => .error "pattern outside the modelled fragment"

/-- The concrete environment. -/
def goEnv : Env :=
  { Compile := compilePattern
    ParseLabel := parseLabelTemplate
    ParseQuery := parseQueryTemplate
    matchAll := reMatchAll
    compile_matchAll := rfl }

/-- Modelled from the spec: the kinds known to `restMapper()` of the tests, which is not
among the sources; each row is the singular name, the plural name and the group, as the
expected metrics of `TestListAllMetrics` have them. -/
def restMapperKinds : List (String × String × String) :=
  [("pod", "pods", ""), ("service", "services", ""), ("namespace", "namespaces", ""),
   ("ingress", "ingresses", "extensions"), ("deployment", "deployments", "extensions")]

/-- Modelled from the spec: the mapper `restMapper()` of the tests.  A resource is found
by its singular or plural name; its normal form is the plural name with its group. -/
def restMapper : RESTMapper :=
  { ResourceSingularizer := fun resource =>
      match restMapperKinds.find? (fun k => k.2.1 = resource ∨ k.1 = resource) with
      | some k => .ok k.1
      | none => .error ("no singular name for " ++ resource)
    Normalize := fun gr =>
      match restMapperKinds.find? (fun k => (k.2.1 = gr.Resource ∨ k.1 = gr.Resource) ∧
          (gr.Group = "" ∨ gr.Group = k.2.2)) with
      | some k => .ok { Group := k.2.2, Resource := k.2.1 }
      | none => .error ("no matches for " ++ gr.String) }

/-! ## Example rules and the namers built from them -/

/-- A rule in the style of the default rule for normal metrics: labels of the form
`<<.Resource>>`, no filter and no name rule. -/
def exampleRule : DiscoveryRule :=
  { SeriesQuery := "\x7bnamespace!=\"\"\x7d"
    SeriesFilters := []
    Resources := { Template := "<<.Resource>>", Overrides := [] }
    Name := { Matches := "", As := "" }
    MetricsQuery := "sum(<<.Series>>\x7b<<.LabelMatchers>>\x7d) by (<<.GroupBy>>)" }

/-- The namer that `NamersFromConfig` builds from `exampleRule` (see `exampleNamer_built`). -/
def exampleNamer : metricNamer :=
  { seriesQuery := "\x7bnamespace!=\"\"\x7d"
    labelTemplate := some
      { Execute := fun gr => tmplExec (groupResourceField gr)
          [tmplNode.text "", tmplNode.field "Resource", tmplNode.text ""] }
    labelResExtractor := some { regex := reResourceOnly, resourceInd := 1, groupInd := none }
    metricsQueryTemplate :=
      { Execute := fun args => tmplExec (queryArgsField args)
          [tmplNode.text "sum(", tmplNode.field "Series", tmplNode.text "\x7b",
           tmplNode.field "LabelMatchers", tmplNode.text "\x7d) by (",
           tmplNode.field "GroupBy", tmplNode.text ")"] }
    nameMatches := reMatchAll
    nameAs := "$0"
    seriesMatchers := []
    labelToResource := fun _ => none
    resourceToLabel := fun _ => none
    mapper := restMapper }

/-- The label template
`<<if eq .Resource "pod">><<.Missing>><<else>><<.Resource>><<end>>`, as `text/template`
executes it: it renders the resource, except that its execution fails on the resource
`pod`, where it evaluates a field that a group-resource does not have. -/
def condTemplate : Template GroupResource :=
  { Execute := fun gr =>
      if gr.Resource = "pod" then .error "can not evaluate field Missing"
      else .ok gr.Resource }

/-- The concrete environment, with `condTemplate` as the parse of its text. -/
def condEnv : Env :=
  { goEnv with
    ParseLabel := fun text =>
      if text = "<<if eq .Resource \"pod\">><<.Missing>><<else>><<.Resource>><<end>>" then
        .ok condTemplate
      else parseLabelTemplate text }

/-- The example rule with the text of `condTemplate` as label template. -/
def condRule : DiscoveryRule :=
  { exampleRule with
    Resources :=
      { Template := "<<if eq .Resource \"pod\">><<.Missing>><<else>><<.Resource>><<end>>"
        Overrides := [] } }

/-- The namer that `NamersFromConfig` builds from `condRule`: the example namer with
`condTemplate` as its label template. -/
def condTemplateNamer : metricNamer :=
  { exampleNamer with labelTemplate := some condTemplate }

/-- The example rule with an override: the label `service` carries an ingress. -/
def overrideRule : DiscoveryRule :=
  { exampleRule with
    Resources :=
      { Template := "<<.Resource>>"
        Overrides := [("service", { Group := "extensions", Resource := "ingress" })] } }

/-- The namer that `NamersFromConfig` builds from `overrideRule`. -/
def overrideNamer : metricNamer :=
  { exampleNamer with
    labelToResource := Function.update (fun _ => none) "service"
      (some { Group := "extensions", Resource := "ingresses" })
    resourceToLabel := Function.update (fun _ => none)
      { Group := "extensions", Resource := "ingresses" } (some "service") }

/-- A rule in the style of the default rules for container metrics: no label template, the
labels `namespace` and `pod_name` given by overrides. -/
def podNameRule : DiscoveryRule :=
  { SeriesQuery := "\x7b__name__=~\"^container_.*\"\x7d"
    SeriesFilters := []
    Resources :=
      { Template := ""
        Overrides := [("namespace", { Group := "", Resource := "namespace" }),
          ("pod_name", { Group := "", Resource := "pod" })] }
    Name := { Matches := "", As := "" }
    MetricsQuery := "sum(<<.Series>>\x7b<<.LabelMatchers>>\x7d) by (<<.GroupBy>>)" }

/-- The namer that `NamersFromConfig` builds from `podNameRule`. -/
def podNameNamer : metricNamer :=
  { exampleNamer with
    seriesQuery := "\x7b__name__=~\"^container_.*\"\x7d"
    labelTemplate := none
    labelResExtractor := none
    labelToResource := Function.update
      (Function.update (fun _ => none) "namespace" (some { Group := "", Resource := "namespaces" }))
      "pod_name" (some { Group := "", Resource := "pods" })
    resourceToLabel := Function.update
      (Function.update (fun _ => none) { Group := "", Resource := "namespaces" }
        (some "namespace"))
      { Group := "", Resource := "pods" } (some "pod_name") }

/-! ## Metric names -/

/-- A character of a group reference in a substitution template: a letter, a digit or `_`;
only the ASCII ones, where `regexp` takes every Unicode letter and digit.  The references
of the rules, `$0` and `$1`, are ASCII. -/
def isRefChar (c : Char) : Bool := c.isAlphanum || c = '_'

/-- The value of a group reference that is a number, as `extract` of Go's `regexp` reads
it: `none` (a name, Go's `-1`) when a character is not a digit, when the number has a
leading zero, or when it grows past `10^8`. -/
def refNumber : List Char → Nat → Option Nat
  | [], num => some num
  | c :: rest, num =>
    if c.isDigit ∧ num < 100000000 then refNumber rest (num * 10 + (c.toNat - '0'.toNat))
    else none

/-- The function `extract` of Go's `regexp`: the reference at the start of `str` (after
the `$`), as its name, its number if it is one, and the rest of the template. -/
def expandExtract (str : List Char) : Option (List Char × Option Nat × List Char) :=
  match str with
  | [] => none
  | c :: _ =>
    let brace := decide (c = Char.ofNat 123)
    let str1 := if brace then str.tail else str
    let name := str1.takeWhile isRefChar
    if name = [] then none
    else
      let rest := str1.drop name.length
      let num := if name.head? = some '0' ∧ name.length > 1 then none else refNumber name 0
      if brace then
        match rest with
        | c2 :: rest2 => if c2 = Char.ofNat 125 then some (name, num, rest2) else none
        | [] => none
      else some (name, num, rest)

/-- The text of the first group named `name`, for a reference by name. -/
def namedGroup (name : String) : List String → List String → String
  | namei :: names, g :: groups => if name = namei then g else namedGroup name names groups
  | _, _ => ""

/-- The loop of `expand` of Go's `regexp` on the template `tmpl`, with the texts
`matchGroups` of the match and of its groups (a group that took no part in the match has
the empty text, which is what `expand` appends for it); `fuel` bounds the iterations. -/
def expandLoop (subexpNames : List String) (matchGroups : List String) :
    Nat → List Char → List Char
  | 0, tmpl => tmpl
  | _, [] => []
  | fuel + 1, c :: tmpl =>
    if c ≠ '$' then c :: expandLoop subexpNames matchGroups fuel tmpl
    else
      match tmpl with
      | '$' :: tmpl2 => '$' :: expandLoop subexpNames matchGroups fuel tmpl2
      | _ =>
        match expandExtract tmpl with
        | none => '$' :: expandLoop subexpNames matchGroups fuel tmpl
        | some (_, some num, rest) =>
          (matchGroups.getD num "").toList ++ expandLoop subexpNames matchGroups fuel rest
        | some (name, none, rest) =>
          (namedGroup (String.mk name) subexpNames matchGroups).toList ++
            expandLoop subexpNames matchGroups fuel rest

/-- The method `(*Regexp).ExpandString`, applied to the texts of a match. -/
def Regexp.ExpandString (re : Regexp) (template : String) (matchGroups : List String) :
    String :=
  String.mk (expandLoop re.SubexpNames matchGroups (template.length + 1) template.toList)

/-- The method `MetricNameForSeries`.  `FindStringSubmatchIndex` is `nil` exactly when
`FindStringSubmatch` is, and `ExpandString` reads the texts that the indices delimit. -/
def metricNamer.MetricNameForSeries (n : metricNamer) (series : Series) :
    Except String String :=
  match n.nameMatches.FindStringSubmatch series.Name with
  | none =>
    .error ("series name " ++ series.Name ++ " did not match expected pattern")
  | some matchGroups => .ok (n.nameMatches.ExpandString n.nameAs matchGroups)

/-! ## An engine for a fragment of the `regexp` syntax

The patterns of the default configuration use only: literal characters, `.` with the
repetitions `.*`, `.+`, `.*?`, `.+?`, the anchors `^` and `$` (beginning and end of the
text) and capture groups, named `(?P<name>...)` or not.  A pattern of that fragment is a
sequence of items, matched by backtracking in the order that gives the leftmost match and,
among the matches at that place, the one the priorities of the repetitions select
(greedy: longest first; lazy: shortest first), as `regexp.Compile` specifies.  Every other
pattern is outside the fragment and is refused. -/

/-- An item of a pattern of the fragment: a literal character, `.` (any character but a
line break), `.*` (greedy or lazy), `^`, `$`, and the opening and closing of the capture
group `i`. -/
inductive reItem where
  | lit (c : Char)
  | any
  | star (greedy : Bool)
  | bol
  | eol
  | openGroup (i : Nat)
  | closeGroup (i : Nat)
deriving DecidableEq, Repr

/-- What the parser has read: the items, the names of the groups opened so far (in
order, the empty name for an unnamed group) and the indices of the groups still open,
innermost first. -/
structure reParseState where
  items : List reItem
  names : List String
  stack : List Nat
deriving DecidableEq, Repr

/-- The characters with a meaning in the `regexp` syntax. -/
def reMeta (c : Char) : Bool :=
  c = '\\' || c = '*' || c = '+' || c = '?' || c = '|' || c = '[' || c = ']' ||
  c = Char.ofNat 123 || c = Char.ofNat 125 || c = '(' || c = ')' || c = '^' || c = '$' ||
  c = '.'

/-- The state after opening a group with the given name. -/
def reParseState.openGroup (st : reParseState) (name : String) : reParseState :=
  { items := st.items ++ [reItem.openGroup (st.names.length + 1)]
    names := st.names ++ [name]
    stack := (st.names.length + 1) :: st.stack }

/-- The state after reading the items `its`. -/
def reParseState.push (st : reParseState) (its : List reItem) : reParseState :=
  { st with items := st.items ++ its }

/-- Parser of the fragment.  The second argument holds the characters of a group name
while one is being read, between `(?P<` and `>`. -/
def reParse : List Char → Option (List Char) → reParseState → Except String reParseState
  | [], some _, _ => .error "invalid named capture"
  | [], none, st => if st.stack = [] then .ok st else .error "missing closing )"
  | c :: rest, some nameAcc, st =>
    if c = '>' then
      if nameAcc = [] then .error "invalid named capture"
      else reParse rest none (st.openGroup (String.mk nameAcc))
    else if isRefChar c then reParse rest (some (nameAcc ++ [c])) st
    else .error "invalid named capture"
  | '^' :: rest, none, st => reParse rest none (st.push [reItem.bol])
  | '$' :: rest, none, st => reParse rest none (st.push [reItem.eol])
  | '.' :: '*' :: '?' :: rest, none, st => reParse rest none (st.push [reItem.star false])
  | '.' :: '*' :: rest, none, st => reParse rest none (st.push [reItem.star true])
  | '.' :: '+' :: '?' :: rest, none, st =>
    reParse rest none (st.push [reItem.any, reItem.star false])
  | '.' :: '+' :: rest, none, st => reParse rest none (st.push [reItem.any, reItem.star true])
  | '.' :: rest, none, st => reParse rest none (st.push [reItem.any])
  | '(' :: '?' :: 'P' :: '<' :: rest, none, st => reParse rest (some []) st
  | '(' :: '?' :: _, none, _ => .error "group flags are outside the modelled fragment"
  | '(' :: rest, none, st => reParse rest none (st.openGroup "")
  | ')' :: rest, none, st =>
    match st.stack with
    | [] => .error "unexpected )"
    | i :: stack =>
      reParse rest none { st with items := st.items ++ [reItem.closeGroup i], stack := stack }
  | c :: rest, none, st =>
    if reMeta c then .error "operator outside the modelled fragment"
    else reParse rest none (st.push [reItem.lit c])

/-- The positions at which groups were opened and closed, latest first. -/
structure reCaps where
  opens : List (Nat × Nat)
  closes : List (Nat × Nat)
deriving DecidableEq, Repr

/-- The repetition `.*` at position `pos` before the input, followed by the rest of the
pattern `k`: greedy, it first takes one more character; lazy, it first tries the rest. -/
def starLoop (greedy : Bool) (k : Nat → List Char → reCaps → Option (Nat × reCaps)) :
    Nat → List Char → reCaps → Option (Nat × reCaps)
  | pos, [], caps => k pos [] caps
  | pos, c :: cs, caps =>
    if c = '\n' then k pos (c :: cs) caps
    else if greedy then
      match starLoop greedy k (pos + 1) cs caps with
      | some r => some r
      | none => k pos (c :: cs) caps
    else
      match k pos (c :: cs) caps with
      | some r => some r
      | none => starLoop greedy k (pos + 1) cs caps

/-- A match of the items at position `pos`, before the input that remains: the position
where it ends and the groups, or `none`. -/
def matchItems : List reItem → Nat → List Char → reCaps → Option (Nat × reCaps)
  | [], pos, _, caps => some (pos, caps)
  | reItem.lit c :: rest, pos, input, caps =>
    match input with
    | d :: ds => if c = d then matchItems rest (pos + 1) ds caps else none
    | [] => none
  | reItem.any :: rest, pos, input, caps =>
    match input with
    | d :: ds => if d = '\n' then none else matchItems rest (pos + 1) ds caps
    | [] => none
  | reItem.star greedy :: rest, pos, input, caps =>
    starLoop greedy (matchItems rest) pos input caps
  | reItem.bol :: rest, pos, input, caps =>
    if pos = 0 then matchItems rest pos input caps else none
  | reItem.eol :: rest, pos, input, caps =>
    match input with
    | [] => matchItems rest pos [] caps
    | _ :: _ => none
  | reItem.openGroup i :: rest, pos, input, caps =>
    matchItems rest pos input { caps with opens := (i, pos) :: caps.opens }
  | reItem.closeGroup i :: rest, pos, input, caps =>
    matchItems rest pos input { caps with closes := (i, pos) :: caps.closes }

/-- The leftmost match: the first position, from `pos` on, at which the items match. -/
def searchFrom (items : List reItem) : Nat → List Char → Option (Nat × Nat × reCaps)
  | pos, [] =>
    match matchItems items pos [] { opens := [], closes := [] } with
    | some (stop, caps) => some (pos, stop, caps)
    | none => none
  | pos, c :: cs =>
    match matchItems items pos (c :: cs) { opens := [], closes := [] } with
    | some (stop, caps) => some (pos, stop, caps)
    | none => searchFrom items (pos + 1) cs

/-- The text between two positions. -/
def sliceText (chars : List Char) (start stop : Nat) : String :=
  String.mk ((chars.drop start).take (stop - start))

/-- The text of group `i`, empty when the group took no part in the match. -/
def groupText (chars : List Char) (caps : reCaps) (i : Nat) : String :=
  match caps.opens.lookup i, caps.closes.lookup i with
  | some start, some stop => sliceText chars start stop
  | _, _ => ""

/-- The texts of the leftmost match and of its `groups` groups. -/
def findSubmatch (items : List reItem) (groups : Nat) (chars : List Char) :
    Option (List String) :=
  match searchFrom items 0 chars with
  | none => none
  | some (start, stop, caps) =>
    some (sliceText chars start stop ::
      (List.range groups).map (fun i => groupText chars caps (i + 1)))

/-- The compiled pattern with the given items and group names. -/
def regexpOfItems (items : List reItem) (names : List String) : Regexp :=
  { FindStringSubmatch := fun s => findSubmatch items names.length s.toList
    SubexpNames := "" :: names }

/-- The function `regexp.Compile` on the fragment. -/
def compileRe (pattern : String) : Except String Regexp :=
  match reParse pattern.toList none { items := [], names := [], stack := [] } with
  | .error err => .error ("error parsing regexp: " ++ err)
  | .ok st => .ok (regexpOfItems st.items st.names)

/-- The environment with the engine as `regexp.Compile`. -/
def reEnv : Env :=
  { Compile := compileRe
    ParseLabel := parseLabelTemplate
    ParseQuery := parseQueryTemplate
    matchAll := regexpOfItems [reItem.star true] []
    compile_matchAll := rfl }

/-! ## The default configuration (`cmd/config-gen/utils/default.go`) -/

/-- The helpers of `pkg/client` that `DefaultConfig` uses to write its series selectors;
that package is not among the sources, and the selectors play no part in the filters and
names of the rules. -/
structure promHelpers where
  MatchSeries : String → List String → String
  NameMatches : String → String
  NameNotMatches : String → String
  LabelNeq : String → String → String

/-- Modelled from the spec: the helpers of `pkg/client`, writing a selector as the spec
writes its clauses (`namespace="ns1"`, `pod=~"a|b"`): the clauses, joined by commas, between
braces after the name. -/
def promText : promHelpers :=
  { MatchSeries := fun name labelExpressions =>
      if labelExpressions = [] then name
      else name ++ "\x7b" ++ String.intercalate "," labelExpressions ++ "\x7d"
    NameMatches := fun expr => prom.LabelMatches "__name__" expr
    NameNotMatches := fun expr => "__name__" ++ "!~\"" ++ expr ++ "\""
    LabelNeq := fun label value => label ++ "!=\"" ++ value ++ "\"" }

/-- The function `DefaultConfig`; `rateInterval` is the text
`pmodel.Duration(rateInterval).String()` of the rate interval. -/
def DefaultConfig (client : promHelpers) (rateInterval : String) ( labelPrefix : String) :
    MetricsDiscoveryConfig :=
  { Rules := [
      -- container seconds rate metrics
      { SeriesQuery := client.MatchSeries ""
          [client.NameMatches "^container_.*", client.LabelNeq "container_name" "POD",
           client.LabelNeq "namespace" "", client.LabelNeq "pod_name" ""]
        SeriesFilters := []
        Resources :=
          { Template := ""
            Overrides := [("namespace", { Group := "", Resource := "namespace" }),
              ("pod_name", { Group := "", Resource := "pod" })] }
        Name := { Matches := "^container_(.*)_seconds_total$", As := "" }
        MetricsQuery :=
          "sum(rate(<<.Series>>\x7b<<.LabelMatchers>>,container_name!=\"POD\"\x7d[" ++
            rateInterval ++ "])) by (<<.GroupBy>>)" },
      -- container rate metrics
      { SeriesQuery := client.MatchSeries ""
          [client.NameMatches "^container_.*", client.LabelNeq "container_name" "POD",
           client.LabelNeq "namespace" "", client.LabelNeq "pod_name" ""]
        SeriesFilters := [{ Is := "", IsNot := "^container_.*_seconds_total$" }]
        Resources :=
          { Template := ""
            Overrides := [("namespace", { Group := "", Resource := "namespace" }),
              ("pod_name", { Group := "", Resource := "pod" })] }
        Name := { Matches := "^container_(.*)_total$", As := "" }
        MetricsQuery :=
          "sum(rate(<<.Series>>\x7b<<.LabelMatchers>>,container_name!=\"POD\"\x7d[" ++
            rateInterval ++ "])) by (<<.GroupBy>>)" },
      -- container non-cumulative metrics
      { SeriesQuery := client.MatchSeries ""
          [client.NameMatches "^container_.*", client.LabelNeq "container_name" "POD",
           client.LabelNeq "namespace" "", client.LabelNeq "pod_name" ""]
        SeriesFilters := [{ Is := "", IsNot := "^container_.*_total$" }]
        Resources :=
          { Template := ""
            Overrides := [("namespace", { Group := "", Resource := "namespace" }),
              ("pod_name", { Group := "", Resource := "pod" })] }
        Name := { Matches := "^container_(.*)$", As := "" }
        MetricsQuery :=
          "sum(<<.Series>>\x7b<<.LabelMatchers>>,container_name!=\"POD\"\x7d) by (<<.GroupBy>>)" },
      -- normal non-cumulative metrics
      { SeriesQuery := client.MatchSeries ""
          [client.LabelNeq ( labelPrefix ++ "namespace") "",
           client.NameNotMatches "^container_.*"]
        SeriesFilters := [{ Is := "", IsNot := ".*_total$" }]
        Resources := { Template := labelPrefix ++ "<<.Resource>>", Overrides := [] }
        Name := { Matches := "", As := "" }
        MetricsQuery := "sum(<<.Series>>\x7b<<.LabelMatchers>>\x7d) by (<<.GroupBy>>)" },
      -- normal rate metrics
      { SeriesQuery := client.MatchSeries ""
          [client.LabelNeq ( labelPrefix ++ "namespace") "",
           client.NameNotMatches "^container_.*"]
        SeriesFilters := [{ Is := "", IsNot := ".*_seconds_total" }]
        Name := { Matches := "^(.*)_total$", As := "" }
        Resources := { Template := labelPrefix ++ "<<.Resource>>", Overrides := [] }
        MetricsQuery :=
          "sum(rate(<<.Series>>\x7b<<.LabelMatchers>>\x7d[" ++ rateInterval ++
            "])) by (<<.GroupBy>>)" },
      -- seconds rate metrics
      { SeriesQuery := client.MatchSeries ""
          [client.LabelNeq ( labelPrefix ++ "namespace") "",
           client.NameNotMatches "^container_.*"]
        SeriesFilters := []
        Name := { Matches := "^(.*)_seconds_total$", As := "" }
        Resources := { Template := labelPrefix ++ "<<.Resource>>", Overrides := [] }
        MetricsQuery :=
          "sum(rate(<<.Series>>\x7b<<.LabelMatchers>>\x7d[" ++ rateInterval ++
            "])) by (<<.GroupBy>>)" }] }

/-- The namers of the default configuration as the tests build it: rate interval one
minute, no label prefix, the mapper of the tests (see `defaultNamers_built`). -/
def defaultNamers : List metricNamer :=
  match NamersFromConfig reEnv (DefaultConfig promText "1m" "") restMapper with
  | .ok namers => namers
  | .error _ => []

/-- The namer that `NamersFromConfig` builds from `exampleRule` with the engine as
`regexp.Compile` (see `reExampleNamer_built`). -/
def reExampleNamer : metricNamer :=
  { exampleNamer with
    labelResExtractor := some (labelGroupResExtractor.mk
      (regexpOfItems [reItem.bol, reItem.openGroup 1, reItem.any, reItem.star false,
        reItem.closeGroup 1, reItem.eol] ["resource"]) 1 none)
    nameMatches := regexpOfItems [reItem.star true] [] }

/-- The example rule with a label template that carries the group of the resource. -/
def groupRule : DiscoveryRule :=
  { exampleRule with
    Resources := { Template := "<<.Group>>_<<.Resource>>", Overrides := [] } }

/-- The namers built from `groupRule` (see `groupNamers_built`). -/
def groupNamers : List metricNamer :=
  match NamersFromConfig reEnv { Rules := [groupRule] } restMapper with
  | .ok namers => namers
  | .error _ => []

/-- The example rule with an empty query template. -/
def emptyQueryRule : DiscoveryRule :=
  { exampleRule with MetricsQuery := "" }

/-- The namer that `NamersFromConfig` builds from `emptyQueryRule` (see
`emptyQueryNamer_built`). -/
def emptyQueryNamer : metricNamer :=
  { exampleNamer with
    metricsQueryTemplate :=
      Template.mk fun args => tmplExec (queryArgsField args) [tmplNode.text ""] }

/-! ## Calls that overlap in time

The methods hold the lock of the namer in regions only.  `ResourcesForSeries` scans the
labels under the read lock, releases it, and merges its updates under the write lock when
there are any.  `LabelForResource` looks the resource up under the read lock, releases it,
and on a miss `makeLabelForResource` stores the label under the write lock; what it
computes before reads only the template and the mapper, which no method writes.  A region
runs alone; between two regions of one goroutine, regions of the others can run. -/

/-- Where a goroutine stands in its call: before the first region of `ResourcesForSeries`,
before its merge with the updates of the scan, before the lookup of `LabelForResource`,
before `makeLabelForResource`, or after the return. -/
inductive callPhase where
  | resourcesForSeries (series : Series)
  | mergeUpdates (updates : List (String × GroupResource))
  | labelForResource (resource : GroupResource)
  | makeLabelForResource (resource : GroupResource)
  | returned
deriving DecidableEq, Repr

/-- The next region of a goroutine, run on the namer as it is at that time: the namer
afterwards and where the goroutine then stands. -/
def metricNamer.region (n : metricNamer) : callPhase → metricNamer × callPhase
  | .resourcesForSeries series =>
    let st := n.scanLabels series.Labels { resources := [], updates := [], namespaced := false }
    if st.updates.length > 0 then (n, .mergeUpdates st.updates) else (n, .returned)
  | .mergeUpdates updates =>
    ({ n with labelToResource := mergeUpdates updates n.labelToResource }, .returned)
  | .labelForResource resource =>
    match n.resourceToLabel resource with
    | some _ => (n, .returned)
    | none => (n, .makeLabelForResource resource)
  | .makeLabelForResource resource => ((n.makeLabelForResource resource).2, .returned)
  | .returned => (n, .returned)

/-- The namer and the goroutines after a schedule: each entry of the schedule names the
goroutine that runs its next region. -/
def metricNamer.interleave (n : metricNamer) : List Nat → List callPhase →
    metricNamer × List callPhase
  | [], phases => (n, phases)
  | i :: schedule, phases =>
    match phases[i]? with
    | none => n.interleave schedule phases
    | some phase => (n.region phase).1.interleave schedule (phases.set i (n.region phase).2)

/-- The kinds of a cluster that serves deployments from two groups, `extensions` first,
and has a kind in a group with dots in its name: singular name, plural name and group. -/
def deploymentKinds : List (String × String × String) :=
  [("pod", "pods", ""), ("deployment", "deployments", "extensions"),
   ("deployment", "deployments", "apps"), ("route", "routes", "route.openshift.io")]

/-- A mapper over `deploymentKinds`, which resolves names as `restMapper` does: a resource
is found by its singular or plural name, in the given group when there is one and in the
first group that has it otherwise. -/
def deploymentMapper : RESTMapper :=
  { ResourceSingularizer := fun resource =>
      match deploymentKinds.find? (fun k => k.2.1 = resource ∨ k.1 = resource) with
      | some k => .ok k.1
      | none => .error ("no singular name for " ++ resource)
    Normalize := fun gr =>
      match deploymentKinds.find? (fun k => (k.2.1 = gr.Resource ∨ k.1 = gr.Resource) ∧
          (gr.Group = "" ∨ gr.Group = k.2.2)) with
      | some k => .ok { Group := k.2.2, Resource := k.2.1 }
      | none => .error ("no matches for " ++ gr.String) }

/-- The namer that `NamersFromConfig` builds from `exampleRule` with `deploymentMapper`
(see `deploymentNamer_built`). -/
def deploymentNamer : metricNamer :=
  { reExampleNamer with mapper := deploymentMapper }

/-- The characters of a Prometheus label name: ASCII letters, digits and the underscore. -/
def labelChars : List Char :=
  "abcdefghijklmnopqrstuvwxyzABCDEFGHIJKLMNOPQRSTUVWXYZ0123456789_".toList

/-- The example rule with the label template `kube_<<.Resource>>`. -/
def kubeRule : DiscoveryRule :=
  { exampleRule with
    Resources := { Template := "kube_<<.Resource>>", Overrides := [] } }

/-- The namer that `NamersFromConfig` builds from `kubeRule` (see `kubeNamer_built`). -/
def kubeNamer : metricNamer :=
  { reExampleNamer with
    labelTemplate := some (Template.mk fun gr => tmplExec (groupResourceField gr)
      [tmplNode.text "kube_", tmplNode.field "Resource", tmplNode.text ""])
    labelResExtractor := some (labelGroupResExtractor.mk
      (regexpOfItems [reItem.bol, reItem.lit 'k', reItem.lit 'u', reItem.lit 'b',
        reItem.lit 'e', reItem.lit '_', reItem.openGroup 1, reItem.any, reItem.star false,
        reItem.closeGroup 1, reItem.eol] ["resource"]) 1 none) }

/-- The namer that `NamersFromConfig` builds from `groupRule` (see `groupNamer_built`). -/
def groupNamer : metricNamer :=
  { reExampleNamer with
    labelTemplate := some (Template.mk fun gr => tmplExec (groupResourceField gr)
      [tmplNode.text "", tmplNode.field "Group", tmplNode.text "_",
        tmplNode.field "Resource", tmplNode.text ""])
    labelResExtractor := some (labelGroupResExtractor.mk
      (regexpOfItems [reItem.bol, reItem.openGroup 1, reItem.any, reItem.star false,
        reItem.closeGroup 1, reItem.lit '_', reItem.openGroup 2, reItem.any,
        reItem.star false, reItem.closeGroup 2, reItem.eol] ["group", "resource"]) 2
      (some 1)) }

/-- The example rule with the label template `<<.Resource>>_<<.Group>>`. -/
def resourceGroupRule : DiscoveryRule :=
  { exampleRule with
    Resources := { Template := "<<.Resource>>_<<.Group>>", Overrides := [] } }

/-- The namer that `NamersFromConfig` builds from `resourceGroupRule` (see
`resourceGroupNamer_built`). -/
def resourceGroupNamer : metricNamer :=
  { reExampleNamer with
    labelTemplate := some (Template.mk fun gr => tmplExec (groupResourceField gr)
      [tmplNode.text "", tmplNode.field "Resource", tmplNode.text "_",
        tmplNode.field "Group", tmplNode.text ""])
    labelResExtractor := some (labelGroupResExtractor.mk
      (regexpOfItems [reItem.bol, reItem.openGroup 1, reItem.any, reItem.star false,
        reItem.closeGroup 1, reItem.lit '_', reItem.openGroup 2, reItem.any,
        reItem.star false, reItem.closeGroup 2, reItem.eol] ["resource", "group"]) 1
      (some 2)) }

/-- The namer that `NamersFromConfig` builds from `groupRule` with `deploymentMapper`
(see `groupDeploymentNamer_built`). -/
def groupDeploymentNamer : metricNamer :=
  { groupNamer with mapper := deploymentMapper }

/-! ## Series filtering -/

theorem matchersLoop_eq_all (matchers : List reMatcher) (name : String) :
    matchersLoop matchers name = matchers.all (fun m => m.Matches name) := by
  induction matchers with
  | nil => rfl
  | cons m rest ih =>
    simp only [matchersLoop, List.all_cons, ih]
    cases m.Matches name <;> simp

theorem seriesLoop_eq_append_filter (matchers : List reMatcher) (initialSeries : List Series)
    (finalSeries : List Series) :
    seriesLoop matchers initialSeries finalSeries =
      finalSeries ++ initialSeries.filter (fun s => matchersLoop matchers s.Name) := by
  induction initialSeries generalizing finalSeries with
  | nil => simp [seriesLoop]
  | cons s rest ih =>
    by_cases h : matchersLoop matchers s.Name = true
    · simp [seriesLoop, h, ih]
    · simp [seriesLoop, h, ih]

/-- Claim C1. `FilterSeries` returns exactly the series of its argument, in the original
order, whose name satisfies `Matches` for every series matcher of the namer; a namer
without series matchers returns its argument unchanged. -/
theorem FilterSeries_eq_filter (n : metricNamer) (S : List Series) :
    n.FilterSeries S = S.filter (fun s => n.seriesMatchers.all (fun m => m.Matches s.Name)) ∧
    ({ n with seriesMatchers := [] } : metricNamer).FilterSeries S = S := by
  constructor
  · unfold metricNamer.FilterSeries
    split
    · next h =>
      have hnil : n.seriesMatchers = [] := List.length_eq_zero.mp h
      simp [hnil]
    · rw [seriesLoop_eq_append_filter]
      simp [matchersLoop_eq_all]
  · simp [metricNamer.FilterSeries]

/-! ## Label / resource extractor -/

theorem subexpInds_range (names : List String) (i : Nat) (acc : Option Nat × Option Nat) :
    (∀ j, (subexpInds names i acc).1 = some j → acc.1 = some j ∨ (i ≤ j ∧ j < i + names.length)) ∧
    (∀ j, (subexpInds names i acc).2 = some j → acc.2 = some j ∨ (i ≤ j ∧ j < i + names.length)) := by
  induction names generalizing i acc with
  | nil =>
    obtain ⟨g, r⟩ := acc
    exact ⟨fun j h => Or.inl h, fun j h => Or.inl h⟩
  | cons name rest ih =>
    obtain ⟨g, r⟩ := acc
    simp only [subexpInds, List.length_cons]
    split
    · obtain ⟨h1, h2⟩ := ih (i + 1) (some i, r)
      refine ⟨fun j h => ?_, fun j h => ?_⟩
      · rcases h1 j h with h3 | h3
        · simp only [Option.some.injEq] at h3
          exact Or.inr ⟨by omega, by omega⟩
        · exact Or.inr ⟨by omega, by omega⟩
      · rcases h2 j h with h3 | h3
        · exact Or.inl h3
        · exact Or.inr ⟨by omega, by omega⟩
    · split
      · obtain ⟨h1, h2⟩ := ih (i + 1) (g, some i)
        refine ⟨fun j h => ?_, fun j h => ?_⟩
        · rcases h1 j h with h3 | h3
          · exact Or.inl h3
          · exact Or.inr ⟨by omega, by omega⟩
        · rcases h2 j h with h3 | h3
          · simp only [Option.some.injEq] at h3
            exact Or.inr ⟨by omega, by omega⟩
          · exact Or.inr ⟨by omega, by omega⟩
      · obtain ⟨h1, h2⟩ := ih (i + 1) (g, r)
        refine ⟨fun j h => ?_, fun j h => ?_⟩
        · rcases h1 j h with h3 | h3
          · exact Or.inl h3
          · exact Or.inr ⟨by omega, by omega⟩
        · rcases h2 j h with h3 | h3
          · exact Or.inl h3
          · exact Or.inr ⟨by omega, by omega⟩

theorem newLabelGroupResExtractor_inds (env : Env) (labelTemplate : Template GroupResource)
    (e : labelGroupResExtractor) (h : newLabelGroupResExtractor env labelTemplate = .ok e) :
    e.resourceInd < e.regex.SubexpNames.length ∧
    ∀ gi, e.groupInd = some gi → gi < e.regex.SubexpNames.length := by
  unfold newLabelGroupResExtractor at h
  split at h
  · cases h
  · split at h
    · cases h
    · split at h
      · cases h
      · next labelRegex _ =>
        have hr := subexpInds_range labelRegex.SubexpNames 0 (none, none)
        split at h
        · cases h
        · next groupInd resInd hs =>
          simp only [Except.ok.injEq] at h
          subst h
          rw [hs] at hr
          simp only at hr
          refine ⟨?_, fun gi hgi => ?_⟩
          · show resInd < labelRegex.SubexpNames.length
            rcases hr.2 resInd rfl with h3 | h3
            · cases h3
            · omega
          · show gi < labelRegex.SubexpNames.length
            rcases hr.1 gi hgi with h3 | h3
            · cases h3
            · omega

/-! ## Regex matchers -/

theorem newReMatcher_ok_iff (env : Env) (cfg : RegexFilter) (m : reMatcher) :
    newReMatcher env cfg = .ok m ↔
      ((cfg.Is ≠ "" ∧ cfg.IsNot = "" ∧
          ∃ re, env.Compile cfg.Is = .ok re ∧ m = { regex := re, positive := true }) ∨
       (cfg.Is = "" ∧ cfg.IsNot ≠ "" ∧
          ∃ re, env.Compile cfg.IsNot = .ok re ∧ m = { regex := re, positive := false })) := by
  unfold newReMatcher
  by_cases hIs : cfg.Is = "" <;> by_cases hNot : cfg.IsNot = ""
  · simp [hIs, hNot]
  · simp only [hIs, hNot, ne_eq, not_true_eq_false, not_false_eq_true, and_true, and_false,
      if_false, false_and, true_and, false_or, decide_False]
    cases hc : env.Compile cfg.IsNot with
    | error e => simp
    | ok re =>
      simp only [Except.ok.injEq, exists_eq_left']
      exact eq_comm
  · simp only [hIs, hNot, ne_eq, not_true_eq_false, not_false_eq_true, and_true, and_false,
      if_false, false_and, true_and, or_false, decide_True, if_true]
    cases hc : env.Compile cfg.Is with
    | error e => simp
    | ok re =>
      simp only [Except.ok.injEq, exists_eq_left']
      exact eq_comm
  · simp [hIs, hNot]

/-- Claim C2. A matcher that `newReMatcher` builds from `is` matches exactly the strings
that the compiled pattern matches; one built from `isNot` matches exactly the strings
that the compiled pattern does not match. -/
theorem newReMatcher_Matches (env : Env) (cfg : RegexFilter) (m : reMatcher)
    (h : newReMatcher env cfg = .ok m) :
    (cfg.Is ≠ "" → ∃ P, env.Compile cfg.Is = .ok P ∧
        ∀ v, m.Matches v = true ↔ P.MatchString v = true) ∧
    (cfg.IsNot ≠ "" → ∃ P, env.Compile cfg.IsNot = .ok P ∧
        ∀ v, m.Matches v = true ↔ P.MatchString v = false) := by
  rcases (newReMatcher_ok_iff env cfg m).mp h with
    ⟨hIs, hNot, re, hre, hm⟩ | ⟨hIs, hNot, re, hre, hm⟩
  · refine ⟨fun _ => ⟨re, hre, fun v => ?_⟩, fun h2 => absurd hNot h2⟩
    subst hm
    simp [reMatcher.Matches]
  · refine ⟨fun h2 => absurd hIs h2, fun _ => ⟨re, hre, fun v => ?_⟩⟩
    subst hm
    simp [reMatcher.Matches]

theorem newReMatcher_Matches_witness :
    (∃ P, goEnv.Compile "^container_.*" = .ok P ∧
      ∀ v, reMatcher.Matches { regex := reContainer, positive := true } v = true ↔
        P.MatchString v = true) ∧
    (∃ P, goEnv.Compile "^container_.*" = .ok P ∧
      ∀ v, reMatcher.Matches { regex := reContainer, positive := false } v = true ↔
        P.MatchString v = false) :=
  ⟨(newReMatcher_Matches goEnv { Is := "^container_.*", IsNot := "" }
      { regex := reContainer, positive := true } rfl).1 (by decide),
   (newReMatcher_Matches goEnv { Is := "", IsNot := "^container_.*" }
      { regex := reContainer, positive := false } rfl).2 (by decide)⟩

theorem newReMatcher_error_of_shape (env : Env) (f : RegexFilter)
    (h : (f.Is ≠ "" ∧ f.IsNot ≠ "") ∨ (f.Is = "" ∧ f.IsNot = "")) :
    ∃ err, newReMatcher env f = .error err := by
  unfold newReMatcher
  rcases h with ⟨h1, h2⟩ | ⟨h1, h2⟩
  · rw [if_pos ⟨h1, h2⟩]
    exact ⟨_, rfl⟩
  · have h3 : ¬ (f.Is ≠ "" ∧ f.IsNot ≠ "") := fun hh => hh.1 h1
    rw [if_neg h3, if_pos ⟨h1, h2⟩]
    exact ⟨_, rfl⟩

theorem filtersLoop_error_of_shape (env : Env) (seriesQuery : String)
    (filters : List RegexFilter) (f : RegexFilter) (hf : f ∈ filters)
    (h : (f.Is ≠ "" ∧ f.IsNot ≠ "") ∨ (f.Is = "" ∧ f.IsNot = "")) :
    ∃ err, filtersLoop env seriesQuery filters = .error err := by
  induction filters with
  | nil => cases hf
  | cons g rest ih =>
    unfold filtersLoop
    cases hg : newReMatcher env g with
    | error e => exact ⟨_, rfl⟩
    | ok m =>
      have hne : f ≠ g := by
        rintro rfl
        obtain ⟨err, herr⟩ := newReMatcher_error_of_shape env f h
        rw [herr] at hg
        cases hg
      have hmem : f ∈ rest := by
        rcases List.mem_cons.mp hf with h1 | h1
        · exact absurd h1 hne
        · exact h1
      obtain ⟨err, herr⟩ := ih hmem
      exact ⟨err, by simp [herr]⟩

theorem namerFromRule_error_of_shape (env : Env) (mapper : RESTMapper) (rule : DiscoveryRule)
    (f : RegexFilter) (hf : f ∈ rule.SeriesFilters)
    (h : (f.Is ≠ "" ∧ f.IsNot ≠ "") ∨ (f.Is = "" ∧ f.IsNot = "")) :
    ∃ err, namerFromRule env mapper rule = .error err := by
  obtain ⟨err, herr⟩ := filtersLoop_error_of_shape env rule.SeriesQuery rule.SeriesFilters f hf h
  have hsm : seriesMatchersOfRule env rule = .error err := by
    simp [seriesMatchersOfRule, herr]
  unfold namerFromRule
  cases labelTemplateOfRule env rule with
  | error e => exact ⟨_, rfl⟩
  | ok lt =>
    obtain ⟨labelTemplate, labelResExtractor⟩ := lt
    cases env.ParseQuery rule.MetricsQuery with
    | error e => exact ⟨_, rfl⟩
    | ok q => exact ⟨err, by simp [hsm]⟩

theorem rulesLoop_error_of_shape (env : Env) (mapper : RESTMapper) (rules : List DiscoveryRule)
    (rule : DiscoveryRule) (hr : rule ∈ rules) (f : RegexFilter) (hf : f ∈ rule.SeriesFilters)
    (h : (f.Is ≠ "" ∧ f.IsNot ≠ "") ∨ (f.Is = "" ∧ f.IsNot = "")) :
    ∃ err, rulesLoop env mapper rules = .error err := by
  induction rules with
  | nil => cases hr
  | cons r rest ih =>
    unfold rulesLoop
    cases hn : namerFromRule env mapper r with
    | error e => exact ⟨_, rfl⟩
    | ok namer =>
      have hne : rule ≠ r := by
        rintro rfl
        obtain ⟨err, herr⟩ := namerFromRule_error_of_shape env mapper rule f hf h
        rw [herr] at hn
        cases hn
      have hmem : rule ∈ rest := by
        rcases List.mem_cons.mp hr with h1 | h1
        · exact absurd h1 hne
        · exact h1
      obtain ⟨err, herr⟩ := ih hmem
      exact ⟨err, by simp [herr]⟩

/-- Claim C3. A rule set in which some rule has a series filter with `is` and `isNot` both
non-empty, or both empty, makes `NamersFromConfig` return an error (and so no namers);
`newReMatcher` rejects a filter of either shape whatever its patterns are, and a filter
with exactly one of the two set is accepted exactly when its pattern compiles, the result
being that compiled pattern with the polarity of the field that was set. -/
theorem NamersFromConfig_rejects_filter_shape (env : Env) (mapper : RESTMapper) :
    (∀ (cfg : MetricsDiscoveryConfig) (rule : DiscoveryRule) (f : RegexFilter),
      rule ∈ cfg.Rules → f ∈ rule.SeriesFilters →
      ((f.Is ≠ "" ∧ f.IsNot ≠ "") ∨ (f.Is = "" ∧ f.IsNot = "")) →
      ∃ err, NamersFromConfig env cfg mapper = .error err) ∧
    (∀ f : RegexFilter, ((f.Is ≠ "" ∧ f.IsNot ≠ "") ∨ (f.Is = "" ∧ f.IsNot = "")) →
      ∃ err, newReMatcher env f = .error err) ∧
    (∀ f : RegexFilter, ¬ ((f.Is ≠ "" ∧ f.IsNot ≠ "") ∨ (f.Is = "" ∧ f.IsNot = "")) →
      (∀ re, env.Compile (if f.Is ≠ "" then f.Is else f.IsNot) = .ok re →
        newReMatcher env f = .ok { regex := re, positive := decide (f.Is ≠ "") }) ∧
      (∀ err, env.Compile (if f.Is ≠ "" then f.Is else f.IsNot) = .error err →
        ∃ err2, newReMatcher env f = .error err2)) := by
  refine ⟨?_, ?_, ?_⟩
  · intro cfg rule f hr hf h
    exact rulesLoop_error_of_shape env mapper cfg.Rules rule hr f hf h
  · intro f h
    exact newReMatcher_error_of_shape env f h
  · intro f h
    have h1 : ¬ (f.Is ≠ "" ∧ f.IsNot ≠ "") := fun hh => h (Or.inl hh)
    have h2 : ¬ (f.Is = "" ∧ f.IsNot = "") := fun hh => h (Or.inr hh)
    constructor
    · intro re hre
      unfold newReMatcher
      rw [if_neg h1, if_neg h2]
      simp only [hre]
    · intro err herr
      unfold newReMatcher
      rw [if_neg h1, if_neg h2]
      simp only [herr]
      exact ⟨_, rfl⟩

theorem NamersFromConfig_rejects_filter_shape_witness :
    (∃ err, NamersFromConfig goEnv
      { Rules := [
        { SeriesQuery := "a", SeriesFilters := [{ Is := "^container_.*", IsNot := "" }],
          Resources := { Template := "<<.Resource>>", Overrides := [] },
          Name := { Matches := "", As := "" }, MetricsQuery := "<<.Series>>" },
        { SeriesQuery := "b",
          SeriesFilters := [{ Is := "", IsNot := "^container_.*" }, { Is := "", IsNot := "" }],
          Resources := { Template := "<<.Resource>>", Overrides := [] },
          Name := { Matches := "", As := "" }, MetricsQuery := "<<.Series>>" }] }
      restMapper = .error err) ∧
    (∃ err, newReMatcher goEnv { Is := ".*", IsNot := ".*" } = .error err) ∧
    newReMatcher goEnv { Is := "", IsNot := "^container_.*" } =
      .ok { regex := reContainer, positive := false } ∧
    (∃ err, newReMatcher goEnv { Is := "(", IsNot := "" } = .error err) :=
  ⟨(NamersFromConfig_rejects_filter_shape goEnv restMapper).1 _ _ { Is := "", IsNot := "" }
      (List.mem_cons_of_mem _ (List.mem_singleton.mpr rfl))
      (List.mem_cons_of_mem _ (List.mem_singleton.mpr rfl)) (Or.inr ⟨rfl, rfl⟩),
   (NamersFromConfig_rejects_filter_shape goEnv restMapper).2.1 { Is := ".*", IsNot := ".*" }
      (Or.inl ⟨by decide, by decide⟩),
   ((NamersFromConfig_rejects_filter_shape goEnv restMapper).2.2
      { Is := "", IsNot := "^container_.*" } (by decide)).1 reContainer rfl,
   ((NamersFromConfig_rejects_filter_shape goEnv restMapper).2.2
      { Is := "(", IsNot := "" } (by decide)).2 _ rfl⟩

/-! ## The example namer -/

theorem exampleNamer_built :
    NamersFromConfig goEnv { Rules := [exampleRule] } restMapper = .ok [exampleNamer] := rfl

/-! ## Label for a resource -/

theorem LabelForResource_hit (n : metricNamer) (R : GroupResource) (L : String)
    (h : n.resourceToLabel R = some L) : n.LabelForResource R = (.ok L, n) := by
  simp [metricNamer.LabelForResource, h]

theorem makeLabelForResource_ok (n : metricNamer) (R : GroupResource) (L : String)
    (n1 : metricNamer) (h : n.makeLabelForResource R = (.ok L, n1)) :
    ∃ T singularRes, n.labelTemplate = some T ∧
      n.mapper.ResourceSingularizer R.Resource = .ok singularRes ∧
      T.Execute { Group := groupNameSanitizer R.Group, Resource := singularRes } = .ok L ∧
      L ≠ "" ∧
      n1 = { n with
        resourceToLabel := Function.update n.resourceToLabel R (some L)
        labelToResource := Function.update n.labelToResource L (some R) } := by
  unfold metricNamer.makeLabelForResource at h
  cases hT : n.labelTemplate with
  | none => simp [hT] at h
  | some T =>
    cases hs : n.mapper.ResourceSingularizer R.Resource with
    | error e => simp [hT, hs] at h
    | ok singularRes =>
      cases he : T.Execute { Group := groupNameSanitizer R.Group, Resource := singularRes } with
      | error e => simp [hT, hs, he] at h
      | ok buff =>
        by_cases hb : buff = ""
        · simp [hT, hs, he, hb] at h
        · simp only [hT, hs, he, hb, if_false, Prod.mk.injEq, Except.ok.injEq] at h
          obtain ⟨h1, h2⟩ := h
          subst h1
          exact ⟨T, singularRes, rfl, rfl, he, hb, h2.symm⟩

theorem makeLabelForResource_error (n : metricNamer) (R : GroupResource) (err : String)
    (n1 : metricNamer) (h : n.makeLabelForResource R = (.error err, n1)) : n1 = n := by
  unfold metricNamer.makeLabelForResource at h
  cases hT : n.labelTemplate with
  | none =>
    simp only [hT, Prod.mk.injEq] at h
    exact h.2.symm
  | some T =>
    cases hs : n.mapper.ResourceSingularizer R.Resource with
    | error e =>
      simp only [hT, hs, Prod.mk.injEq] at h
      exact h.2.symm
    | ok singularRes =>
      cases he : T.Execute { Group := groupNameSanitizer R.Group, Resource := singularRes } with
      | error e =>
        simp only [hT, hs, he, Prod.mk.injEq] at h
        exact h.2.symm
      | ok buff =>
        by_cases hb : buff = ""
        · simp only [hT, hs, he, hb, if_true, Prod.mk.injEq] at h
          exact h.2.symm
        · simp [hT, hs, he, hb] at h

theorem LabelForResource_ok (n : metricNamer) (R : GroupResource) (L : String)
    (n1 : metricNamer) (h : n.LabelForResource R = (.ok L, n1)) :
    (n.resourceToLabel R = some L ∧ n1 = n) ∨
    (n.resourceToLabel R = none ∧ n.makeLabelForResource R = (.ok L, n1)) := by
  unfold metricNamer.LabelForResource at h
  cases hc : n.resourceToLabel R with
  | some lbl =>
    simp only [hc, Prod.mk.injEq, Except.ok.injEq] at h
    exact Or.inl ⟨by rw [h.1], h.2.symm⟩
  | none =>
    right
    refine ⟨rfl, ?_⟩
    simp only [hc] at h
    rcases hm : n.makeLabelForResource R with ⟨res, n2⟩
    cases res with
    | error e => simp [hm] at h
    | ok lbl =>
      simp only [hm, Prod.mk.injEq, Except.ok.injEq] at h
      rw [h.1, h.2]

theorem LabelForResource_error (n : metricNamer) (R : GroupResource) (err : String)
    (n1 : metricNamer) (h : n.LabelForResource R = (.error err, n1)) : n1 = n := by
  unfold metricNamer.LabelForResource at h
  cases hc : n.resourceToLabel R with
  | some lbl => simp [hc] at h
  | none =>
    simp only [hc] at h
    rcases hm : n.makeLabelForResource R with ⟨res, n2⟩
    cases res with
    | error e =>
      simp only [hm, Prod.mk.injEq] at h
      rw [← h.2]
      exact makeLabelForResource_error n R e n2 hm
    | ok lbl => simp [hm] at h

theorem LabelForResource_template (n : metricNamer) (R : GroupResource) :
    (n.LabelForResource R).2.metricsQueryTemplate = n.metricsQueryTemplate := by
  rcases h : n.LabelForResource R with ⟨res, n1⟩
  cases res with
  | error e => rw [LabelForResource_error n R e n1 h]
  | ok L =>
    rcases LabelForResource_ok n R L n1 h with ⟨_, h2⟩ | ⟨_, h2⟩
    · rw [h2]
    · obtain ⟨T, sing, _, _, _, _, h3⟩ := makeLabelForResource_ok n R L n1 h2
      rw [h3]

/-! ## Query for a series -/

theorem QueryForSeries_ok (n : metricNamer) (series : String) (resource : GroupResource)
    (namespaceName : String) (names : List String) (q : String) (n2 : metricNamer)
    (h : n.QueryForSeries series resource namespaceName names = (.ok q, n2)) :
    ∃ (n1 : metricNamer) (nsClauses : List String) (nsValues : List (String × List String))
      (resourceLbl : String),
      ((namespaceName = "" ∧ n1 = n ∧ nsClauses = [] ∧ nsValues = []) ∨
       (namespaceName ≠ "" ∧ ∃ namespaceLbl,
          n.LabelForResource nsGroupResource = (.ok namespaceLbl, n1) ∧
          nsClauses = [prom.LabelEq namespaceLbl namespaceName] ∧
          nsValues = [(namespaceLbl, [namespaceName])])) ∧
      n1.LabelForResource resource = (.ok resourceLbl, n2) ∧
      names ≠ [] ∧
      n.metricsQueryTemplate.Execute
        { Series := series
          LabelMatchers := String.intercalate "," (nsClauses ++ [resourceClause resourceLbl names])
          LabelValuesByName := mapSet nsValues resourceLbl names
          GroupBy := resourceLbl
          GroupBySlice := [resourceLbl] } = .ok q ∧
      q ≠ "" := by
  have hclause : ∀ (resourceLbl name0 : String) (rest : List String),
      (if (name0 :: rest).length > 1 then prom.LabelMatches else prom.LabelEq) resourceLbl
        (if (name0 :: rest).length > 1 then String.intercalate "|" (name0 :: rest) else name0) =
      resourceClause resourceLbl (name0 :: rest) := by
    intro resourceLbl name0 rest
    unfold resourceClause
    split <;> rfl
  unfold metricNamer.QueryForSeries at h
  by_cases hns : namespaceName = ""
  · simp only [hns, ne_eq, not_true_eq_false, if_false] at h
    have ht2 := LabelForResource_template n resource
    rcases hl : n.LabelForResource resource with ⟨res, n3⟩
    rw [hl] at h ht2
    cases res with
    | error e => simp at h
    | ok resourceLbl =>
      cases names with
      | nil => simp at h
      | cons name0 rest =>
        simp only at h ht2
        rw [hclause, ht2] at h
        split at h
        · simp at h
        · next queryBuff he =>
          by_cases hb : queryBuff = ""
          · simp [hb] at h
          · simp only [hb, if_false, Prod.mk.injEq, QueryResult.ok.injEq] at h
            obtain ⟨hq1, hq2⟩ := h
            subst hq1
            subst hq2
            exact ⟨n, [], [], resourceLbl, Or.inl ⟨hns, rfl, rfl, rfl⟩, hl, by simp, he, hb⟩
  · simp only [hns, ne_eq, not_false_eq_true, if_true] at h
    have ht1 := LabelForResource_template n nsGroupResource
    rcases hl1 : n.LabelForResource nsGroupResource with ⟨res1, n1⟩
    rw [hl1] at h ht1
    cases res1 with
    | error e => simp at h
    | ok namespaceLbl =>
      simp only at h ht1
      have ht2 := LabelForResource_template n1 resource
      rcases hl : n1.LabelForResource resource with ⟨res, n3⟩
      rw [hl] at h ht2
      cases res with
      | error e => simp at h
      | ok resourceLbl =>
        cases names with
        | nil => simp at h
        | cons name0 rest =>
          simp only at h ht2
          rw [hclause, ht2, ht1] at h
          split at h
          · simp at h
          · next queryBuff he =>
            by_cases hb : queryBuff = ""
            · simp [hb] at h
            · simp only [hb, if_false, Prod.mk.injEq, QueryResult.ok.injEq] at h
              obtain ⟨hq1, hq2⟩ := h
              subst hq1
              subst hq2
              exact ⟨n1, _, _, resourceLbl, Or.inr ⟨hns, namespaceLbl, rfl, rfl, rfl⟩, hl,
                by simp, he, hb⟩

theorem resourceClause_cases (resourceLbl : String) (names : List String) (h : names ≠ []) :
    (∃ name, names = [name] ∧ resourceClause resourceLbl names = prom.LabelEq resourceLbl name) ∨
    (1 < names.length ∧ resourceClause resourceLbl names =
      prom.LabelMatches resourceLbl (String.intercalate "|" names)) := by
  unfold resourceClause
  match names, h with
  | [name], _ => exact Or.inl ⟨name, rfl, by simp⟩
  | a :: b :: rest, _ => exact Or.inr ⟨by simp, by simp⟩

/-- Claim C4. In a successful `QueryForSeries` call the query template is rendered with label
matchers that end in the clause on the label of the resource: `prom.LabelEq` on the single
name when exactly one target name is given, `prom.LabelMatches` on all names joined by `|`
when more than one is given (equal names included); the names `a`, `b` on the label `pod`
give `pod=~"a|b"`. -/
theorem QueryForSeries_resource_clause (n : metricNamer) (series : String)
    (resource : GroupResource) (namespaceName : String) (names : List String) (q : String)
    (n2 : metricNamer)
    (h : n.QueryForSeries series resource namespaceName names = (.ok q, n2)) :
    (∃ (resourceLbl clause : String) (nsClauses : List String) (args : queryTemplateArgs),
      ((if namespaceName ≠ "" then (n.LabelForResource nsGroupResource).2
        else n).LabelForResource resource).1 = .ok resourceLbl ∧
      n.metricsQueryTemplate.Execute args = .ok q ∧
      args.LabelMatchers = String.intercalate "," (nsClauses ++ [clause]) ∧
      ((∃ name, names = [name] ∧ clause = prom.LabelEq resourceLbl name) ∨
       (1 < names.length ∧
        clause = prom.LabelMatches resourceLbl (String.intercalate "|" names)))) ∧
    prom.LabelMatches "pod" (String.intercalate "|" ["a", "b"]) = "pod=~\"a|b\"" ∧
    prom.LabelMatches "pod" (String.intercalate "|" ["a", "a"]) = "pod=~\"a|a\"" := by
  refine ⟨?_, by decide, by decide⟩
  obtain ⟨n1, nsClauses, nsValues, resourceLbl, hns, hl, hne, hex, _⟩ :=
    QueryForSeries_ok n series resource namespaceName names q n2 h
  refine ⟨resourceLbl, resourceClause resourceLbl names, nsClauses, _, ?_, hex, rfl,
    resourceClause_cases resourceLbl names hne⟩
  rcases hns with ⟨h0, h1, _, _⟩ | ⟨h0, namespaceLbl, h1, _, _⟩
  · simp [h0, ← h1, hl]
  · simp [h0, h1, hl]

theorem QueryForSeries_resource_clause_witness :
    (∃ (resourceLbl clause : String) (nsClauses : List String) (args : queryTemplateArgs),
      ((if "ns1" ≠ "" then (exampleNamer.LabelForResource nsGroupResource).2
        else exampleNamer).LabelForResource { Group := "", Resource := "pods" }).1 =
          .ok resourceLbl ∧
      exampleNamer.metricsQueryTemplate.Execute args =
        .ok "sum(my_series\x7bnamespace=\"ns1\",pod=~\"a|b\"\x7d) by (pod)" ∧
      args.LabelMatchers = String.intercalate "," (nsClauses ++ [clause]) ∧
      ((∃ name, ["a", "b"] = [name] ∧ clause = prom.LabelEq resourceLbl name) ∨
       (1 < ["a", "b"].length ∧
        clause = prom.LabelMatches resourceLbl (String.intercalate "|" ["a", "b"])))) ∧
    prom.LabelMatches "pod" (String.intercalate "|" ["a", "b"]) = "pod=~\"a|b\"" ∧
    prom.LabelMatches "pod" (String.intercalate "|" ["a", "a"]) = "pod=~\"a|a\"" :=
  QueryForSeries_resource_clause exampleNamer "my_series" { Group := "", Resource := "pods" }
    "ns1" ["a", "b"] "sum(my_series\x7bnamespace=\"ns1\",pod=~\"a|b\"\x7d) by (pod)"
    (exampleNamer.QueryForSeries "my_series" { Group := "", Resource := "pods" } "ns1"
      ["a", "b"]).2 rfl

theorem QueryForSeries_state_without_namespace (n : metricNamer) (series : String)
    (resource : GroupResource) (names : List String) :
    (n.QueryForSeries series resource "" names).2 = (n.LabelForResource resource).2 := by
  unfold metricNamer.QueryForSeries
  simp only [ne_eq, not_true_eq_false, if_false]
  rcases hl : n.LabelForResource resource with ⟨res, n3⟩
  cases res with
  | error e => rfl
  | ok resourceLbl =>
    cases names with
    | nil => rfl
    | cons name0 rest =>
      simp only
      split
      · rfl
      · split <;> rfl

/-- Claim C5. In a successful `QueryForSeries` call the query template is rendered with
`Series` the given series name, `LabelMatchers` the clauses joined by `,` and `GroupBy`,
`GroupBySlice` holding exactly the label of the resource.  The clauses are: first, if and
only if the namespace is non-empty, `prom.LabelEq` of the label that `LabelForResource`
gives for `nsGroupResource` with the namespace as value; then one clause on the label of
the resource.  With an empty namespace the only lookup is that of the resource: the namer
after the call is the namer after `LabelForResource` of the resource. -/
theorem QueryForSeries_template_args (n : metricNamer) (series : String)
    (resource : GroupResource) (namespaceName : String) (names : List String) (q : String)
    (n2 : metricNamer)
    (h : n.QueryForSeries series resource namespaceName names = (.ok q, n2)) :
    (∃ (n1 : metricNamer) (nsClauses : List String) (resourceLbl clause : String)
        (args : queryTemplateArgs),
      ((namespaceName = "" ∧ n1 = n ∧ nsClauses = []) ∨
       (namespaceName ≠ "" ∧ ∃ namespaceLbl,
          n.LabelForResource nsGroupResource = (.ok namespaceLbl, n1) ∧
          nsClauses = [prom.LabelEq namespaceLbl namespaceName])) ∧
      n1.LabelForResource resource = (.ok resourceLbl, n2) ∧
      (clause = prom.LabelEq resourceLbl (names.headD "") ∨
       clause = prom.LabelMatches resourceLbl (String.intercalate "|" names)) ∧
      n.metricsQueryTemplate.Execute args = .ok q ∧
      args.Series = series ∧
      args.LabelMatchers = String.intercalate "," (nsClauses ++ [clause]) ∧
      args.GroupBy = resourceLbl ∧
      args.GroupBySlice = [resourceLbl]) ∧
    (∀ series1 names1, (n.QueryForSeries series1 resource "" names1).2 =
      (n.LabelForResource resource).2) := by
  refine ⟨?_, fun series1 names1 => QueryForSeries_state_without_namespace n series1 resource names1⟩
  obtain ⟨n1, nsClauses, nsValues, resourceLbl, hns, hl, hne, hex, _⟩ :=
    QueryForSeries_ok n series resource namespaceName names q n2 h
  refine ⟨n1, nsClauses, resourceLbl, resourceClause resourceLbl names, _, ?_, hl, ?_, hex,
    rfl, rfl, rfl, rfl⟩
  · rcases hns with ⟨h0, h1, h2, _⟩ | ⟨h0, namespaceLbl, h1, h2, _⟩
    · exact Or.inl ⟨h0, h1, h2⟩
    · exact Or.inr ⟨h0, namespaceLbl, h1, h2⟩
  · unfold resourceClause
    split
    · exact Or.inr rfl
    · exact Or.inl rfl

theorem QueryForSeries_template_args_witness :
    exampleNamer.QueryForSeries "my_series" { Group := "", Resource := "pods" } "ns1" ["a"] =
      (.ok "sum(my_series\x7bnamespace=\"ns1\",pod=\"a\"\x7d) by (pod)",
       (exampleNamer.QueryForSeries "my_series" { Group := "", Resource := "pods" } "ns1"
         ["a"]).2) ∧
    ∃ (n1 : metricNamer) (nsClauses : List String) (resourceLbl clause : String)
        (args : queryTemplateArgs),
      (("ns1" = "" ∧ n1 = exampleNamer ∧ nsClauses = []) ∨
       ("ns1" ≠ "" ∧ ∃ namespaceLbl,
          exampleNamer.LabelForResource nsGroupResource = (.ok namespaceLbl, n1) ∧
          nsClauses = [prom.LabelEq namespaceLbl "ns1"])) ∧
      n1.LabelForResource { Group := "", Resource := "pods" } =
        (.ok resourceLbl,
         (exampleNamer.QueryForSeries "my_series" { Group := "", Resource := "pods" } "ns1"
           ["a"]).2) ∧
      (clause = prom.LabelEq resourceLbl (["a"].headD "") ∨
       clause = prom.LabelMatches resourceLbl (String.intercalate "|" ["a"])) ∧
      exampleNamer.metricsQueryTemplate.Execute args =
        .ok "sum(my_series\x7bnamespace=\"ns1\",pod=\"a\"\x7d) by (pod)" ∧
      args.Series = "my_series" ∧
      args.LabelMatchers = String.intercalate "," (nsClauses ++ [clause]) ∧
      args.GroupBy = resourceLbl ∧
      args.GroupBySlice = [resourceLbl] :=
  ⟨rfl, (QueryForSeries_template_args exampleNamer "my_series"
    { Group := "", Resource := "pods" } "ns1" ["a"] _ _ rfl).1⟩

/-! ## Resources for a series -/

theorem lookup_some_mem {β : Type} (m : List (String × β)) (k : String) (v : β)
    (h : m.lookup k = some v) : (k, v) ∈ m := by
  induction m with
  | nil => simp [List.lookup] at h
  | cons p rest ih =>
    obtain ⟨k1, v1⟩ := p
    by_cases hk : k = k1
    · subst hk
      simp [List.lookup] at h
      simp [h]
    · have hb : (k == k1) = false := by simpa using hk
      simp only [List.lookup, hb] at h
      exact List.mem_cons_of_mem _ (ih h)

theorem mem_mapSet {β : Type} (m : List (String × β)) (k : String) (v : β) (p : String × β)
    (h : p ∈ mapSet m k v) : p = (k, v) ∨ p ∈ m := by
  induction m with
  | nil =>
    simp only [mapSet, List.mem_singleton] at h
    exact Or.inl h
  | cons q rest ih =>
    obtain ⟨k1, v1⟩ := q
    by_cases hk : k1 = k
    · simp only [mapSet, hk, if_true, List.mem_cons] at h
      rcases h with h | h
      · exact Or.inl h
      · exact Or.inr (List.mem_cons_of_mem _ h)
    · simp only [mapSet, hk, if_false, List.mem_cons] at h
      rcases h with h | h
      · exact Or.inr (by simp [h])
      · rcases ih h with h2 | h2
        · exact Or.inl h2
        · exact Or.inr (List.mem_cons_of_mem _ h2)

theorem GroupResourceForLabel_not_found (e : labelGroupResExtractor) (lbl : String)
    (h : (e.GroupResourceForLabel lbl).2 = false) :
    (e.GroupResourceForLabel lbl).1 = { Group := "", Resource := "" } := by
  unfold labelGroupResExtractor.GroupResourceForLabel at h ⊢
  cases hm : e.regex.FindStringSubmatch lbl with
  | none => rfl
  | some matchGroups => simp [hm] at h

theorem flag_resources (st : scanState) (g : GroupResource) :
    (st.flag g).resources = st.resources ∧ (st.flag g).updates = st.updates ∧
    (st.flag g).namespaced = (st.namespaced || decide (g = nsGroupResource)) := by
  unfold scanState.flag
  by_cases h : g = nsGroupResource
  · simp [h]
  · simp [h]

theorem scanLabel_spec (n : metricNamer) (st : scanState) (lbl : String)
    (hinv : n.scanInv st) :
    (n.scanLabel st lbl).resources = st.resources ++ (n.resolveLabel lbl).toList ∧
    (n.scanLabel st lbl).namespaced =
      (st.namespaced || decide (n.resolveLabel lbl = some nsGroupResource)) ∧
    n.scanInv (n.scanLabel st lbl) := by
  cases hc : n.labelToResource lbl with
  | some groupRes =>
    have hs : n.scanLabel st lbl =
        ({ st with resources := st.resources ++ [groupRes] }).flag groupRes := by
      simp [metricNamer.scanLabel, hc]
    have hr : n.resolveLabel lbl = some groupRes := by
      simp [metricNamer.resolveLabel, hc]
    rw [hs, hr]
    simp only [flag_resources, Option.toList, Option.some.injEq]
    exact ⟨trivial, trivial, fun p hp => hinv p (by rwa [(flag_resources _ _).2.1] at hp)⟩
  | none =>
    cases hu : st.updates.lookup lbl with
    | some groupRes =>
      have hs : n.scanLabel st lbl =
          ({ st with resources := st.resources ++ [groupRes] }).flag groupRes := by
        simp [metricNamer.scanLabel, hc, hu]
      have hr : n.resolveLabel lbl = some groupRes :=
        (hinv _ (lookup_some_mem _ _ _ hu)).2
      rw [hs, hr]
      simp only [flag_resources, Option.toList, Option.some.injEq]
      exact ⟨trivial, trivial, fun p hp => hinv p (by rwa [(flag_resources _ _).2.1] at hp)⟩
    | none =>
      cases he : n.labelResExtractor with
      | none =>
        have hs : n.scanLabel st lbl = st.flag { Group := "", Resource := "" } := by
          simp [metricNamer.scanLabel, hc, hu, he]
        have hr : n.resolveLabel lbl = none := by
          simp [metricNamer.resolveLabel, hc, he]
        rw [hs, hr]
        simp only [flag_resources, Option.toList, List.append_nil]
        refine ⟨trivial, by simp [nsGroupResource],
          fun p hp => hinv p (by rwa [(flag_resources _ _).2.1] at hp)⟩
      | some e =>
        rcases hg : e.GroupResourceForLabel lbl with ⟨g, b⟩
        cases b with
        | false =>
          have hz := GroupResourceForLabel_not_found e lbl (by rw [hg])
          rw [hg] at hz
          simp only at hz
          have hs : n.scanLabel st lbl = st.flag g := by
            simp [metricNamer.scanLabel, hc, hu, he, hg]
          have hr : n.resolveLabel lbl = none := by
            simp [metricNamer.resolveLabel, hc, he, hg]
          rw [hs, hr]
          simp only [flag_resources, Option.toList, List.append_nil]
          refine ⟨trivial, by simp [hz, nsGroupResource],
            fun p hp => hinv p (by rwa [(flag_resources _ _).2.1] at hp)⟩
        | true =>
          cases hn : n.mapper.Normalize g with
          | error err =>
            have hs : n.scanLabel st lbl = st := by
              simp [metricNamer.scanLabel, hc, hu, he, hg, hn]
            have hr : n.resolveLabel lbl = none := by
              simp [metricNamer.resolveLabel, hc, he, hg, hn]
            rw [hs, hr]
            simp [hinv]
          | ok info =>
            have hs : n.scanLabel st lbl =
                ({ st with
                   resources := st.resources ++ [info]
                   updates := mapSet st.updates lbl info }).flag info := by
              simp [metricNamer.scanLabel, hc, hu, he, hg, hn]
            have hr : n.resolveLabel lbl = some info := by
              simp [metricNamer.resolveLabel, hc, he, hg, hn]
            rw [hs, hr]
            simp only [flag_resources, Option.toList, Option.some.injEq]
            refine ⟨trivial, trivial, ?_⟩
            intro p hp
            rw [(flag_resources _ _).2.1] at hp
            rcases mem_mapSet _ _ _ _ hp with h1 | h1
            · subst h1
              exact ⟨hc, hr⟩
            · exact hinv p h1

theorem scanLabels_spec (n : metricNamer) (labels : List (String × String)) (st : scanState)
    (hinv : n.scanInv st) :
    (n.scanLabels labels st).resources =
      st.resources ++ labels.filterMap (fun p => n.resolveLabel p.1) ∧
    (n.scanLabels labels st).namespaced =
      (st.namespaced ||
        labels.any (fun p => decide (n.resolveLabel p.1 = some nsGroupResource))) ∧
    n.scanInv (n.scanLabels labels st) := by
  induction labels generalizing st with
  | nil => simp [metricNamer.scanLabels, hinv]
  | cons p rest ih =>
    obtain ⟨lbl, v⟩ := p
    obtain ⟨h1, h2, h3⟩ := scanLabel_spec n st lbl hinv
    obtain ⟨i1, i2, i3⟩ := ih (n.scanLabel st lbl) h3
    simp only [metricNamer.scanLabels]
    refine ⟨?_, ?_, i3⟩
    · rw [i1, h1]
      cases hr : n.resolveLabel lbl <;> simp [List.filterMap_cons, hr]
    · rw [i2, h2]
      simp [Bool.or_assoc]

theorem scanInv_init (n : metricNamer) :
    n.scanInv { resources := [], updates := [], namespaced := false } := by
  intro p hp
  cases hp

theorem ResourcesForSeries_fst (n : metricNamer) (series : Series) :
    (n.ResourcesForSeries series).1 =
      (series.Labels.filterMap (fun p => n.resolveLabel p.1),
       series.Labels.any (fun p => decide (n.resolveLabel p.1 = some nsGroupResource))) := by
  obtain ⟨h1, h2, _⟩ := scanLabels_spec n series.Labels _ (scanInv_init n)
  unfold metricNamer.ResourcesForSeries
  simp only [h1, h2, List.nil_append, Bool.false_or]

theorem sameRule_refl (n : metricNamer) : n.sameRule n :=
  ⟨rfl, rfl, rfl, rfl, rfl, rfl, rfl, rfl⟩

theorem sameRule_trans (n n1 n2 : metricNamer) (h1 : n.sameRule n1) (h2 : n1.sameRule n2) :
    n.sameRule n2 := by
  obtain ⟨a1, a2, a3, a4, a5, a6, a7, a8⟩ := h1
  obtain ⟨b1, b2, b3, b4, b5, b6, b7, b8⟩ := h2
  exact ⟨b1.trans a1, b2.trans a2, b3.trans a3, b4.trans a4, b5.trans a5, b6.trans a6,
    b7.trans a7, b8.trans a8⟩

theorem overridesLoop_sameRule (mapper : RESTMapper) (overrides : List (String × GroupResource))
    (namer n1 : metricNamer) (h : overridesLoop mapper overrides namer = .ok n1) :
    namer.sameRule n1 := by
  induction overrides generalizing namer with
  | nil =>
    simp only [overridesLoop, Except.ok.injEq] at h
    subst h
    exact sameRule_refl namer
  | cons p rest ih =>
    obtain ⟨lbl, groupRes⟩ := p
    unfold overridesLoop at h
    cases hn : mapper.Normalize { Group := groupRes.Group, Resource := groupRes.Resource } with
    | error e => simp [hn] at h
    | ok info =>
      simp only [hn] at h
      have h2 := ih _ h
      exact sameRule_trans namer _ n1 ⟨rfl, rfl, rfl, rfl, rfl, rfl, rfl, rfl⟩ h2

theorem labelTemplateOfRule_isSome (env : Env) (rule : DiscoveryRule)
    (labelTemplate : Option (Template GroupResource))
    (labelResExtractor : Option labelGroupResExtractor)
    (h : labelTemplateOfRule env rule = .ok (labelTemplate, labelResExtractor)) :
    (labelTemplate.isSome = true ↔ rule.Resources.Template ≠ "") ∧
    (labelResExtractor.isSome = true ↔ rule.Resources.Template ≠ "") := by
  unfold labelTemplateOfRule at h
  by_cases ht : rule.Resources.Template = ""
  · simp only [ht, ne_eq, not_true_eq_false, if_false, Except.ok.injEq, Prod.mk.injEq] at h
    simp [ht, ← h.1, ← h.2]
  · simp only [ht, ne_eq, not_false_eq_true, if_true] at h
    cases hp : env.ParseLabel rule.Resources.Template with
    | error e => simp [hp] at h
    | ok T =>
      simp only [hp] at h
      cases hx : newLabelGroupResExtractor env T with
      | error e => simp [hx] at h
      | ok e =>
        simp only [hx, Except.ok.injEq, Prod.mk.injEq] at h
        simp [ht, ← h.1, ← h.2]

theorem namerFromRule_isSome (env : Env) (mapper : RESTMapper) (rule : DiscoveryRule)
    (n : metricNamer) (h : namerFromRule env mapper rule = .ok n) :
    (n.labelTemplate.isSome = true ↔ rule.Resources.Template ≠ "") ∧
    (n.labelResExtractor.isSome = true ↔ rule.Resources.Template ≠ "") := by
  unfold namerFromRule at h
  cases hl : labelTemplateOfRule env rule with
  | error e => simp [hl] at h
  | ok lt =>
    obtain ⟨labelTemplate, labelResExtractor⟩ := lt
    simp only [hl] at h
    cases hq : env.ParseQuery rule.MetricsQuery with
    | error e => simp [hq] at h
    | ok q =>
      simp only [hq] at h
      cases hm : seriesMatchersOfRule env rule with
      | error e => simp [hm] at h
      | ok ms =>
        simp only [hm] at h
        cases hn : nameOfRule env rule with
        | error e => simp [hn] at h
        | ok nm =>
          obtain ⟨nameMatches, nameAs⟩ := nm
          simp only [hn] at h
          obtain ⟨_, h2, h3, _⟩ := overridesLoop_sameRule mapper _ _ n h
          rw [h2, h3]
          exact labelTemplateOfRule_isSome env rule _ _ hl

/-- Claim C6. `ResourcesForSeries` returns, in the order in which the labels are visited, one
resource for each label that resolves and none for the others, where a label resolves
(`resolveLabel`) to its label->resource cache entry if it has one and otherwise, if the
namer has an extractor that matches the label and normalization succeeds, to the normalized
extracted resource.  Visiting the labels in another order permutes the result; a namer built
from a rule has an extractor exactly when the rule has a label template; and with the
template `<<.Resource>>` the labels ingress, service, pod, namespace yield
ingresses.extensions, services, pods and namespaces. -/
theorem ResourcesForSeries_resources (n : metricNamer) (series : Series) :
    (n.ResourcesForSeries series).1.1 =
      series.Labels.filterMap (fun p => n.resolveLabel p.1) ∧
    (∀ series2 : Series, series.Labels.Perm series2.Labels →
      (n.ResourcesForSeries series).1.1.Perm (n.ResourcesForSeries series2).1.1) ∧
    (∀ env mapper rule, namerFromRule env mapper rule = .ok n →
      (n.labelResExtractor.isSome = true ↔ rule.Resources.Template ≠ "")) ∧
    (exampleNamer.ResourcesForSeries
      { Name := "ingress_hits_total"
        Labels := [("ingress", "someingress"), ("service", "somesvc"), ("pod", "backend1"),
          ("namespace", "somens")] }).1.1 =
      [{ Group := "extensions", Resource := "ingresses" }, { Group := "", Resource := "services" },
       { Group := "", Resource := "pods" }, { Group := "", Resource := "namespaces" }] := by
  refine ⟨?_, ?_, ?_, by decide⟩
  · rw [ResourcesForSeries_fst]
  · intro series2 hperm
    rw [ResourcesForSeries_fst, ResourcesForSeries_fst]
    exact hperm.filterMap _
  · intro env mapper rule h
    exact (namerFromRule_isSome env mapper rule n h).2

theorem ResourcesForSeries_resources_witness :
    (exampleNamer.ResourcesForSeries
      { Name := "x", Labels := [("pod", "p"), ("job", "j"), ("namespace", "n")] }).1.1.Perm
    (exampleNamer.ResourcesForSeries
      { Name := "x", Labels := [("namespace", "n"), ("pod", "p"), ("job", "j")] }).1.1 ∧
    (exampleNamer.labelResExtractor.isSome = true ↔ exampleRule.Resources.Template ≠ "") :=
  ⟨(ResourcesForSeries_resources exampleNamer
      { Name := "x", Labels := [("pod", "p"), ("job", "j"), ("namespace", "n")] }).2.1
      { Name := "x", Labels := [("namespace", "n"), ("pod", "p"), ("job", "j")] }
      (by decide),
   (ResourcesForSeries_resources exampleNamer { Name := "x", Labels := [] }).2.2.1
      goEnv restMapper exampleRule rfl⟩

/-- Claim C7. The namespaced flag that `ResourcesForSeries` returns is true exactly when the
returned resources contain `nsGroupResource` (group empty, resource `namespaces`), whatever
else is found on the series: it is true exactly when some label of the series resolves to
that resource, so a label that does not resolve never sets it. -/
theorem ResourcesForSeries_namespaced (n : metricNamer) (series : Series) :
    ((n.ResourcesForSeries series).1.2 = true ↔
      nsGroupResource ∈ (n.ResourcesForSeries series).1.1) ∧
    (n.ResourcesForSeries series).1.2 =
      series.Labels.any (fun p => decide (n.resolveLabel p.1 = some nsGroupResource)) ∧
    nsGroupResource = { Group := "", Resource := "namespaces" } := by
  rw [ResourcesForSeries_fst]
  refine ⟨?_, rfl, rfl⟩
  simp only [List.any_eq_true, decide_eq_true_eq, List.mem_filterMap]

/-! ## Effect of the calls on the cache -/

theorem mergeUpdates_of_not_mem (updates : List (String × GroupResource))
    (labelToResource : String → Option GroupResource) (l : String)
    (h : ∀ p ∈ updates, p.1 ≠ l) :
    mergeUpdates updates labelToResource l = labelToResource l := by
  induction updates generalizing labelToResource with
  | nil => rfl
  | cons p rest ih =>
    obtain ⟨k, g⟩ := p
    simp only [mergeUpdates]
    rw [ih _ (fun q hq => h q (List.mem_cons_of_mem _ hq))]
    have hk : l ≠ k := fun hh => h (k, g) (List.mem_cons_self _ _) hh.symm
    simp [Function.update, hk]

theorem ResourcesForSeries_state (n : metricNamer) (series : Series) :
    n.sameRule (n.ResourcesForSeries series).2 ∧
    (n.ResourcesForSeries series).2.resourceToLabel = n.resourceToLabel ∧
    (∀ l r, n.labelToResource l = some r →
      (n.ResourcesForSeries series).2.labelToResource l = some r) := by
  obtain ⟨_, _, hinv⟩ := scanLabels_spec n series.Labels _ (scanInv_init n)
  unfold metricNamer.ResourcesForSeries
  simp only
  split
  · refine ⟨⟨rfl, rfl, rfl, rfl, rfl, rfl, rfl, rfl⟩, rfl, ?_⟩
    intro l r hl
    simp only
    rw [mergeUpdates_of_not_mem _ _ _ ?_]
    · exact hl
    · intro p hp hpl
      have h1 := (hinv p hp).1
      rw [hpl, hl] at h1
      cases h1
  · exact ⟨sameRule_refl n, rfl, fun l r hl => hl⟩

theorem LabelForResource_state (n : metricNamer) (R : GroupResource) :
    (n.LabelForResource R).2 = n ∨
    (n.resourceToLabel R = none ∧ ∃ T singularRes L, n.labelTemplate = some T ∧
      n.mapper.ResourceSingularizer R.Resource = .ok singularRes ∧
      T.Execute { Group := groupNameSanitizer R.Group, Resource := singularRes } = .ok L ∧
      L ≠ "" ∧ (n.LabelForResource R).1 = .ok L ∧
      (n.LabelForResource R).2 = { n with
        resourceToLabel := Function.update n.resourceToLabel R (some L)
        labelToResource := Function.update n.labelToResource L (some R) }) := by
  rcases h : n.LabelForResource R with ⟨res, n1⟩
  cases res with
  | error e => exact Or.inl (LabelForResource_error n R e n1 h)
  | ok L =>
    rcases LabelForResource_ok n R L n1 h with ⟨_, h2⟩ | ⟨h1, h2⟩
    · exact Or.inl h2
    · obtain ⟨T, sing, a1, a2, a3, a4, a5⟩ := makeLabelForResource_ok n R L n1 h2
      exact Or.inr ⟨h1, T, sing, L, a1, a2, a3, a4, rfl, a5⟩

theorem QueryForSeries_state (n : metricNamer) (series : String) (resource : GroupResource)
    (namespaceName : String) (names : List String) :
    ∃ n1, (n1 = n ∨ n1 = (n.LabelForResource nsGroupResource).2) ∧
      ((n.QueryForSeries series resource namespaceName names).2 = n1 ∨
       (n.QueryForSeries series resource namespaceName names).2 =
         (n1.LabelForResource resource).2) := by
  have tail : ∀ (n1 : metricNamer) (exprs : List String)
      (valuesByName : List (String × List String)) (r : QueryResult × metricNamer),
      r = (match n1.LabelForResource resource with
        | (.error err, n2) => (QueryResult.err err, n2)
        | (.ok resourceLbl, n2) =>
          match names with
          | [] => (QueryResult.crash, n2)
          | name0 :: _ =>
            match n2.metricsQueryTemplate.Execute
              { Series := series
                LabelMatchers := String.intercalate ","
                  (exprs ++ [(if names.length > 1 then prom.LabelMatches else prom.LabelEq)
                    resourceLbl
                    (if names.length > 1 then String.intercalate "|" names else name0)])
                LabelValuesByName := mapSet valuesByName resourceLbl names
                GroupBy := resourceLbl
                GroupBySlice := [resourceLbl] } with
            | .error err => (QueryResult.err err, n2)
            | .ok queryBuff =>
              if queryBuff = "" then
                (QueryResult.err "empty query produced by metrics query template", n2)
              else (QueryResult.ok queryBuff, n2)) →
      r.2 = (n1.LabelForResource resource).2 := by
    intro n1 exprs valuesByName r hr
    subst hr
    rcases n1.LabelForResource resource with ⟨res, n3⟩
    cases res with
    | error e => rfl
    | ok resourceLbl =>
      cases names with
      | nil => rfl
      | cons name0 rest =>
        simp only
        split
        · rfl
        · split <;> rfl
  unfold metricNamer.QueryForSeries
  by_cases hns : namespaceName = ""
  · simp only [hns, ne_eq, not_true_eq_false, if_false]
    exact ⟨n, Or.inl rfl, Or.inr (tail n _ _ _ rfl)⟩
  · simp only [hns, ne_eq, not_false_eq_true, if_true]
    rcases hl : n.LabelForResource nsGroupResource with ⟨res, n1⟩
    cases res with
    | error e => exact ⟨n1, Or.inr rfl, Or.inl rfl⟩
    | ok namespaceLbl => exact ⟨n1, Or.inr rfl, Or.inr (tail n1 _ _ _ rfl)⟩

theorem run_induction (P : metricNamer → Prop)
    (hR : ∀ n series, P n → P (n.ResourcesForSeries series).2)
    (hL : ∀ n R, P n → P (n.LabelForResource R).2) :
    ∀ (cs : List Call) (n : metricNamer), P n → P (n.run cs) := by
  have hcall : ∀ n c, P n → P (n.call c) := by
    intro n c hn
    cases c with
    | resourcesForSeries series => exact hR n series hn
    | labelForResource R => exact hL n R hn
    | queryForSeries series resource namespaceName names =>
      obtain ⟨n1, h1, h2⟩ := QueryForSeries_state n series resource namespaceName names
      have hn1 : P n1 := by
        rcases h1 with h1 | h1
        · rw [h1]; exact hn
        · rw [h1]; exact hL n _ hn
      simp only [metricNamer.call]
      rcases h2 with h2 | h2
      · rw [h2]; exact hn1
      · rw [h2]; exact hL n1 _ hn1
  intro cs
  induction cs with
  | nil => intro n hn; exact hn
  | cons c rest ih => intro n hn; exact ih _ (hcall n c hn)

theorem resourceToLabel_call_mono (R : GroupResource) (L : String) (cs : List Call)
    (n : metricNamer) (h : n.resourceToLabel R = some L) :
    (n.run cs).resourceToLabel R = some L := by
  refine run_induction (fun m => m.resourceToLabel R = some L) ?_ ?_ cs n h
  · intro m series hm
    rw [(ResourcesForSeries_state m series).2.1]
    exact hm
  · intro m R1 hm
    rcases LabelForResource_state m R1 with h1 | ⟨h0, T, sing, L1, _, _, _, _, _, h1⟩
    · rw [h1]; exact hm
    · rw [h1]
      have hne : R ≠ R1 := by
        rintro rfl
        rw [h0] at hm
        cases hm
      simp [Function.update, hne, hm]

/-- Claim C10. Once `LabelForResource(R)` has succeeded with label `L`, the resource->label
cache holds `L` for `R` after any further sequence of `ResourcesForSeries`,
`LabelForResource` and `QueryForSeries` calls, and a later `LabelForResource(R)` returns
`L` again and leaves the namer, so both cache maps, unchanged; it is a cache hit, whose
result depends neither on the mapper nor on the label template. -/
theorem LabelForResource_idempotent (n n1 : metricNamer) (R : GroupResource) (L : String)
    (cs : List Call) (h : n.LabelForResource R = (.ok L, n1)) :
    (n1.run cs).resourceToLabel R = some L ∧
    (n1.run cs).LabelForResource R = (.ok L, n1.run cs) ∧
    (∀ (mapper : RESTMapper) (labelTemplate : Option (Template GroupResource)),
      (({ n1.run cs with mapper := mapper, labelTemplate := labelTemplate } :
        metricNamer).LabelForResource R).1 = .ok L) := by
  have h1 : n1.resourceToLabel R = some L := by
    rcases LabelForResource_ok n R L n1 h with ⟨a, b⟩ | ⟨_, b⟩
    · rw [b]; exact a
    · obtain ⟨T, sing, _, _, _, _, c⟩ := makeLabelForResource_ok n R L n1 b
      rw [c]
      simp
  have h2 := resourceToLabel_call_mono R L cs n1 h1
  refine ⟨h2, LabelForResource_hit _ R L h2, ?_⟩
  intro mapper labelTemplate
  rw [LabelForResource_hit _ R L (by exact h2)]

theorem LabelForResource_idempotent_witness :
    exampleNamer.LabelForResource { Group := "", Resource := "pods" } =
      (.ok "pod", (exampleNamer.LabelForResource { Group := "", Resource := "pods" }).2) ∧
    (((exampleNamer.LabelForResource { Group := "", Resource := "pods" }).2.run
      [Call.resourcesForSeries { Name := "x", Labels := [("service", "s"), ("pod", "p")] },
       Call.labelForResource { Group := "", Resource := "services" },
       Call.queryForSeries "x" { Group := "extensions", Resource := "ingresses" } "ns1"
         ["a"]]).LabelForResource { Group := "", Resource := "pods" }).1 = .ok "pod" :=
  ⟨rfl, congrArg Prod.fst (LabelForResource_idempotent exampleNamer _
    { Group := "", Resource := "pods" } "pod"
    [Call.resourcesForSeries { Name := "x", Labels := [("service", "s"), ("pod", "p")] },
     Call.labelForResource { Group := "", Resource := "services" },
     Call.queryForSeries "x" { Group := "extensions", Resource := "ingresses" } "ns1" ["a"]]
    rfl).2.1⟩

/-- Claim C9, as amended.  For a resource `R` without resource->label cache entry,
`LabelForResource(R)` fails, leaving the namer as it was, if the namer has no label
template, if the mapper cannot singularize the kind of `R`, if the execution of the label
template fails, or if the rendered label is empty; otherwise it returns the label template
rendered with the group of `R` through `groupNameSanitizer` (every `.` and `-` replaced by
`_`) and the singular kind of `R`, and the namer it leaves has `resourceToLabel[R]` set to
that label and `labelToResource[label]` set to `R`.  With a cache entry for `R` it returns
that entry and leaves the namer unchanged, whatever the mapper and the template are. -/
theorem LabelForResource_cases (n : metricNamer) (R : GroupResource)
    (hmiss : n.resourceToLabel R = none) :
    (n.labelTemplate = none → ∃ err, n.LabelForResource R = (.error err, n)) ∧
    (∀ T, n.labelTemplate = some T →
      (∀ e, n.mapper.ResourceSingularizer R.Resource = .error e →
        ∃ err, n.LabelForResource R = (.error err, n)) ∧
      (∀ singularRes, n.mapper.ResourceSingularizer R.Resource = .ok singularRes →
        (∀ e, T.Execute { Group := groupNameSanitizer R.Group, Resource := singularRes } =
            .error e → ∃ err, n.LabelForResource R = (.error err, n)) ∧
        (T.Execute { Group := groupNameSanitizer R.Group, Resource := singularRes } = .ok "" →
          ∃ err, n.LabelForResource R = (.error err, n)) ∧
        (∀ L, T.Execute { Group := groupNameSanitizer R.Group, Resource := singularRes } =
            .ok L → L ≠ "" →
          n.LabelForResource R = (.ok L, { n with
            resourceToLabel := Function.update n.resourceToLabel R (some L)
            labelToResource := Function.update n.labelToResource L (some R) })))) ∧
    (∀ (m : metricNamer) (L : String), m.resourceToLabel R = some L →
      m.LabelForResource R = (.ok L, m)) ∧
    groupNameSanitizer "custom.metrics-k8s.io" = "custom_metrics_k8s_io" := by
  refine ⟨?_, ?_, fun m L h => LabelForResource_hit m R L h, by decide⟩
  · intro hT
    simp only [metricNamer.LabelForResource, metricNamer.makeLabelForResource, hmiss, hT]
    exact ⟨_, rfl⟩
  · intro T hT
    refine ⟨?_, ?_⟩
    · intro e he
      simp only [metricNamer.LabelForResource, metricNamer.makeLabelForResource, hmiss, hT, he]
      exact ⟨_, rfl⟩
    · intro singularRes hs
      refine ⟨?_, ?_, ?_⟩
      · intro e he
        simp only [metricNamer.LabelForResource, metricNamer.makeLabelForResource, hmiss, hT,
          hs, he]
        exact ⟨_, rfl⟩
      · intro he
        simp only [metricNamer.LabelForResource, metricNamer.makeLabelForResource, hmiss, hT,
          hs, he, if_true]
        exact ⟨_, rfl⟩
      · intro L he hL
        simp [metricNamer.LabelForResource, metricNamer.makeLabelForResource, hmiss, hT, hs,
          he, hL]

theorem LabelForResource_cases_witness :
    exampleNamer.resourceToLabel { Group := "extensions", Resource := "ingresses" } = none ∧
    exampleNamer.LabelForResource { Group := "extensions", Resource := "ingresses" } =
      (.ok "ingress", { exampleNamer with
        resourceToLabel := Function.update exampleNamer.resourceToLabel
          { Group := "extensions", Resource := "ingresses" } (some "ingress")
        labelToResource := Function.update exampleNamer.labelToResource "ingress"
          (some { Group := "extensions", Resource := "ingresses" }) }) ∧
    (∃ err, exampleNamer.LabelForResource { Group := "", Resource := "jobs" } =
      (.error err, exampleNamer)) :=
  ⟨rfl,
   (((LabelForResource_cases exampleNamer { Group := "extensions", Resource := "ingresses" }
      rfl).2.1 _ rfl).2 "ingress" rfl).2.2 "ingress" rfl (by decide),
   ((LabelForResource_cases exampleNamer { Group := "", Resource := "jobs" }
      rfl).2.1 _ rfl).1 _ rfl⟩

/-- Claim C9, counterexample.  In `condTemplateNamer`, built by `NamersFromConfig` from
`condRule`, the resource `pods` has no cache entry, there is a label template, the mapper
singularizes `pods` to `pod`, and the template does not render an empty label: its
execution fails, and `LabelForResource` returns that error instead of a rendered label. -/
theorem LabelForResource_render_failure :
    NamersFromConfig condEnv { Rules := [condRule] } restMapper = .ok [condTemplateNamer] ∧
    condTemplateNamer.resourceToLabel { Group := "", Resource := "pods" } = none ∧
    condTemplateNamer.labelTemplate.isSome = true ∧
    condTemplateNamer.mapper.ResourceSingularizer "pods" = .ok "pod" ∧
    condTemplate.Execute { Group := groupNameSanitizer "", Resource := "pod" } =
      .error "can not evaluate field Missing" ∧
    (condTemplateNamer.LabelForResource { Group := "", Resource := "pods" }).1 =
      .error "unable to convert resource pods into label: can not evaluate field Missing" :=
  ⟨rfl, rfl, rfl, rfl, rfl, rfl⟩

/-! ## Overrides -/

theorem overrideNamer_built :
    NamersFromConfig goEnv { Rules := [overrideRule] } restMapper = .ok [overrideNamer] := rfl

theorem podNameNamer_built :
    NamersFromConfig goEnv { Rules := [podNameRule] } restMapper = .ok [podNameNamer] := rfl

theorem rulesLoop_zip (env : Env) (mapper : RESTMapper) (rules : List DiscoveryRule)
    (namers : List metricNamer) (h : rulesLoop env mapper rules = .ok namers) :
    ∀ p ∈ rules.zip namers, namerFromRule env mapper p.1 = .ok p.2 := by
  induction rules generalizing namers with
  | nil => intro p hp; simp at hp
  | cons rule rest ih =>
    unfold rulesLoop at h
    cases hn : namerFromRule env mapper rule with
    | error e => simp [hn] at h
    | ok namer =>
      simp only [hn] at h
      cases hr : rulesLoop env mapper rest with
      | error e => simp [hr] at h
      | ok ns =>
        simp only [hr, Except.ok.injEq] at h
        subst h
        intro p hp
        simp only [List.zip_cons_cons, List.mem_cons] at hp
        rcases hp with hp | hp
        · rw [hp]; exact hn
        · exact ih ns hr p hp

theorem overridesLoop_labelToResource_of_not_mem (mapper : RESTMapper)
    (overrides : List (String × GroupResource)) (namer n1 : metricNamer) (L : String)
    (h : overridesLoop mapper overrides namer = .ok n1)
    (hL : L ∉ overrides.map Prod.fst) : n1.labelToResource L = namer.labelToResource L := by
  induction overrides generalizing namer with
  | nil =>
    simp only [overridesLoop, Except.ok.injEq] at h
    rw [← h]
  | cons p rest ih =>
    obtain ⟨k, g⟩ := p
    unfold overridesLoop at h
    cases hn : mapper.Normalize { Group := g.Group, Resource := g.Resource } with
    | error e => simp [hn] at h
    | ok info =>
      simp only [hn] at h
      simp only [List.map_cons, List.mem_cons, not_or] at hL
      rw [ih _ h hL.2]
      simp [Function.update, hL.1]

theorem overridesLoop_labelToResource (mapper : RESTMapper)
    (overrides : List (String × GroupResource)) (namer n1 : metricNamer) (L : String)
    (gr info : GroupResource)
    (h : overridesLoop mapper overrides namer = .ok n1)
    (hnodup : (overrides.map Prod.fst).Nodup) (hmem : (L, gr) ∈ overrides)
    (hnorm : mapper.Normalize gr = .ok info) : n1.labelToResource L = some info := by
  induction overrides generalizing namer with
  | nil => cases hmem
  | cons p rest ih =>
    obtain ⟨k, g⟩ := p
    unfold overridesLoop at h
    simp only [List.map_cons, List.nodup_cons] at hnodup
    cases hn : mapper.Normalize { Group := g.Group, Resource := g.Resource } with
    | error e => simp [hn] at h
    | ok info0 =>
      simp only [hn] at h
      rcases List.mem_cons.mp hmem with heq | hrest
      · simp only [Prod.mk.injEq] at heq
        obtain ⟨h1, h2⟩ := heq
        subst h1
        subst h2
        rw [overridesLoop_labelToResource_of_not_mem mapper rest _ n1 L h hnodup.1]
        have : info0 = info := by
          have h3 : mapper.Normalize gr = .ok info0 := hn
          rw [hnorm] at h3
          exact (Except.ok.inj h3).symm
        simp [Function.update, this]
      · exact ih _ h hnodup.2 hrest

theorem namerFromRule_override (env : Env) (mapper : RESTMapper) (rule : DiscoveryRule)
    (n0 : metricNamer) (L : String) (gr info : GroupResource)
    (hbuild : namerFromRule env mapper rule = .ok n0)
    (hnodup : (rule.Resources.Overrides.map Prod.fst).Nodup)
    (hmem : (L, gr) ∈ rule.Resources.Overrides) (hnorm : mapper.Normalize gr = .ok info) :
    n0.labelToResource L = some info ∧ n0.mapper = mapper := by
  unfold namerFromRule at hbuild
  cases hl : labelTemplateOfRule env rule with
  | error e => simp [hl] at hbuild
  | ok lt =>
    obtain ⟨labelTemplate, labelResExtractor⟩ := lt
    simp only [hl] at hbuild
    cases hq : env.ParseQuery rule.MetricsQuery with
    | error e => simp [hq] at hbuild
    | ok q =>
      simp only [hq] at hbuild
      cases hm : seriesMatchersOfRule env rule with
      | error e => simp [hm] at hbuild
      | ok ms =>
        simp only [hm] at hbuild
        cases hn : nameOfRule env rule with
        | error e => simp [hn] at hbuild
        | ok nm =>
          obtain ⟨nameMatches, nameAs⟩ := nm
          simp only [hn] at hbuild
          exact ⟨overridesLoop_labelToResource mapper _ _ n0 L gr info hbuild hnodup hmem hnorm,
            (overridesLoop_sameRule mapper _ _ n0 hbuild).2.2.2.2.2.2.2⟩

theorem sameRule_call (n : metricNamer) (c : Call) : n.sameRule (n.call c) := by
  have hL : ∀ (m : metricNamer) (R : GroupResource), m.sameRule (m.LabelForResource R).2 := by
    intro m R
    rcases LabelForResource_state m R with hs | ⟨_, _, _, _, _, _, _, _, _, hs⟩
    · rw [hs]; exact sameRule_refl m
    · rw [hs]; exact ⟨rfl, rfl, rfl, rfl, rfl, rfl, rfl, rfl⟩
  cases c with
  | resourcesForSeries series => exact (ResourcesForSeries_state n series).1
  | labelForResource R => exact hL n R
  | queryForSeries series resource namespaceName names =>
    obtain ⟨n1, h1, h2⟩ := QueryForSeries_state n series resource namespaceName names
    have hn1 : n.sameRule n1 := by
      rcases h1 with h1 | h1
      · rw [h1]; exact sameRule_refl n
      · rw [h1]; exact hL n _
    simp only [metricNamer.call]
    rcases h2 with h2 | h2
    · rw [h2]; exact hn1
    · rw [h2]; exact sameRule_trans _ _ _ hn1 (hL n1 _)

theorem QueryForSeries_state_with_namespace (n : metricNamer) (series : String)
    (resource : GroupResource) (namespaceName : String) (names : List String)
    (hns : namespaceName ≠ "") :
    (n.QueryForSeries series resource namespaceName names).2 =
      match n.LabelForResource nsGroupResource with
      | (.ok _, n1) => (n1.LabelForResource resource).2
      | (.error _, n1) => n1 := by
  unfold metricNamer.QueryForSeries
  simp only [hns, ne_eq, not_false_eq_true, if_true]
  rcases n.LabelForResource nsGroupResource with ⟨res, n1⟩
  cases res with
  | error e => rfl
  | ok namespaceLbl =>
    simp only
    rcases n1.LabelForResource resource with ⟨res2, n3⟩
    cases res2 with
    | error e => rfl
    | ok resourceLbl =>
      cases names with
      | nil => rfl
      | cons name0 rest =>
        simp only
        split
        · rfl
        · split <;> rfl

theorem LabelForResource_keeps (m : metricNamer) (R : GroupResource) (L : String)
    (info : GroupResource) (h : m.labelToResource L = some info) (hno : ¬ m.missRenders R L) :
    (m.LabelForResource R).2.labelToResource L = some info := by
  rcases LabelForResource_state m R with hs | ⟨hmiss, _, _, L1, _, _, _, _, hres, hs⟩
  · rw [hs]; exact h
  · rw [hs]
    have hne : L ≠ L1 := by
      rintro rfl
      exact hno ⟨hmiss, hres⟩
    simp [Function.update, hne, h]

theorem call_keeps (m : metricNamer) (c : Call) (L : String) (info : GroupResource)
    (h : m.labelToResource L = some info) (hno : ¬ m.callRenders L c) :
    (m.call c).labelToResource L = some info := by
  cases c with
  | resourcesForSeries series => exact (ResourcesForSeries_state m series).2.2 L info h
  | labelForResource R => exact LabelForResource_keeps m R L info h hno
  | queryForSeries series resource namespaceName names =>
    simp only [metricNamer.call]
    by_cases hns : namespaceName = ""
    · subst hns
      rw [QueryForSeries_state_without_namespace]
      simp only [metricNamer.callRenders, if_true] at hno
      exact LabelForResource_keeps m resource L info h hno
    · rw [QueryForSeries_state_with_namespace m series resource namespaceName names hns]
      simp only [metricNamer.callRenders, hns, if_false] at hno
      rcases hl : m.LabelForResource nsGroupResource with ⟨res, n1⟩
      rw [hl] at hno
      cases res with
      | error e =>
        simp only
        rw [LabelForResource_error m _ e n1 hl]
        exact h
      | ok namespaceLbl =>
        simp only at hno ⊢
        have h1 : n1.labelToResource L = some info := by
          have := LabelForResource_keeps m nsGroupResource L info h (fun hh => hno (Or.inl hh))
          rw [hl] at this
          exact this
        exact LabelForResource_keeps n1 resource L info h1 (fun hh => hno (Or.inr hh))

theorem run_keeps (L : String) (info : GroupResource) (cs : List Call) (m : metricNamer)
    (h : m.labelToResource L = some info) (hno : m.neverRenders L cs) :
    (m.run cs).labelToResource L = some info := by
  induction cs generalizing m with
  | nil => exact h
  | cons c rest ih =>
    obtain ⟨h1, h2⟩ := hno
    exact ih (m.call c) (call_keeps m c L info h h1) h2

theorem neverRenders_of_discovery (m : metricNamer) (L : String) (cs : List Call)
    (hcs : ∀ c ∈ cs, ∃ series, c = Call.resourcesForSeries series) : m.neverRenders L cs := by
  induction cs generalizing m with
  | nil => trivial
  | cons c rest ih =>
    obtain ⟨series, hc⟩ := hcs c (List.mem_cons_self _ _)
    subst hc
    exact ⟨fun hh => hh, ih _ (fun c hc => hcs c (List.mem_cons_of_mem _ hc))⟩

theorem not_missRenders_without_template (m : metricNamer) (R : GroupResource) (L : String)
    (hT : m.labelTemplate = none) : ¬ m.missRenders R L := by
  rintro ⟨hmiss, hres⟩
  simp [metricNamer.LabelForResource, metricNamer.makeLabelForResource, hmiss, hT] at hres

theorem neverRenders_without_template (m : metricNamer) (L : String) (cs : List Call)
    (hT : m.labelTemplate = none) : m.neverRenders L cs := by
  induction cs generalizing m with
  | nil => trivial
  | cons c rest ih =>
    refine ⟨?_, ih _ (by rw [(sameRule_call m c).2.1]; exact hT)⟩
    cases c with
    | resourcesForSeries series => exact fun hh => hh
    | labelForResource R => exact not_missRenders_without_template m R L hT
    | queryForSeries series resource namespaceName names =>
      simp only [metricNamer.callRenders]
      split
      · exact not_missRenders_without_template m resource L hT
      · rcases hl : m.LabelForResource nsGroupResource with ⟨res, n1⟩
        cases res with
        | error e => exact fun hh => hh
        | ok namespaceLbl =>
          simp only
          have hT1 : n1.labelTemplate = none := by
            have := LabelForResource_state m nsGroupResource
            rw [hl] at this
            rcases this with hs | ⟨_, T, _, _, hT2, _⟩
            · simp only at hs
              rw [hs]; exact hT
            · rw [hT] at hT2
              cases hT2
          rintro (hh | hh)
          · exact not_missRenders_without_template m _ L hT hh
          · exact not_missRenders_without_template n1 _ L hT1 hh

theorem resolveLabel_of_cached (m : metricNamer) (L : String) (r : GroupResource)
    (h : m.labelToResource L = some r) : m.resolveLabel L = some r := by
  simp [metricNamer.resolveLabel, h]

/-- Claim C8, as amended.  A namer built by `NamersFromConfig` from a rule with an override
for the label `L` holds the normalized overridden resource as label->resource entry of `L`
after every sequence of `ResourcesForSeries`, `LabelForResource` and `QueryForSeries` calls
in which no `LabelForResource` lookup misses the cache and renders `L` itself.  In such a
state `ResourcesForSeries` resolves `L` to that resource, without the extractor: on every
series the result has the overridden resource for the label `L`. -/
theorem override_precedence (env : Env) (mapper : RESTMapper) (cfg : MetricsDiscoveryConfig)
    (namers : List metricNamer) (rule : DiscoveryRule) (n0 : metricNamer) (L : String)
    (gr info : GroupResource)
    (hbuild : NamersFromConfig env cfg mapper = .ok namers)
    (hrule : (rule, n0) ∈ cfg.Rules.zip namers)
    (hnodup : (rule.Resources.Overrides.map Prod.fst).Nodup)
    (hmem : (L, gr) ∈ rule.Resources.Overrides)
    (hnorm : mapper.Normalize gr = .ok info) (cs : List Call)
    (hcs : n0.neverRenders L cs) :
    (n0.run cs).labelToResource L = some info ∧
    (n0.run cs).resolveLabel L = some info ∧
    ∀ series : Series,
      ((n0.run cs).ResourcesForSeries series).1.1 =
        series.Labels.filterMap
          (fun p => if p.1 = L then some info else (n0.run cs).resolveLabel p.1) := by
  have hb := rulesLoop_zip env mapper cfg.Rules namers hbuild (rule, n0) hrule
  obtain ⟨h0, _⟩ := namerFromRule_override env mapper rule n0 L gr info hb hnodup hmem hnorm
  have hkept := run_keeps L info cs n0 h0 hcs
  have hres := resolveLabel_of_cached _ L info hkept
  refine ⟨hkept, hres, fun series => ?_⟩
  rw [ResourcesForSeries_fst]
  simp only
  congr 1
  funext p
  by_cases hp : p.1 = L
  · simp [hp, hres]
  · simp [hp]

theorem override_precedence_witness :
    ((overrideNamer.run
        [Call.resourcesForSeries { Name := "x", Labels := [("pod", "p"), ("service", "s")] },
         Call.resourcesForSeries { Name := "y", Labels := [("service", "s")] }]).labelToResource
        "service" = some { Group := "extensions", Resource := "ingresses" }) ∧
    ((overrideNamer.run
        [Call.labelForResource { Group := "", Resource := "pods" }]).labelToResource
        "service" = some { Group := "extensions", Resource := "ingresses" }) ∧
    ((podNameNamer.run
        [Call.labelForResource { Group := "", Resource := "services" },
         Call.queryForSeries "container_x" { Group := "", Resource := "pods" } "ns1" ["a"],
         Call.resourcesForSeries { Name := "x", Labels := [("pod_name", "p")] }]).resolveLabel
        "pod_name" = some { Group := "", Resource := "pods" }) :=
  ⟨(override_precedence goEnv restMapper { Rules := [overrideRule] } [overrideNamer]
      overrideRule overrideNamer "service" { Group := "extensions", Resource := "ingress" }
      { Group := "extensions", Resource := "ingresses" } rfl
      (List.mem_singleton.mpr rfl) (by decide) (List.mem_singleton.mpr rfl) rfl
      [Call.resourcesForSeries { Name := "x", Labels := [("pod", "p"), ("service", "s")] },
       Call.resourcesForSeries { Name := "y", Labels := [("service", "s")] }]
      ⟨fun hh => hh, fun hh => hh, trivial⟩).1,
   (override_precedence goEnv restMapper { Rules := [overrideRule] } [overrideNamer]
      overrideRule overrideNamer "service" { Group := "extensions", Resource := "ingress" }
      { Group := "extensions", Resource := "ingresses" } rfl
      (List.mem_singleton.mpr rfl) (by decide) (List.mem_singleton.mpr rfl) rfl
      [Call.labelForResource { Group := "", Resource := "pods" }]
      ⟨fun hh => absurd (Except.ok.inj hh.2) (by decide), trivial⟩).1,
   (override_precedence goEnv restMapper { Rules := [podNameRule] } [podNameNamer]
      podNameRule podNameNamer "pod_name" { Group := "", Resource := "pod" }
      { Group := "", Resource := "pods" } rfl
      (List.mem_singleton.mpr rfl) (by decide)
      (List.mem_cons_of_mem _ (List.mem_singleton.mpr rfl)) rfl
      [Call.labelForResource { Group := "", Resource := "services" },
       Call.queryForSeries "container_x" { Group := "", Resource := "pods" } "ns1" ["a"],
       Call.resourcesForSeries { Name := "x", Labels := [("pod_name", "p")] }]
      (neverRenders_without_template podNameNamer "pod_name" _ rfl)).2.1⟩

/-- Claim C8, counterexample.  The rule `overrideRule` has the override `service` ->
ingress and the label template `<<.Resource>>`.  In the namer built from it,
`ResourcesForSeries` on a series with the label `service` returns the overridden resource
ingresses.extensions; after `LabelForResource` of the resource services, which has no cache
entry and renders the label `service`, it returns services, the resource that the template
derives for that label (as the namer of the same rule without the override shows). -/
theorem override_replaced :
    NamersFromConfig goEnv { Rules := [overrideRule] } restMapper = .ok [overrideNamer] ∧
    restMapper.Normalize { Group := "extensions", Resource := "ingress" } =
      .ok { Group := "extensions", Resource := "ingresses" } ∧
    (overrideNamer.ResourcesForSeries { Name := "x", Labels := [("service", "s")] }).1.1 =
      [{ Group := "extensions", Resource := "ingresses" }] ∧
    (overrideNamer.LabelForResource { Group := "", Resource := "services" }).1 = .ok "service" ∧
    ((overrideNamer.run [Call.labelForResource { Group := "", Resource := "services" }]
      ).ResourcesForSeries { Name := "x", Labels := [("service", "s")] }).1.1 =
      [{ Group := "", Resource := "services" }] ∧
    (exampleNamer.ResourcesForSeries { Name := "x", Labels := [("service", "s")] }).1.1 =
      [{ Group := "", Resource := "services" }] := by
  exact ⟨rfl, rfl, by decide, rfl, by decide, by decide⟩

/-! ## Filtering twice -/

theorem FilterSeries_filter_all (n : metricNamer) (S : List Series) :
    n.FilterSeries S =
      S.filter (fun s => n.seriesMatchers.all (fun m => m.Matches s.Name)) := by
  unfold metricNamer.FilterSeries
  split
  · next h =>
    have hnil : n.seriesMatchers = [] := List.length_eq_zero.mp h
    simp [hnil]
  · rw [seriesLoop_eq_append_filter]
    simp [matchersLoop_eq_all]

/-- Claim C19. `FilterSeries` is idempotent: filtering the result of `FilterSeries` again
with the same namer gives that result. -/
theorem FilterSeries_idempotent (n : metricNamer) (S : List Series) :
    n.FilterSeries (n.FilterSeries S) = n.FilterSeries S := by
  rw [FilterSeries_filter_all n (n.FilterSeries S), FilterSeries_filter_all n S,
    List.filter_filter]
  congr 1
  funext s
  simp

/-! ## One namer per rule -/

theorem rulesLoop_getElem (env : Env) (mapper : RESTMapper) (rules : List DiscoveryRule)
    (namers : List metricNamer) (h : rulesLoop env mapper rules = .ok namers) :
    namers.length = rules.length ∧
    ∀ (i : Nat) (rule : DiscoveryRule), rules[i]? = some rule →
      ∃ n, namers[i]? = some n ∧ namerFromRule env mapper rule = .ok n := by
  induction rules generalizing namers with
  | nil =>
    simp only [rulesLoop, Except.ok.injEq] at h
    subst h
    simp
  | cons r rest ih =>
    unfold rulesLoop at h
    cases hn : namerFromRule env mapper r with
    | error e => simp [hn] at h
    | ok namer =>
      simp only [hn] at h
      cases hr : rulesLoop env mapper rest with
      | error e => simp [hr] at h
      | ok ns =>
        simp only [hr, Except.ok.injEq] at h
        subst h
        obtain ⟨h1, h2⟩ := ih ns hr
        refine ⟨by simp [h1], ?_⟩
        intro i rule hi
        cases i with
        | zero =>
          simp only [List.getElem?_cons_zero, Option.some.injEq] at hi
          subst hi
          exact ⟨namer, by simp, hn⟩
        | succ j =>
          simp only [List.getElem?_cons_succ] at hi
          obtain ⟨n, hn1, hn2⟩ := h2 j rule hi
          exact ⟨n, by simpa using hn1, hn2⟩

theorem namerFromRule_sameRule (env : Env) (mapper : RESTMapper) (rule : DiscoveryRule)
    (n : metricNamer) (h : namerFromRule env mapper rule = .ok n) :
    n.seriesQuery = rule.SeriesQuery ∧ n.mapper = mapper ∧
    (seriesMatchersOfRule env rule = .ok n.seriesMatchers) ∧
    (nameOfRule env rule = .ok (n.nameMatches, n.nameAs)) ∧
    (labelTemplateOfRule env rule = .ok (n.labelTemplate, n.labelResExtractor)) ∧
    (env.ParseQuery rule.MetricsQuery = .ok n.metricsQueryTemplate) := by
  unfold namerFromRule at h
  cases hl : labelTemplateOfRule env rule with
  | error e => simp [hl] at h
  | ok lt =>
    obtain ⟨labelTemplate, labelResExtractor⟩ := lt
    simp only [hl] at h
    cases hq : env.ParseQuery rule.MetricsQuery with
    | error e => simp [hq] at h
    | ok q =>
      simp only [hq] at h
      cases hm : seriesMatchersOfRule env rule with
      | error e => simp [hm] at h
      | ok ms =>
        simp only [hm] at h
        cases hn : nameOfRule env rule with
        | error e => simp [hn] at h
        | ok nm =>
          obtain ⟨nameMatches, nameAs⟩ := nm
          simp only [hn] at h
          obtain ⟨a1, a2, a3, a4, a5, a6, a7, a8⟩ := overridesLoop_sameRule mapper _ _ n h
          simp only at a1 a2 a3 a4 a5 a6 a7 a8
          refine ⟨a1, a8, ?_, ?_, ?_, ?_⟩
          · rw [a7]
          · rw [a5, a6]
          · rw [a2, a3]
          · rw [a4]

/-- Claim C15. When `NamersFromConfig` accepts a rule set, it returns exactly one namer per
rule, in rule order: the two lists have the same length, and at every index the namer is
the one built from the rule at that index and its `Selector()` is the `seriesSelector`
string of that rule, unchanged. -/
theorem NamersFromConfig_one_per_rule (env : Env) (cfg : MetricsDiscoveryConfig)
    (mapper : RESTMapper) (namers : List metricNamer)
    (h : NamersFromConfig env cfg mapper = .ok namers) :
    namers.length = cfg.Rules.length ∧
    (∀ (i : Nat) (rule : DiscoveryRule), cfg.Rules[i]? = some rule →
      ∃ n, namers[i]? = some n ∧ namerFromRule env mapper rule = .ok n ∧
        n.Selector = rule.SeriesQuery) ∧
    namers.map metricNamer.Selector = cfg.Rules.map DiscoveryRule.SeriesQuery := by
  obtain ⟨h1, h2⟩ := rulesLoop_getElem env mapper cfg.Rules namers h
  have h3 : ∀ (i : Nat) (rule : DiscoveryRule), cfg.Rules[i]? = some rule →
      ∃ n, namers[i]? = some n ∧ namerFromRule env mapper rule = .ok n ∧
        n.Selector = rule.SeriesQuery := by
    intro i rule hi
    obtain ⟨n, hn1, hn2⟩ := h2 i rule hi
    exact ⟨n, hn1, hn2, (namerFromRule_sameRule env mapper rule n hn2).1⟩
  refine ⟨h1, h3, ?_⟩
  apply List.ext_getElem?
  intro i
  simp only [List.getElem?_map]
  cases hr : cfg.Rules[i]? with
  | none =>
    have : namers[i]? = none := by
      rw [List.getElem?_eq_none_iff] at hr ⊢
      omega
    simp [this]
  | some rule =>
    obtain ⟨n, hn1, _, hn3⟩ := h3 i rule hr
    simp [hn1, hn3]

theorem NamersFromConfig_one_per_rule_witness :
    [overrideNamer, podNameNamer].length = [overrideRule, podNameRule].length ∧
    [overrideNamer, podNameNamer].map metricNamer.Selector =
      [overrideRule, podNameRule].map DiscoveryRule.SeriesQuery :=
  ⟨(NamersFromConfig_one_per_rule goEnv { Rules := [overrideRule, podNameRule] } restMapper
      [overrideNamer, podNameNamer] rfl).1,
   (NamersFromConfig_one_per_rule goEnv { Rules := [overrideRule, podNameRule] } restMapper
      [overrideNamer, podNameNamer] rfl).2.2⟩

/-! ## Failed label lookups -/

/-- Claim C16. When `LabelForResource(R)` returns an error, the namer it leaves is the
namer it was called on: the label->resource map and the resource->label map are exactly
as before the call.  The errors are: no label template, a singularization failure, a
failed execution of the label template, an empty rendered label. -/
theorem LabelForResource_atomic (n n1 : metricNamer) (R : GroupResource) (err : String)
    (h : n.LabelForResource R = (.error err, n1)) :
    n1.labelToResource = n.labelToResource ∧ n1.resourceToLabel = n.resourceToLabel ∧
    n1 = n ∧
    n.resourceToLabel R = none ∧
    (n.labelTemplate = none ∨
     ∃ T, n.labelTemplate = some T ∧
      ((∃ e, n.mapper.ResourceSingularizer R.Resource = .error e) ∨
       ∃ singularRes, n.mapper.ResourceSingularizer R.Resource = .ok singularRes ∧
        ((∃ e, T.Execute { Group := groupNameSanitizer R.Group, Resource := singularRes } =
            .error e) ∨
         T.Execute { Group := groupNameSanitizer R.Group, Resource := singularRes } =
            .ok ""))) := by
  have hn := LabelForResource_error n R err n1 h
  subst hn
  refine ⟨rfl, rfl, rfl, ?_⟩
  cases hc : n1.resourceToLabel R with
  | some lbl => simp [metricNamer.LabelForResource, hc] at h
  | none =>
    refine ⟨rfl, ?_⟩
    cases hT : n1.labelTemplate with
    | none => exact Or.inl rfl
    | some T =>
      refine Or.inr ⟨T, rfl, ?_⟩
      cases hs : n1.mapper.ResourceSingularizer R.Resource with
      | error e => exact Or.inl ⟨e, rfl⟩
      | ok singularRes =>
        refine Or.inr ⟨singularRes, rfl, ?_⟩
        cases he : T.Execute { Group := groupNameSanitizer R.Group, Resource := singularRes } with
        | error e => exact Or.inl ⟨e, rfl⟩
        | ok buff =>
          right
          by_cases hb : buff = ""
          · rw [hb]
          · simp [metricNamer.LabelForResource, metricNamer.makeLabelForResource, hc, hT, hs,
              he, hb] at h

theorem LabelForResource_atomic_witness :
    condTemplateNamer.LabelForResource { Group := "", Resource := "pods" } =
      (.error "unable to convert resource pods into label: can not evaluate field Missing",
       condTemplateNamer) ∧
    (condTemplateNamer.LabelForResource { Group := "", Resource := "pods" }).2.labelToResource =
      condTemplateNamer.labelToResource ∧
    (condTemplateNamer.LabelForResource { Group := "", Resource := "pods" }).2.resourceToLabel =
      condTemplateNamer.resourceToLabel :=
  ⟨rfl,
   (LabelForResource_atomic condTemplateNamer _ { Group := "", Resource := "pods" } _ rfl).1,
   (LabelForResource_atomic condTemplateNamer _ { Group := "", Resource := "pods" } _ rfl).2.1⟩

/-! ## Metric names of the filtered series -/

theorem mem_rulesLoop (env : Env) (mapper : RESTMapper) (rules : List DiscoveryRule)
    (namers : List metricNamer) (h : rulesLoop env mapper rules = .ok namers)
    (n : metricNamer) (hn : n ∈ namers) :
    ∃ rule ∈ rules, namerFromRule env mapper rule = .ok n := by
  obtain ⟨hlen, hget⟩ := rulesLoop_getElem env mapper rules namers h
  obtain ⟨i, hi, hni⟩ := List.getElem_of_mem hn
  have hi2 : i < rules.length := by omega
  obtain ⟨n2, h1, h2⟩ := hget i rules[i] (List.getElem?_eq_getElem hi2)
  rw [List.getElem?_eq_getElem hi, Option.some.injEq] at h1
  refine ⟨rules[i], List.getElem_mem _, ?_⟩
  rw [h2, ← h1, hni]

theorem MetricNameForSeries_ok_iff (n : metricNamer) (series : Series) :
    (∃ name, n.MetricNameForSeries series = .ok name) ↔
      n.nameMatches.MatchString series.Name = true := by
  unfold metricNamer.MetricNameForSeries Regexp.MatchString
  cases n.nameMatches.FindStringSubmatch series.Name with
  | none => simp
  | some g => simp

theorem MetricNameForSeries_error_iff (n : metricNamer) (series : Series) :
    (∃ err, n.MetricNameForSeries series = .error err) ↔
      n.nameMatches.MatchString series.Name = false := by
  unfold metricNamer.MetricNameForSeries Regexp.MatchString
  cases n.nameMatches.FindStringSubmatch series.Name with
  | none => simp
  | some g => simp

theorem filtersLoop_ok (env : Env) (seriesQuery : String) (filters : List RegexFilter)
    (matchers : List reMatcher) (h : filtersLoop env seriesQuery filters = .ok matchers) :
    List.Forall₂ (fun f m => newReMatcher env f = .ok m) filters matchers := by
  induction filters generalizing matchers with
  | nil =>
    simp only [filtersLoop, Except.ok.injEq] at h
    subst h
    exact List.Forall₂.nil
  | cons f rest ih =>
    unfold filtersLoop at h
    cases hf : newReMatcher env f with
    | error e => simp [hf] at h
    | ok m =>
      simp only [hf] at h
      cases hr : filtersLoop env seriesQuery rest with
      | error e => simp [hr] at h
      | ok ms =>
        simp only [hr, Except.ok.injEq] at h
        subst h
        exact List.Forall₂.cons hf (ih ms hr)

theorem seriesMatchersOfRule_ok (env : Env) (rule : DiscoveryRule) (matchers : List reMatcher)
    (h : seriesMatchersOfRule env rule = .ok matchers) :
    ∃ filterMatchers, filtersLoop env rule.SeriesQuery rule.SeriesFilters = .ok filterMatchers ∧
      ((rule.Name.Matches = "" ∧ matchers = filterMatchers) ∨
       (rule.Name.Matches ≠ "" ∧ ∃ re, env.Compile rule.Name.Matches = .ok re ∧
          matchers = filterMatchers ++ [{ regex := re, positive := true }])) := by
  unfold seriesMatchersOfRule at h
  cases hf : filtersLoop env rule.SeriesQuery rule.SeriesFilters with
  | error e => simp [hf] at h
  | ok ms =>
    simp only [hf] at h
    refine ⟨ms, rfl, ?_⟩
    by_cases hm : rule.Name.Matches = ""
    · simp only [hm, ne_eq, not_true_eq_false, if_false, Except.ok.injEq] at h
      exact Or.inl ⟨hm, h.symm⟩
    · simp only [hm, ne_eq, not_false_eq_true, if_true] at h
      cases hr : newReMatcher env { Is := rule.Name.Matches, IsNot := "" } with
      | error e => simp [hr] at h
      | ok m =>
        simp only [hr, Except.ok.injEq] at h
        rcases (newReMatcher_ok_iff env _ m).mp hr with ⟨_, _, re, hre, hm2⟩ | ⟨h0, _⟩
        · exact Or.inr ⟨hm, re, hre, by rw [← h, hm2]⟩
        · exact absurd h0 hm

theorem nameOfRule_ok (env : Env) (rule : DiscoveryRule) (re : Regexp) (nameAs : String)
    (h : nameOfRule env rule = .ok (re, nameAs)) :
    ((rule.Name.Matches = "" ∧ re = env.matchAll) ∨
     (rule.Name.Matches ≠ "" ∧ env.Compile rule.Name.Matches = .ok re)) ∧
    ((rule.Name.As ≠ "" ∧ nameAs = rule.Name.As) ∨
     (rule.Name.As = "" ∧ re.SubexpNames.length = 1 ∧ nameAs = "$0") ∨
     (rule.Name.As = "" ∧ re.SubexpNames.length = 2 ∧ nameAs = "$1")) := by
  unfold nameOfRule at h
  have key : ∀ re0 : Regexp,
      (if rule.Name.As = "" then
        if re0.SubexpNames.length = 1 then Except.ok (re0, "$0")
        else if re0.SubexpNames.length = 2 then Except.ok (re0, "$1")
        else Except.error ("must specify an as value for name matcher " ++ rule.Name.Matches ++
          " associated with series query " ++ rule.SeriesQuery)
       else Except.ok (re0, rule.Name.As)) = Except.ok (re, nameAs) →
      re0 = re ∧
      ((rule.Name.As ≠ "" ∧ nameAs = rule.Name.As) ∨
       (rule.Name.As = "" ∧ re.SubexpNames.length = 1 ∧ nameAs = "$0") ∨
       (rule.Name.As = "" ∧ re.SubexpNames.length = 2 ∧ nameAs = "$1")) := by
    intro re0 h0
    by_cases ha : rule.Name.As = ""
    · simp only [ha, if_true] at h0
      by_cases h1 : re0.SubexpNames.length = 1
      · simp only [h1, if_true, Except.ok.injEq, Prod.mk.injEq] at h0
        obtain ⟨e1, e2⟩ := h0
        subst e1
        exact ⟨rfl, Or.inr (Or.inl ⟨ha, h1, e2.symm⟩)⟩
      · by_cases h2 : re0.SubexpNames.length = 2
        · rw [if_neg h1, if_pos h2] at h0
          simp only [Except.ok.injEq, Prod.mk.injEq] at h0
          obtain ⟨e1, e2⟩ := h0
          subst e1
          exact ⟨rfl, Or.inr (Or.inr ⟨ha, h2, e2.symm⟩)⟩
        · simp [h1, h2] at h0
    · simp only [ha, if_false, Except.ok.injEq, Prod.mk.injEq] at h0
      exact ⟨h0.1, Or.inl ⟨ha, h0.2.symm⟩⟩
  by_cases hm : rule.Name.Matches = ""
  · simp only [hm, ne_eq, not_true_eq_false, if_false] at h
    obtain ⟨e1, e2⟩ := key env.matchAll (by simpa [hm] using h)
    exact ⟨Or.inl ⟨hm, e1.symm⟩, e2⟩
  · simp only [hm, ne_eq, not_false_eq_true, if_true] at h
    cases hc : env.Compile rule.Name.Matches with
    | error e => simp [hc] at h
    | ok re0 =>
      simp only [hc] at h
      obtain ⟨e1, e2⟩ := key re0 h
      exact ⟨Or.inr ⟨hm, by rw [e1]⟩, e2⟩

/-- Claim C13. For a namer that `NamersFromConfig` produces, `MetricNameForSeries` returns
no error on any series of `FilterSeries(S)`: the name pattern of the rule, when it has
one, is the pattern of the last series matcher, with positive polarity, so `FilterSeries`
keeps only series whose name it matches; without a name rule the pattern is `.*`, which
matches every string.  `MetricNameForSeries` fails exactly when the name pattern does not
match the series name. -/
theorem MetricNameForSeries_on_filtered (env : Env) (cfg : MetricsDiscoveryConfig)
    (mapper : RESTMapper) (namers : List metricNamer) (n : metricNamer)
    (hbuild : NamersFromConfig env cfg mapper = .ok namers) (hn : n ∈ namers)
    (hall : ∀ s, env.matchAll.MatchString s = true) :
    (∀ (S : List Series) (series : Series), series ∈ n.FilterSeries S →
      ∃ name, n.MetricNameForSeries series = .ok name) ∧
    (∀ series : Series, (∃ err, n.MetricNameForSeries series = .error err) ↔
      n.nameMatches.MatchString series.Name = false) ∧
    (∃ rule ∈ cfg.Rules, namerFromRule env mapper rule = .ok n ∧
      (rule.Name.Matches ≠ "" →
        env.Compile rule.Name.Matches = .ok n.nameMatches ∧
        n.seriesMatchers.getLast? = some { regex := n.nameMatches, positive := true }) ∧
      (rule.Name.Matches = "" → n.nameMatches = env.matchAll)) := by
  obtain ⟨rule, hrule, hb⟩ := mem_rulesLoop env mapper cfg.Rules namers hbuild n hn
  obtain ⟨_, _, hsm, hname, _, _⟩ := namerFromRule_sameRule env mapper rule n hb
  obtain ⟨hre, _⟩ := nameOfRule_ok env rule _ _ hname
  obtain ⟨fm, _, hms⟩ := seriesMatchersOfRule_ok env rule _ hsm
  have hlast : rule.Name.Matches ≠ "" →
      env.Compile rule.Name.Matches = .ok n.nameMatches ∧
      n.seriesMatchers.getLast? = some { regex := n.nameMatches, positive := true } := by
    intro hm
    rcases hre with ⟨h0, _⟩ | ⟨_, hc⟩
    · exact absurd h0 hm
    · rcases hms with ⟨h0, _⟩ | ⟨_, re, hc2, hms2⟩
      · exact absurd h0 hm
      · rw [hc] at hc2
        have : n.nameMatches = re := Except.ok.inj hc2
        refine ⟨hc, ?_⟩
        rw [hms2, this]
        simp
  have hnone : rule.Name.Matches = "" → n.nameMatches = env.matchAll := by
    intro hm
    rcases hre with ⟨_, h1⟩ | ⟨h0, _⟩
    · exact h1
    · exact absurd hm h0
  refine ⟨?_, fun series => MetricNameForSeries_error_iff n series,
    rule, hrule, hb, hlast, hnone⟩
  intro S series hs
  rw [MetricNameForSeries_ok_iff]
  by_cases hm : rule.Name.Matches = ""
  · rw [hnone hm]
    exact hall _
  · obtain ⟨_, hl⟩ := hlast hm
    rw [FilterSeries_filter_all, List.mem_filter] at hs
    have hall2 := hs.2
    rw [List.all_eq_true] at hall2
    have hmem : ({ regex := n.nameMatches, positive := true } : reMatcher) ∈ n.seriesMatchers :=
      List.mem_of_getLast?_eq_some hl
    have := hall2 _ hmem
    simpa [reMatcher.Matches] using this

/-! ## Queries without target names -/

theorem QueryForSeries_no_crash_of_names (n : metricNamer) (series : String)
    (resource : GroupResource) (namespaceName : String) (name0 : String)
    (rest : List String) :
    (n.QueryForSeries series resource namespaceName (name0 :: rest)).1 ≠ .crash := by
  unfold metricNamer.QueryForSeries
  by_cases hns : namespaceName = ""
  · simp only [hns, ne_eq, not_true_eq_false, if_false]
    rcases n.LabelForResource resource with ⟨res, n3⟩
    cases res with
    | error e => simp
    | ok resourceLbl =>
      simp only
      split
      · simp
      · split <;> simp
  · simp only [hns, ne_eq, not_false_eq_true, if_true]
    rcases n.LabelForResource nsGroupResource with ⟨res1, n1⟩
    cases res1 with
    | error e => simp
    | ok namespaceLbl =>
      simp only
      rcases n1.LabelForResource resource with ⟨res, n3⟩
      cases res with
      | error e => simp
      | ok resourceLbl =>
        simp only
        split
        · simp
        · split <;> simp

/-- Claim C17, the code at the failing input.  `QueryForSeries` without target names on a
namer that has a label for the resource and for the namespace resource is a run-time
panic (the index `names[0]` is out of range), reached after both lookups have stored their
labels in the cache; with one target name the same call returns a query, and a call with
at least one target name never panics. -/
theorem QueryForSeries_without_names_crashes :
    (exampleNamer.QueryForSeries "my_series" { Group := "", Resource := "pods" } "ns1" []).1 =
      .crash ∧
    (exampleNamer.QueryForSeries "my_series" { Group := "", Resource := "pods" } "ns1"
      []).2.resourceToLabel { Group := "", Resource := "pods" } = some "pod" ∧
    (exampleNamer.QueryForSeries "my_series" { Group := "", Resource := "pods" } "" []).1 =
      .crash ∧
    (exampleNamer.QueryForSeries "my_series" { Group := "", Resource := "pods" } "ns1"
      ["a"]).1 = .ok "sum(my_series\x7bnamespace=\"ns1\",pod=\"a\"\x7d) by (pod)" ∧
    (∀ (n : metricNamer) (series : String) (resource : GroupResource)
      (namespaceName name0 : String) (rest : List String),
      (n.QueryForSeries series resource namespaceName (name0 :: rest)).1 ≠ .crash) ∧
    (∀ (n : metricNamer) (series namespaceName : String) (resource : GroupResource),
      (n.QueryForSeries series resource namespaceName []).1 = .crash ∨
      ∃ err, (n.QueryForSeries series resource namespaceName []).1 = .err err) := by
  refine ⟨by decide, by decide, by decide, by decide,
    fun n series resource namespaceName name0 rest =>
      QueryForSeries_no_crash_of_names n series resource namespaceName name0 rest, ?_⟩
  intro n series namespaceName resource
  unfold metricNamer.QueryForSeries
  by_cases hns : namespaceName = ""
  · simp only [hns, ne_eq, not_true_eq_false, if_false]
    rcases n.LabelForResource resource with ⟨res, n3⟩
    cases res with
    | error e => exact Or.inr ⟨e, rfl⟩
    | ok resourceLbl => exact Or.inl rfl
  · simp only [hns, ne_eq, not_false_eq_true, if_true]
    rcases n.LabelForResource nsGroupResource with ⟨res1, n1⟩
    cases res1 with
    | error e => exact Or.inr ⟨e, rfl⟩
    | ok namespaceLbl =>
      simp only
      rcases n1.LabelForResource resource with ⟨res, n3⟩
      cases res with
      | error e => exact Or.inr ⟨e, rfl⟩
      | ok resourceLbl => exact Or.inl rfl

/-! ## Consistency of the two cache maps -/

theorem overridesLoop_consistent (mapper : RESTMapper)
    (overrides : List (String × GroupResource)) (namer n1 : metricNamer)
    (h : overridesLoop mapper overrides namer = .ok n1)
    (hc : namer.consistent)
    (hfresh : ∀ l ∈ overrides.map Prod.fst, namer.labelToResource l = none)
    (hnodup : (overrides.map Prod.fst).Nodup) : n1.consistent := by
  induction overrides generalizing namer with
  | nil =>
    simp only [overridesLoop, Except.ok.injEq] at h
    rw [← h]
    exact hc
  | cons p rest ih =>
    obtain ⟨lbl, g⟩ := p
    unfold overridesLoop at h
    simp only [List.map_cons, List.nodup_cons] at hnodup
    cases hn : mapper.Normalize { Group := g.Group, Resource := g.Resource } with
    | error e => simp [hn] at h
    | ok info =>
      simp only [hn] at h
      have hlbl : namer.labelToResource lbl = none := hfresh lbl (by simp)
      refine ih _ h ?_ ?_ hnodup.2
      · intro R L hR
        simp only at hR ⊢
        by_cases hRi : R = info
        · subst hRi
          simp only [Function.update_same, Option.some.injEq] at hR
          subst hR
          simp
        · simp only [Function.update, hRi, dite_false] at hR
          have hL := hc R L hR
          have hne : L ≠ lbl := by
            rintro rfl
            rw [hlbl] at hL
            cases hL
          simp [Function.update, hne, hL]
      · intro l hl
        have hne : l ≠ lbl := by
          rintro rfl
          exact hnodup.1 hl
        simp only [Function.update, hne, dite_false]
        exact hfresh l (by simp [hl])

theorem namerFromRule_consistent (env : Env) (mapper : RESTMapper) (rule : DiscoveryRule)
    (n0 : metricNamer) (hbuild : namerFromRule env mapper rule = .ok n0)
    (hnodup : (rule.Resources.Overrides.map Prod.fst).Nodup) : n0.consistent := by
  unfold namerFromRule at hbuild
  cases hl : labelTemplateOfRule env rule with
  | error e => simp [hl] at hbuild
  | ok lt =>
    obtain ⟨labelTemplate, labelResExtractor⟩ := lt
    simp only [hl] at hbuild
    cases hq : env.ParseQuery rule.MetricsQuery with
    | error e => simp [hq] at hbuild
    | ok q =>
      simp only [hq] at hbuild
      cases hm : seriesMatchersOfRule env rule with
      | error e => simp [hm] at hbuild
      | ok ms =>
        simp only [hm] at hbuild
        cases hn : nameOfRule env rule with
        | error e => simp [hn] at hbuild
        | ok nm =>
          obtain ⟨nameMatches, nameAs⟩ := nm
          simp only [hn] at hbuild
          refine overridesLoop_consistent mapper _ _ n0 hbuild ?_ ?_ hnodup
          · intro R L hR
            cases hR
          · intro l _
            rfl

theorem LabelForResource_consistent (m : metricNamer) (R : GroupResource)
    (hc : m.consistent) (hno : ¬ m.missCollides R) : (m.LabelForResource R).2.consistent := by
  rcases LabelForResource_state m R with hs | ⟨hmiss, _, _, L, _, _, _, _, hres, hs⟩
  · rw [hs]; exact hc
  · rw [hs]
    intro R1 L1 hR1
    simp only at hR1 ⊢
    by_cases hRe : R1 = R
    · subst hRe
      simp only [Function.update_same, Option.some.injEq] at hR1
      subst hR1
      simp
    · simp only [Function.update, hRe, dite_false] at hR1
      have hne : L1 ≠ L := by
        rintro rfl
        exact hno ⟨hmiss, L1, R1, hres, hR1⟩
      simp [Function.update, hne, hc R1 L1 hR1]

theorem call_consistent (m : metricNamer) (c : Call) (hc : m.consistent)
    (hno : ¬ m.callCollides c) : (m.call c).consistent := by
  cases c with
  | resourcesForSeries series =>
    obtain ⟨_, a2, a3⟩ := ResourcesForSeries_state m series
    intro R L hR
    simp only [metricNamer.call] at hR ⊢
    rw [a2] at hR
    exact a3 L R (hc R L hR)
  | labelForResource R => exact LabelForResource_consistent m R hc hno
  | queryForSeries series resource namespaceName names =>
    simp only [metricNamer.call]
    by_cases hns : namespaceName = ""
    · subst hns
      rw [QueryForSeries_state_without_namespace]
      simp only [metricNamer.callCollides, if_true] at hno
      exact LabelForResource_consistent m resource hc hno
    · rw [QueryForSeries_state_with_namespace m series resource namespaceName names hns]
      simp only [metricNamer.callCollides, hns, if_false] at hno
      rcases hl : m.LabelForResource nsGroupResource with ⟨res, n1⟩
      rw [hl] at hno
      cases res with
      | error e =>
        simp only
        rw [LabelForResource_error m _ e n1 hl]
        exact hc
      | ok namespaceLbl =>
        simp only at hno ⊢
        have h1 : n1.consistent := by
          have := LabelForResource_consistent m nsGroupResource hc (fun hh => hno (Or.inl hh))
          rw [hl] at this
          exact this
        exact LabelForResource_consistent n1 resource h1 (fun hh => hno (Or.inr hh))

theorem run_consistent (cs : List Call) (m : metricNamer) (hc : m.consistent)
    (hno : m.neverCollides cs) : (m.run cs).consistent := by
  induction cs generalizing m with
  | nil => exact hc
  | cons c rest ih =>
    obtain ⟨h1, h2⟩ := hno
    exact ih (m.call c) (call_consistent m c hc h1) h2

/-- Claim C20, as amended.  In the namer that `NamersFromConfig` builds from a rule, and in
every state reachable from it by a sequence of `ResourcesForSeries`, `LabelForResource` and
`QueryForSeries` calls in which no `LabelForResource` lookup misses the cache and renders
a label that the resource->label map already holds for another resource, whenever
`resourceToLabel[R] = L` then `labelToResource[L] = R`. -/
theorem cache_consistent (env : Env) (mapper : RESTMapper) (cfg : MetricsDiscoveryConfig)
    (namers : List metricNamer) (rule : DiscoveryRule) (n0 : metricNamer)
    (hbuild : NamersFromConfig env cfg mapper = .ok namers)
    (hrule : (rule, n0) ∈ cfg.Rules.zip namers)
    (hnodup : (rule.Resources.Overrides.map Prod.fst).Nodup)
    (cs : List Call) (hcs : n0.neverCollides cs) :
    (∀ (R : GroupResource) (L : String), n0.resourceToLabel R = some L →
      n0.labelToResource L = some R) ∧
    (∀ (R : GroupResource) (L : String), (n0.run cs).resourceToLabel R = some L →
      (n0.run cs).labelToResource L = some R) := by
  have hb := rulesLoop_zip env mapper cfg.Rules namers hbuild (rule, n0) hrule
  have h0 := namerFromRule_consistent env mapper rule n0 hb hnodup
  exact ⟨h0, run_consistent cs n0 h0 hcs⟩

theorem cache_consistent_witness :
    (overrideNamer.run
      [Call.resourcesForSeries { Name := "x", Labels := [("pod", "p"), ("service", "s")] },
       Call.labelForResource { Group := "", Resource := "pods" }]).resourceToLabel
      { Group := "", Resource := "pods" } = some "pod" ∧
    (overrideNamer.run
      [Call.resourcesForSeries { Name := "x", Labels := [("pod", "p"), ("service", "s")] },
       Call.labelForResource { Group := "", Resource := "pods" }]).labelToResource "pod" =
      some { Group := "", Resource := "pods" } := by
  refine ⟨rfl,
   (cache_consistent goEnv restMapper { Rules := [overrideRule] } [overrideNamer]
      overrideRule overrideNamer rfl (List.mem_singleton.mpr rfl) (by decide)
      [Call.resourcesForSeries { Name := "x", Labels := [("pod", "p"), ("service", "s")] },
       Call.labelForResource { Group := "", Resource := "pods" }]
      ?_).2 { Group := "", Resource := "pods" } "pod" rfl⟩
  refine ⟨fun hh => hh, ?_, trivial⟩
  intro hh
  obtain ⟨_, L, R1, h1, h2⟩ := hh
  have hL : L = "pod" := (Except.ok.inj h1).symm
  subst hL
  have h3 : R1 ≠ { Group := "extensions", Resource := "ingresses" } := by
    rintro rfl
    exact absurd h2 (by decide)
  have h4 : (overrideNamer.call (Call.resourcesForSeries
      { Name := "x", Labels := [("pod", "p"), ("service", "s")] })).resourceToLabel R1 =
      none := by
    show Function.update (fun _ => none)
      ({ Group := "extensions", Resource := "ingresses" } : GroupResource)
      (some "service") R1 = none
    simp [Function.update, h3]
  rw [h4] at h2
  cases h2

/-- Claim C20, counterexample.  The namer built from `overrideRule` has
`resourceToLabel[ingresses.extensions] = service` and `labelToResource[service] =
ingresses.extensions`.  After `LabelForResource` of the resource services, which misses the
cache and renders the label `service`, `resourceToLabel[ingresses.extensions]` is still
`service` while `labelToResource[service]` is services. -/
theorem cache_inconsistent_after_render :
    NamersFromConfig goEnv { Rules := [overrideRule] } restMapper = .ok [overrideNamer] ∧
    overrideNamer.resourceToLabel { Group := "extensions", Resource := "ingresses" } =
      some "service" ∧
    overrideNamer.labelToResource "service" =
      some { Group := "extensions", Resource := "ingresses" } ∧
    (overrideNamer.run
      [Call.labelForResource { Group := "", Resource := "services" }]).resourceToLabel
      { Group := "extensions", Resource := "ingresses" } = some "service" ∧
    (overrideNamer.run
      [Call.labelForResource { Group := "", Resource := "services" }]).labelToResource
      "service" = some { Group := "", Resource := "services" } := by
  exact ⟨rfl, by decide, by decide, by decide, by decide⟩

/-! ## The engine on the patterns `.*` and `^(?P<resource>.+?)$` -/

theorem take_length_takeWhile (p : Char → Bool) (chars : List Char) :
    chars.take (chars.takeWhile p).length = chars.takeWhile p := by
  induction chars with
  | nil => rfl
  | cons c cs ih =>
    by_cases hc : p c = true
    · simp [List.takeWhile_cons, hc, ih]
    · simp [List.takeWhile_cons, hc]

theorem matchItems_nil (pos : Nat) (input : List Char) (caps : reCaps) :
    matchItems [] pos input caps = some (pos, caps) := rfl

theorem matchItems_lit_cons (c d : Char) (rest : List reItem) (pos : Nat) (ds : List Char)
    (caps : reCaps) :
    matchItems (reItem.lit c :: rest) pos (d :: ds) caps =
      if c = d then matchItems rest (pos + 1) ds caps else none := rfl

theorem matchItems_lit_nil (c : Char) (rest : List reItem) (pos : Nat) (caps : reCaps) :
    matchItems (reItem.lit c :: rest) pos [] caps = none := rfl

theorem matchItems_any_cons (d : Char) (rest : List reItem) (pos : Nat) (ds : List Char)
    (caps : reCaps) :
    matchItems (reItem.any :: rest) pos (d :: ds) caps =
      if d = '\n' then none else matchItems rest (pos + 1) ds caps := rfl

theorem matchItems_any_nil (rest : List reItem) (pos : Nat) (caps : reCaps) :
    matchItems (reItem.any :: rest) pos [] caps = none := rfl

theorem matchItems_star (greedy : Bool) (rest : List reItem) (pos : Nat) (input : List Char)
    (caps : reCaps) :
    matchItems (reItem.star greedy :: rest) pos input caps =
      starLoop greedy (matchItems rest) pos input caps := rfl

theorem matchItems_bol (rest : List reItem) (pos : Nat) (input : List Char) (caps : reCaps) :
    matchItems (reItem.bol :: rest) pos input caps =
      if pos = 0 then matchItems rest pos input caps else none := rfl

theorem matchItems_eol_nil (rest : List reItem) (pos : Nat) (caps : reCaps) :
    matchItems (reItem.eol :: rest) pos [] caps = matchItems rest pos [] caps := rfl

theorem matchItems_eol_cons (rest : List reItem) (pos : Nat) (d : Char) (ds : List Char)
    (caps : reCaps) :
    matchItems (reItem.eol :: rest) pos (d :: ds) caps = none := rfl

theorem matchItems_openGroup (i : Nat) (rest : List reItem) (pos : Nat) (input : List Char)
    (caps : reCaps) :
    matchItems (reItem.openGroup i :: rest) pos input caps =
      matchItems rest pos input { caps with opens := (i, pos) :: caps.opens } := rfl

theorem matchItems_closeGroup (i : Nat) (rest : List reItem) (pos : Nat) (input : List Char)
    (caps : reCaps) :
    matchItems (reItem.closeGroup i :: rest) pos input caps =
      matchItems rest pos input { caps with closes := (i, pos) :: caps.closes } := rfl

theorem starLoop_nil (greedy : Bool) (k : Nat → List Char → reCaps → Option (Nat × reCaps))
    (pos : Nat) (caps : reCaps) : starLoop greedy k pos [] caps = k pos [] caps := rfl

theorem starLoop_cons (greedy : Bool) (k : Nat → List Char → reCaps → Option (Nat × reCaps))
    (pos : Nat) (c : Char) (cs : List Char) (caps : reCaps) :
    starLoop greedy k pos (c :: cs) caps =
      if c = '\n' then k pos (c :: cs) caps
      else if greedy then
        match starLoop greedy k (pos + 1) cs caps with
        | some r => some r
        | none => k pos (c :: cs) caps
      else
        match k pos (c :: cs) caps with
        | some r => some r
        | none => starLoop greedy k (pos + 1) cs caps := rfl

theorem starLoop_greedy_end (chars : List Char) (pos : Nat) (caps : reCaps) :
    starLoop true (matchItems []) pos chars caps =
      some (pos + (chars.takeWhile (fun c => c ≠ '\n')).length, caps) := by
  induction chars generalizing pos with
  | nil => rw [starLoop_nil, matchItems_nil]; rfl
  | cons c cs ih =>
    rw [starLoop_cons]
    by_cases hc : c = '\n'
    · rw [if_pos hc, matchItems_nil]
      simp [List.takeWhile_cons, hc]
    · rw [if_neg hc, if_pos rfl, ih]
      simp only [List.takeWhile_cons, ne_eq, hc, not_false_eq_true, decide_True, if_true,
        List.length_cons]
      congr 2
      omega

theorem matchAll_FindStringSubmatch (s : String) :
    reEnv.matchAll.FindStringSubmatch s =
      some [String.mk (s.toList.takeWhile (fun c => c ≠ '\n'))] := by
  show findSubmatch [reItem.star true] 0 s.toList = _
  have hm := starLoop_greedy_end s.toList 0 { opens := [], closes := [] }
  have h : searchFrom [reItem.star true] 0 s.toList =
      some (0, (s.toList.takeWhile (fun c => c ≠ '\n')).length,
        { opens := [], closes := [] }) := by
    cases hs : s.toList with
    | nil => rfl
    | cons c cs =>
      rw [hs] at hm
      simp only [searchFrom]
      rw [matchItems_star, hm, Nat.zero_add]
  simp only [findSubmatch, h, sliceText, List.drop_zero, Nat.sub_zero, List.range_zero,
    List.map_nil, take_length_takeWhile]

theorem matchAll_matches_every_string (s : String) :
    reEnv.matchAll.MatchString s = true := by
  simp [Regexp.MatchString, matchAll_FindStringSubmatch]

theorem starLoop_lazy_to_end (i : Nat) (chars : List Char) (pos : Nat)
    (caps : reCaps) (hnl : ∀ c ∈ chars, c ≠ '\n') :
    starLoop false (matchItems [reItem.closeGroup i, reItem.eol]) pos chars caps =
      some (pos + chars.length, { caps with closes := (i, pos + chars.length) :: caps.closes }) := by
  induction chars generalizing pos with
  | nil =>
    rw [starLoop_nil, matchItems_closeGroup, matchItems_eol_nil, matchItems_nil]
    rfl
  | cons c cs ih =>
    have hc : c ≠ '\n' := hnl c (List.mem_cons_self _ _)
    have hcs : ∀ d ∈ cs, d ≠ '\n' := fun d hd => hnl d (List.mem_cons_of_mem _ hd)
    rw [starLoop_cons, if_neg hc, matchItems_closeGroup, matchItems_eol_cons]
    simp only [Bool.false_eq_true, if_false]
    rw [ih (pos + 1) hcs]
    simp only [List.length_cons]
    have : pos + 1 + cs.length = pos + (cs.length + 1) := by omega
    rw [this]

theorem resourceOnly_FindStringSubmatch (s : String) (hne : s ≠ "")
    (hnl : ∀ c ∈ s.toList, c ≠ '\n') :
    (regexpOfItems [reItem.bol, reItem.openGroup 1, reItem.any, reItem.star false,
      reItem.closeGroup 1, reItem.eol] ["resource"]).FindStringSubmatch s = some [s, s] := by
  show findSubmatch _ 1 s.toList = _
  cases hs : s.toList with
  | nil =>
    exfalso
    apply hne
    apply String.ext
    rw [show s.data = s.toList from rfl, hs]
  | cons c cs =>
    rw [hs] at hnl
    have hc : c ≠ '\n' := hnl c (List.mem_cons_self _ _)
    have hcs : ∀ d ∈ cs, d ≠ '\n' := fun d hd => hnl d (List.mem_cons_of_mem _ hd)
    have hl := starLoop_lazy_to_end 1 cs 1 { opens := [(1, 0)], closes := [] } hcs
    have h : searchFrom [reItem.bol, reItem.openGroup 1, reItem.any, reItem.star false,
        reItem.closeGroup 1, reItem.eol] 0 (c :: cs) =
        some (0, 1 + cs.length, { opens := [(1, 0)], closes := [(1, 1 + cs.length)] }) := by
      simp only [searchFrom]
      rw [matchItems_bol, if_pos rfl, matchItems_openGroup, matchItems_any_cons, if_neg hc,
        matchItems_star]
      rw [show (0 : Nat) + 1 = 1 from rfl, hl]
    have hlen : (c :: cs).take (1 + cs.length) = c :: cs := by
      rw [List.take_of_length_le]
      simp only [List.length_cons]
      omega
    have hmk : String.mk (c :: cs) = s := by
      apply String.ext
      rw [show s.data = s.toList from rfl, hs]
    have hr : List.range 1 = [0] := rfl
    simp only [findSubmatch, h, sliceText, groupText, List.drop_zero, Nat.sub_zero, hlen, hmk,
      hr, List.map_cons, List.map_nil, List.lookup, Nat.zero_add, beq_self_eq_true]

/-! ## Default name rule and default substitution -/

theorem ExpandString_whole (re : Regexp) (whole : String) (groups : List String) :
    re.ExpandString "$0" (whole :: groups) = whole := by
  simp [Regexp.ExpandString, expandLoop, expandExtract, refNumber, isRefChar]

theorem ExpandString_first (re : Regexp) (whole first : String) (groups : List String) :
    re.ExpandString "$1" (whole :: first :: groups) = first := by
  simp [Regexp.ExpandString, expandLoop, expandExtract, refNumber, isRefChar]

theorem takeWhile_no_line_break (s : String) (h : ∀ c ∈ s.toList, c ≠ '\n') :
    String.mk (s.toList.takeWhile (fun c => c ≠ '\n')) = s := by
  have : s.toList.takeWhile (fun c => decide (c ≠ '\n')) = s.toList := by
    rw [List.takeWhile_eq_self_iff]
    intro c hc
    simpa using h c hc
  rw [this]
  rfl

/-- Claim C14, as amended.  For a namer built by `NamersFromConfig` from a rule with no
name rule (empty `matches` and empty `as`), the pattern is `.*` with the substitution `$0`,
and `MetricNameForSeries` succeeds on every series: it returns the series name up to its
first line break, so the name unchanged for every series name without a line break.  The
pattern `.*` is taken as Go compiles it: no capture group, and its leftmost match is the
text before the first line break. -/
theorem MetricNameForSeries_without_name_rule (env : Env) (mapper : RESTMapper)
    (cfg : MetricsDiscoveryConfig) (namers : List metricNamer) (rule : DiscoveryRule)
    (n : metricNamer)
    (hbuild : NamersFromConfig env cfg mapper = .ok namers)
    (hrule : (rule, n) ∈ cfg.Rules.zip namers)
    (hm : rule.Name.Matches = "") (ha : rule.Name.As = "")
    (hnames : env.matchAll.SubexpNames.length = 1)
    (hdot : ∀ s, env.matchAll.FindStringSubmatch s =
      some [String.mk (s.toList.takeWhile (fun c => c ≠ '\n'))]) :
    n.nameMatches = env.matchAll ∧ n.nameAs = "$0" ∧
    ∀ series : Series,
      n.MetricNameForSeries series =
        .ok (String.mk (series.Name.toList.takeWhile (fun c => c ≠ '\n'))) ∧
      ((∀ c ∈ series.Name.toList, c ≠ '\n') →
        n.MetricNameForSeries series = .ok series.Name) := by
  have hb := rulesLoop_zip env mapper cfg.Rules namers hbuild (rule, n) hrule
  obtain ⟨_, _, _, hname, _, _⟩ := namerFromRule_sameRule env mapper rule n hb
  obtain ⟨hre, has⟩ := nameOfRule_ok env rule _ _ hname
  have h1 : n.nameMatches = env.matchAll := by
    rcases hre with ⟨_, h⟩ | ⟨h, _⟩
    · exact h
    · exact absurd hm h
  have h2 : n.nameAs = "$0" := by
    rcases has with ⟨h, _⟩ | ⟨_, _, h⟩ | ⟨_, h, _⟩
    · exact absurd ha h
    · exact h
    · rw [h1, hnames] at h
      cases h
  have h3 : ∀ series : Series, n.MetricNameForSeries series =
      .ok (String.mk (series.Name.toList.takeWhile (fun c => c ≠ '\n'))) := by
    intro series
    unfold metricNamer.MetricNameForSeries
    rw [h1, hdot, h2]
    simp only [ExpandString_whole]
  refine ⟨h1, h2, fun series => ⟨h3 series, fun hnl => ?_⟩⟩
  rw [h3, takeWhile_no_line_break _ hnl]

theorem MetricNameForSeries_without_name_rule_witness :
    (defaultNamers[3]?.map fun n =>
      n.MetricNameForSeries { Name := "service_proxy_packets", Labels := [] }) =
      some (.ok "service_proxy_packets") ∧
    exampleNamer.MetricNameForSeries { Name := "service_proxy_packets", Labels := [] } =
      .ok "service_proxy_packets" :=
  ⟨rfl,
   (MetricNameForSeries_without_name_rule goEnv restMapper { Rules := [exampleRule] }
      [exampleNamer] exampleRule exampleNamer rfl (List.mem_singleton.mpr rfl) rfl rfl rfl
      (fun _ => rfl)).2.2 { Name := "service_proxy_packets", Labels := [] } |>.2
      (by decide)⟩

/-- Claim C14, counterexample.  The series name made of `a`, a line break and `b` is
published as `a` by the namer of a rule without name rule: `.` does not match a line
break, so the match of `.*` stops before it. -/
theorem MetricNameForSeries_stops_at_line_break :
    exampleRule.Name = { Matches := "", As := "" } ∧
    (NamersFromConfig reEnv { Rules := [exampleRule] } restMapper).map
      (fun namers => namers.map fun n =>
        n.MetricNameForSeries { Name := "a\nb", Labels := [] }) = .ok [.ok "a"] ∧
    exampleNamer.MetricNameForSeries { Name := "a\nb", Labels := [] } = .ok "a" :=
  ⟨rfl, rfl, rfl⟩

theorem rulesLoop_error_of_rule (env : Env) (mapper : RESTMapper) (rules : List DiscoveryRule)
    (rule : DiscoveryRule) (hr : rule ∈ rules)
    (h : ∃ err, namerFromRule env mapper rule = .error err) :
    ∃ err, rulesLoop env mapper rules = .error err := by
  induction rules with
  | nil => cases hr
  | cons r rest ih =>
    unfold rulesLoop
    cases hn : namerFromRule env mapper r with
    | error e => exact ⟨_, rfl⟩
    | ok namer =>
      have hne : rule ≠ r := by
        rintro rfl
        obtain ⟨err, herr⟩ := h
        rw [herr] at hn
        cases hn
      have hmem : rule ∈ rest := by
        rcases List.mem_cons.mp hr with h1 | h1
        · exact absurd h1 hne
        · exact h1
      obtain ⟨err, herr⟩ := ih hmem
      exact ⟨err, by simp [herr]⟩

theorem namerFromRule_error_of_name (env : Env) (mapper : RESTMapper) (rule : DiscoveryRule)
    (h : ∃ err, nameOfRule env rule = .error err) :
    ∃ err, namerFromRule env mapper rule = .error err := by
  obtain ⟨err, herr⟩ := h
  unfold namerFromRule
  cases labelTemplateOfRule env rule with
  | error e => exact ⟨_, rfl⟩
  | ok lt =>
    obtain ⟨labelTemplate, labelResExtractor⟩ := lt
    cases env.ParseQuery rule.MetricsQuery with
    | error e => exact ⟨_, rfl⟩
    | ok q =>
      cases seriesMatchersOfRule env rule with
      | error e => exact ⟨_, rfl⟩
      | ok ms => exact ⟨err, by simp [herr]⟩

theorem nameOfRule_of_compiled (env : Env) (rule : DiscoveryRule) (re : Regexp)
    (hre : (if rule.Name.Matches ≠ "" then env.Compile rule.Name.Matches
      else .ok env.matchAll) = .ok re) :
    nameOfRule env rule =
      if rule.Name.As = "" then
        if re.SubexpNames.length = 1 then .ok (re, "$0")
        else if re.SubexpNames.length = 2 then .ok (re, "$1")
        else .error ("must specify an as value for name matcher " ++ rule.Name.Matches ++
          " associated with series query " ++ rule.SeriesQuery)
      else .ok (re, rule.Name.As) := by
  unfold nameOfRule
  by_cases hm : rule.Name.Matches = ""
  · simp only [hm, ne_eq, not_true_eq_false, if_false, Except.ok.injEq] at hre ⊢
    rw [hre]
  · simp only [hm, ne_eq, not_false_eq_true, if_true] at hre ⊢
    rw [hre]

/-- Claim C12. When a rule has an empty `as`, `NamersFromConfig` derives the substitution
from the compiled name pattern (`.*` when the rule has none): with no capture group (one
sub-expression name, that of the whole match) it is `$0`, which expands to the whole match;
with exactly one capture group it is `$1`, which expands to the text of the first group;
with two or more the rule, and every rule set that holds it, is rejected.  A non-empty `as`
is kept whatever the number of groups.  So the first default rule, whose pattern is
`^container_(.*)_seconds_total$`, publishes `container_cpu_usage_seconds_total` as
`cpu_usage`. -/
theorem default_substitution (env : Env) (mapper : RESTMapper) (rule : DiscoveryRule)
    (re : Regexp)
    (hre : (if rule.Name.Matches ≠ "" then env.Compile rule.Name.Matches
      else .ok env.matchAll) = .ok re) :
    (rule.Name.As = "" →
      (re.SubexpNames.length = 1 → nameOfRule env rule = .ok (re, "$0")) ∧
      (re.SubexpNames.length = 2 → nameOfRule env rule = .ok (re, "$1")) ∧
      (2 < re.SubexpNames.length →
        (∃ err, nameOfRule env rule = .error err) ∧
        ∀ cfg : MetricsDiscoveryConfig, rule ∈ cfg.Rules →
          ∃ err, NamersFromConfig env cfg mapper = .error err)) ∧
    (rule.Name.As ≠ "" → nameOfRule env rule = .ok (re, rule.Name.As)) ∧
    (∀ (whole : String) (groups : List String),
      re.ExpandString "$0" (whole :: groups) = whole) ∧
    (∀ (whole first : String) (groups : List String),
      re.ExpandString "$1" (whole :: first :: groups) = first) ∧
    NamersFromConfig reEnv (DefaultConfig promText "1m" "") restMapper = .ok defaultNamers ∧
    (defaultNamers[0]?.map fun n => n.nameAs) = some "$1" ∧
    (defaultNamers[0]?.map fun n =>
      n.MetricNameForSeries
        { Name := "container_cpu_usage_seconds_total"
          Labels := [("pod_name", "p1"), ("namespace", "ns1"), ("container_name", "c1")] }) =
      some (.ok "cpu_usage") := by
  have hn := nameOfRule_of_compiled env rule re hre
  refine ⟨fun ha => ⟨fun h1 => ?_, fun h2 => ?_, fun h3 => ?_⟩, fun ha => ?_,
    fun whole groups => ExpandString_whole re whole groups,
    fun whole first groups => ExpandString_first re whole first groups, rfl, rfl, rfl⟩
  · rw [hn, if_pos ha, if_pos h1]
  · rw [hn, if_pos ha, if_neg (by omega), if_pos h2]
  · have herr : ∃ err, nameOfRule env rule = .error err := by
      rw [hn, if_pos ha, if_neg (by omega), if_neg (by omega)]
      exact ⟨_, rfl⟩
    refine ⟨herr, fun cfg hmem => ?_⟩
    exact rulesLoop_error_of_rule env mapper cfg.Rules rule hmem
      (namerFromRule_error_of_name env mapper rule herr)
  · rw [hn, if_neg ha]

theorem default_substitution_witness :
    nameOfRule reEnv
      { exampleRule with Name := { Matches := "^container_(.*)_seconds_total$", As := "" } } =
      .ok (regexpOfItems
        ([reItem.bol] ++ "container_".toList.map reItem.lit ++
          [reItem.openGroup 1, reItem.star true, reItem.closeGroup 1] ++
          "_seconds_total".toList.map reItem.lit ++ [reItem.eol]) [""], "$1") ∧
    nameOfRule reEnv { exampleRule with Name := { Matches := ".*_total$", As := "" } } =
      .ok (regexpOfItems ([reItem.star true] ++ "_total".toList.map reItem.lit ++ [reItem.eol])
        [], "$0") ∧
    (∃ err, NamersFromConfig reEnv
      { Rules := [{ exampleRule with Name := { Matches := "^(.*)_(.*)$", As := "" } }] }
      restMapper = .error err) ∧
    nameOfRule reEnv { exampleRule with Name := { Matches := "^(.*)_(.*)$", As := "$2" } } =
      .ok (regexpOfItems
        [reItem.bol, reItem.openGroup 1, reItem.star true, reItem.closeGroup 1, reItem.lit '_',
         reItem.openGroup 2, reItem.star true, reItem.closeGroup 2, reItem.eol] ["", ""],
        "$2") :=
  ⟨((default_substitution reEnv restMapper
      { exampleRule with Name := { Matches := "^container_(.*)_seconds_total$", As := "" } }
      _ rfl).1 rfl).2.1 rfl,
   ((default_substitution reEnv restMapper
      { exampleRule with Name := { Matches := ".*_total$", As := "" } } _ rfl).1 rfl).1 rfl,
   (((default_substitution reEnv restMapper
      { exampleRule with Name := { Matches := "^(.*)_(.*)$", As := "" } } _ rfl).1
      rfl).2.2 (by decide)).2 _ (List.mem_singleton.mpr rfl),
   (default_substitution reEnv restMapper
      { exampleRule with Name := { Matches := "^(.*)_(.*)$", As := "$2" } } _ rfl).2.1
      (by decide)⟩

/-! ## The default rules on names that end in `_total` -/

theorem defaultNamers_built :
    NamersFromConfig reEnv (DefaultConfig promText "1m" "") restMapper = .ok defaultNamers :=
  rfl

/-- Claim C18, the code at failing inputs.  In the namers of the default configuration
(rules 1 to 6 in order): the name `http_seconds_total_requests_total`, which ends in
`_total` and does not begin with `container_`, passes `FilterSeries` of none of the rules
4, 5 and 6, because the filter `.*_seconds_total` of rule 5 is not anchored at the end,
while the name `container_http_seconds_total_requests_total` passes the container rate
rule 2, whose filter is; and the name `container_total` passes the non-cumulative rule 3
and neither rate rule 1 nor 2.  The names of the tests are claimed as the comment of
`DefaultConfig` says. -/
theorem DefaultConfig_total_not_rate :
    NamersFromConfig reEnv (DefaultConfig promText "1m" "") restMapper = .ok defaultNamers ∧
    defaultNamers.length = 6 ∧
    (defaultNamers.map fun n =>
      (n.FilterSeries [{ Name := "http_seconds_total_requests_total", Labels := [] }]).length) =
      [0, 0, 0, 0, 0, 0] ∧
    (defaultNamers.map fun n =>
      (n.FilterSeries
        [{ Name := "container_http_seconds_total_requests_total", Labels := [] }]).length) =
      [0, 1, 0, 0, 0, 0] ∧
    (defaultNamers.map fun n =>
      (n.FilterSeries [{ Name := "container_total", Labels := [] }]).length) =
      [0, 0, 1, 0, 1, 0] ∧
    (defaultNamers.map fun n =>
      (n.FilterSeries [{ Name := "ingress_hits_total", Labels := [] }]).length) =
      [0, 0, 0, 0, 1, 0] ∧
    (defaultNamers.map fun n =>
      (n.FilterSeries [{ Name := "work_queue_wait_seconds_total", Labels := [] }]).length) =
      [0, 0, 0, 0, 0, 1] := by
  refine ⟨rfl, by decide, by decide, by decide, by decide, by decide, by decide⟩

theorem MetricNameForSeries_on_filtered_witness :
    NamersFromConfig reEnv (DefaultConfig promText "1m" "") restMapper = .ok defaultNamers ∧
    ∃ n, defaultNamers[0]? = some n ∧
      (n.seriesMatchers.map fun m => m.positive) = [true] ∧
      (∀ (S : List Series) (series : Series), series ∈ n.FilterSeries S →
        ∃ name, n.MetricNameForSeries series = .ok name) ∧
      n.FilterSeries [{ Name := "container_cpu_usage_seconds_total", Labels := [] },
          { Name := "container_memory_usage_bytes", Labels := [] }] =
        [{ Name := "container_cpu_usage_seconds_total", Labels := [] }] ∧
      n.MetricNameForSeries { Name := "container_cpu_usage_seconds_total", Labels := [] } =
        .ok "cpu_usage" ∧
      (∃ err, n.MetricNameForSeries { Name := "container_memory_usage_bytes", Labels := [] } =
        .error err) := by
  have hlen : defaultNamers.length = 6 := rfl
  have h0 : 0 < defaultNamers.length := by rw [hlen]; decide
  refine ⟨defaultNamers_built, defaultNamers[0], List.getElem?_eq_getElem h0, rfl, ?_, rfl,
    rfl, ⟨_, rfl⟩⟩
  exact (MetricNameForSeries_on_filtered reEnv (DefaultConfig promText "1m" "") restMapper
    defaultNamers defaultNamers[0] defaultNamers_built (List.getElem_mem _)
    matchAll_matches_every_string).1

/-! ## From a rendered label back to the resource -/

theorem groupNamers_built :
    NamersFromConfig reEnv { Rules := [groupRule] } restMapper = .ok groupNamers := rfl

theorem sameRule_run (n : metricNamer) (cs : List Call) : n.sameRule (n.run cs) := by
  induction cs generalizing n with
  | nil => exact sameRule_refl n
  | cons c rest ih => exact sameRule_trans _ _ _ (sameRule_call n c) (ih (n.call c))

theorem labelTemplateOfRule_resourceOnly (rule : DiscoveryRule)
    (hT : rule.Resources.Template = "<<.Resource>>") :
    labelTemplateOfRule reEnv rule =
      .ok (some (Template.mk fun gr => tmplExec (groupResourceField gr)
              [tmplNode.text "", tmplNode.field "Resource", tmplNode.text ""]),
           some (labelGroupResExtractor.mk
              (regexpOfItems [reItem.bol, reItem.openGroup 1, reItem.any,
                reItem.star false, reItem.closeGroup 1, reItem.eol] ["resource"]) 1 none)) := by
  unfold labelTemplateOfRule
  rw [hT]
  rfl

theorem tmplExec_resourceOnly (gr : GroupResource) :
    tmplExec (groupResourceField gr)
      [tmplNode.text "", tmplNode.field "Resource", tmplNode.text ""] = .ok gr.Resource := by
  simp [tmplExec, groupResourceField]

theorem reExampleNamer_built :
    NamersFromConfig reEnv { Rules := [exampleRule] } restMapper = .ok [reExampleNamer] := rfl

/-! ## The compiled patterns of `compilePattern` are those of the engine -/

theorem matchItems_lits (l : List Char) (rest : List reItem) (pos : Nat) (input : List Char)
    (caps : reCaps) :
    matchItems (l.map reItem.lit ++ rest) pos input caps =
      if l.isPrefixOf input then matchItems rest (pos + l.length) (input.drop l.length) caps
      else none := by
  induction l generalizing pos input with
  | nil => simp
  | cons c l ih =>
    cases input with
    | nil =>
      simp only [List.map_cons, List.cons_append, matchItems_lit_nil]
      simp [List.isPrefixOf]
    | cons d ds =>
      simp only [List.map_cons, List.cons_append, matchItems_lit_cons]
      by_cases hcd : c = d
      · subst hcd
        rw [if_pos rfl, ih]
        simp only [List.isPrefixOf, beq_self_eq_true, Bool.true_and, List.length_cons,
          List.drop_succ_cons]
        have : pos + 1 + l.length = pos + (l.length + 1) := by omega
        rw [this]
      · rw [if_neg hcd]
        have : (c == d) = false := by simpa using hcd
        simp [List.isPrefixOf, this]

theorem searchFrom_bol_pos (rest : List reItem) (input : List Char) (pos : Nat)
    (hpos : 0 < pos) : searchFrom (reItem.bol :: rest) pos input = none := by
  induction input generalizing pos with
  | nil =>
    simp only [searchFrom]
    rw [matchItems_bol, if_neg (by omega)]
  | cons c cs ih =>
    simp only [searchFrom]
    rw [matchItems_bol, if_neg (by omega)]
    exact ih (pos + 1) (by omega)

theorem searchFrom_bol (rest : List reItem) (input : List Char) :
    searchFrom (reItem.bol :: rest) 0 input =
      (matchItems rest 0 input { opens := [], closes := [] }).map
        (fun r => (0, r.1, r.2)) := by
  cases input with
  | nil =>
    simp only [searchFrom]
    rw [matchItems_bol, if_pos rfl]
    cases matchItems rest 0 [] { opens := [], closes := [] } <;> rfl
  | cons c cs =>
    simp only [searchFrom]
    rw [matchItems_bol, if_pos rfl]
    cases h : matchItems rest 0 (c :: cs) { opens := [], closes := [] } with
    | none => exact searchFrom_bol_pos rest cs 1 (by omega)
    | some r => rfl

theorem starLoop_lazy_none (i : Nat) (chars : List Char) (pos : Nat) (caps : reCaps)
    (h : ∃ c ∈ chars, c = '\n') :
    starLoop false (matchItems [reItem.closeGroup i, reItem.eol]) pos chars caps = none := by
  induction chars generalizing pos with
  | nil =>
    obtain ⟨c, hc, _⟩ := h
    cases hc
  | cons c cs ih =>
    rw [starLoop_cons, matchItems_closeGroup, matchItems_eol_cons]
    by_cases hc : c = '\n'
    · rw [if_pos hc]
    · rw [if_neg hc]
      simp only [Bool.false_eq_true, if_false]
      apply ih
      obtain ⟨d, hd, hdn⟩ := h
      rcases List.mem_cons.mp hd with h1 | h1
      · exact absurd (h1 ▸ hdn) hc
      · exact ⟨d, h1, hdn⟩

theorem resourceOnly_agrees (s : String) :
    (regexpOfItems [reItem.bol, reItem.openGroup 1, reItem.any, reItem.star false,
      reItem.closeGroup 1, reItem.eol] ["resource"]).FindStringSubmatch s =
      reResourceOnly.FindStringSubmatch s := by
  by_cases hne : s = ""
  · subst hne
    rfl
  · by_cases hnl : ∀ c ∈ s.toList, c ≠ '\n'
    · rw [resourceOnly_FindStringSubmatch s hne hnl]
      have hall : s.toList.all (fun c => decide (c ≠ '\n')) = true := by
        rw [List.all_eq_true]
        intro c hc
        simpa using hnl c hc
      simp only [reResourceOnly, ne_eq, hne, not_false_eq_true, hall, and_self, if_true]
    · have hall : ¬ (s.toList.all (fun c => decide (c ≠ '\n')) = true) := by
        intro hh
        rw [List.all_eq_true] at hh
        exact hnl (fun c hc => by simpa using hh c hc)
      simp only [reResourceOnly, ne_eq, hne, not_false_eq_true, hall, and_false, if_false]
      show findSubmatch _ 1 s.toList = none
      have hex : ∃ c ∈ s.toList, c = '\n' := by
        by_contra hcon
        exact hnl (fun c hc hcn => hcon ⟨c, hc, hcn⟩)
      have hsearch : searchFrom [reItem.bol, reItem.openGroup 1, reItem.any,
          reItem.star false, reItem.closeGroup 1, reItem.eol] 0 s.toList = none := by
        rw [searchFrom_bol, matchItems_openGroup]
        cases hs : s.toList with
        | nil => rfl
        | cons c cs =>
          rw [hs] at hex
          rw [matchItems_any_cons]
          by_cases hc : c = '\n'
          · rw [if_pos hc]
            rfl
          · rw [if_neg hc, matchItems_star, starLoop_lazy_none]
            · rfl
            · obtain ⟨d, hd, hdn⟩ := hex
              rcases List.mem_cons.mp hd with h1 | h1
              · exact absurd (h1 ▸ hdn) hc
              · exact ⟨d, h1, hdn⟩
      simp only [findSubmatch, hsearch]

theorem takeWhile_append_of_all (p : Char → Bool) (l t : List Char)
    (h : ∀ c ∈ l, p c = true) : (l ++ t).takeWhile p = l ++ t.takeWhile p := by
  induction l with
  | nil => rfl
  | cons c l ih =>
    have hc : p c = true := h c (List.mem_cons_self _ _)
    simp only [List.cons_append, List.takeWhile_cons, hc, if_true]
    rw [ih (fun d hd => h d (List.mem_cons_of_mem _ hd))]

theorem container_agrees (s : String) :
    (regexpOfItems ([reItem.bol] ++ "container_".toList.map reItem.lit ++ [reItem.star true])
      []).FindStringSubmatch s = reContainer.FindStringSubmatch s := by
  show findSubmatch _ 0 s.toList = _
  have hsearch : searchFrom
      ([reItem.bol] ++ "container_".toList.map reItem.lit ++ [reItem.star true]) 0 s.toList =
      if "container_".toList.isPrefixOf s.toList then
        some (0, "container_".toList.length +
          ((s.toList.drop "container_".toList.length).takeWhile (fun c => c ≠ '\n')).length,
          { opens := [], closes := [] })
      else none := by
    rw [show [reItem.bol] ++ "container_".toList.map reItem.lit ++ [reItem.star true] =
      reItem.bol :: ("container_".toList.map reItem.lit ++ [reItem.star true]) from rfl,
      searchFrom_bol, matchItems_lits]
    split
    · rw [matchItems_star, starLoop_greedy_end]
      simp
    · rfl
  by_cases hp : "container_".toList.isPrefixOf s.toList = true
  · rw [if_pos hp] at hsearch
    simp only [findSubmatch, hsearch, reContainer, if_pos hp]
    obtain ⟨t, ht⟩ := List.isPrefixOf_iff_prefix.mp hp
    simp only [sliceText, List.drop_zero, Nat.sub_zero, List.range_zero, List.map_nil]
    rw [← ht, List.drop_left, takeWhile_append_of_all _ _ _ (by decide),
      List.take_append]
    rw [take_length_takeWhile]
  · rw [if_neg hp] at hsearch
    simp only [findSubmatch, hsearch, reContainer, if_neg hp]

/-- Every pattern that `compilePattern` knows is compiled by the engine to a pattern with
the same group names and the same matches. -/
theorem compilePattern_agrees (pattern : String) (re : Regexp)
    (h : compilePattern pattern = .ok re) :
    ∃ re2, compileRe pattern = .ok re2 ∧ re2.SubexpNames = re.SubexpNames ∧
      ∀ s, re2.FindStringSubmatch s = re.FindStringSubmatch s := by
  unfold compilePattern at h
  split at h
  · simp only [Except.ok.injEq] at h
    subst h
    exact ⟨reEnv.matchAll, rfl, rfl, fun s => matchAll_FindStringSubmatch s⟩
  · simp only [Except.ok.injEq] at h
    subst h
    exact ⟨_, rfl, rfl, fun s => resourceOnly_agrees s⟩
  · simp only [Except.ok.injEq] at h
    subst h
    exact ⟨_, rfl, rfl, fun s => container_agrees s⟩
  · cases h

/-! ## Frame of `ResourcesForSeries` -/

theorem mapSet_self_mem {β : Type} (m : List (String × β)) (k : String) (v : β) :
    (k, v) ∈ mapSet m k v := by
  induction m with
  | nil => simp [mapSet]
  | cons q rest ih =>
    obtain ⟨k1, v1⟩ := q
    by_cases hk : k1 = k
    · simp [mapSet, hk]
    · simp only [mapSet, hk, if_false]
      exact List.mem_cons_of_mem _ ih

theorem mapSet_keeps_keys {β : Type} (m : List (String × β)) (k : String) (v : β)
    (p : String × β) (h : p ∈ m) : ∃ q ∈ mapSet m k v, q.1 = p.1 := by
  induction m with
  | nil => cases h
  | cons q rest ih =>
    obtain ⟨k1, v1⟩ := q
    by_cases hk : k1 = k
    · simp only [mapSet, hk, if_true]
      rcases List.mem_cons.mp h with h1 | h1
      · exact ⟨(k, v), List.mem_cons_self _ _, by rw [h1, hk]⟩
      · exact ⟨p, List.mem_cons_of_mem _ h1, rfl⟩
    · simp only [mapSet, hk, if_false]
      rcases List.mem_cons.mp h with h1 | h1
      · exact ⟨(k1, v1), List.mem_cons_self _ _, by rw [h1]⟩
      · obtain ⟨q, hq, hq1⟩ := ih h1
        exact ⟨q, List.mem_cons_of_mem _ hq, hq1⟩

/-- The writes of one iteration to `updates`: an entry it holds afterwards was there
before or is for the label of the iteration; the labels it held keep an entry; and a label
without cache entry that resolves has an entry afterwards. -/
theorem scanLabel_updates (n : metricNamer) (st : scanState) (lbl : String) :
    (∀ p ∈ (n.scanLabel st lbl).updates, p ∈ st.updates ∨ p.1 = lbl) ∧
    (∀ p ∈ st.updates, ∃ q ∈ (n.scanLabel st lbl).updates, q.1 = p.1) ∧
    (n.labelToResource lbl = none → ∀ r, n.resolveLabel lbl = some r →
      ∃ q ∈ (n.scanLabel st lbl).updates, q.1 = lbl) := by
  have same : (n.scanLabel st lbl).updates = st.updates →
      ((n.labelToResource lbl = none → ∀ r, n.resolveLabel lbl = some r →
        ∃ q ∈ st.updates, q.1 = lbl)) →
      (∀ p ∈ (n.scanLabel st lbl).updates, p ∈ st.updates ∨ p.1 = lbl) ∧
      (∀ p ∈ st.updates, ∃ q ∈ (n.scanLabel st lbl).updates, q.1 = p.1) ∧
      (n.labelToResource lbl = none → ∀ r, n.resolveLabel lbl = some r →
        ∃ q ∈ (n.scanLabel st lbl).updates, q.1 = lbl) := by
    intro hu hres
    rw [hu]
    exact ⟨fun p hp => Or.inl hp, fun p hp => ⟨p, hp, rfl⟩, hres⟩
  rcases Option.eq_none_or_eq_some (n.labelToResource lbl) with hc | ⟨groupRes, hc⟩
  swap
  · apply same
    · simp [metricNamer.scanLabel, hc, (flag_resources _ _).2.1]
    · intro h
      rw [hc] at h
      cases h
  · cases hu : st.updates.lookup lbl with
    | some groupRes =>
      apply same
      · simp [metricNamer.scanLabel, hc, hu, (flag_resources _ _).2.1]
      · intro _ r _
        exact ⟨(lbl, groupRes), lookup_some_mem _ _ _ hu, rfl⟩
    | none =>
      cases he : n.labelResExtractor with
      | none =>
        apply same
        · simp [metricNamer.scanLabel, hc, hu, he, (flag_resources _ _).2.1]
        · intro _ r hr
          simp [metricNamer.resolveLabel, hc, he] at hr
      | some e =>
        rcases hg : e.GroupResourceForLabel lbl with ⟨g, b⟩
        cases b with
        | false =>
          apply same
          · simp [metricNamer.scanLabel, hc, hu, he, hg, (flag_resources _ _).2.1]
          · intro _ r hr
            simp [metricNamer.resolveLabel, hc, he, hg] at hr
        | true =>
          cases hn : n.mapper.Normalize g with
          | error err =>
            apply same
            · simp [metricNamer.scanLabel, hc, hu, he, hg, hn]
            · intro _ r hr
              simp [metricNamer.resolveLabel, hc, he, hg, hn] at hr
          | ok info =>
            have hs : (n.scanLabel st lbl).updates = mapSet st.updates lbl info := by
              simp [metricNamer.scanLabel, hc, hu, he, hg, hn, (flag_resources _ _).2.1]
            rw [hs]
            refine ⟨?_, ?_, ?_⟩
            · intro p hp
              rcases mem_mapSet _ _ _ _ hp with h1 | h1
              · exact Or.inr (by rw [h1])
              · exact Or.inl h1
            · intro p hp
              exact mapSet_keeps_keys _ _ _ p hp
            · intro _ r _
              exact ⟨(lbl, info), mapSet_self_mem _ _ _, rfl⟩

theorem scanLabels_updates (n : metricNamer) (labels : List (String × String))
    (st : scanState) (hinv : n.scanInv st) :
    (∀ p ∈ (n.scanLabels labels st).updates,
      p ∈ st.updates ∨ p.1 ∈ labels.map Prod.fst) ∧
    (∀ p ∈ st.updates, ∃ q ∈ (n.scanLabels labels st).updates, q.1 = p.1) ∧
    (∀ l ∈ labels.map Prod.fst, n.labelToResource l = none →
      ∀ r, n.resolveLabel l = some r → ∃ q ∈ (n.scanLabels labels st).updates, q.1 = l) := by
  induction labels generalizing st with
  | nil =>
    simp only [metricNamer.scanLabels, List.map_nil, List.not_mem_nil, or_false]
    exact ⟨fun p hp => hp, fun p hp => ⟨p, hp, rfl⟩, fun l hl => hl.elim⟩
  | cons p rest ih =>
    obtain ⟨lbl, v⟩ := p
    obtain ⟨a1, a2, a3⟩ := scanLabel_updates n st lbl
    obtain ⟨b1, b2, b3⟩ := ih (n.scanLabel st lbl) (scanLabel_spec n st lbl hinv).2.2
    simp only [metricNamer.scanLabels, List.map_cons, List.mem_cons]
    refine ⟨?_, ?_, ?_⟩
    · intro q hq
      rcases b1 q hq with h1 | h1
      · rcases a1 q h1 with h2 | h2
        · exact Or.inl h2
        · exact Or.inr (Or.inl h2)
      · exact Or.inr (Or.inr h1)
    · intro q hq
      obtain ⟨q1, hq1, hk1⟩ := a2 q hq
      obtain ⟨q2, hq2, hk2⟩ := b2 q1 hq1
      exact ⟨q2, hq2, by rw [hk2, hk1]⟩
    · intro l hl hc r hr
      rcases hl with h1 | h1
      · subst h1
        obtain ⟨q1, hq1, hk1⟩ := a3 hc r hr
        obtain ⟨q2, hq2, hk2⟩ := b2 q1 hq1
        exact ⟨q2, hq2, by rw [hk2, hk1]⟩
      · exact b3 l h1 hc r hr

theorem mergeUpdates_of_mem (updates : List (String × GroupResource))
    (labelToResource : String → Option GroupResource) (l : String)
    (h : ∃ p ∈ updates, p.1 = l) :
    ∃ p ∈ updates, p.1 = l ∧ mergeUpdates updates labelToResource l = some p.2 := by
  induction updates generalizing labelToResource with
  | nil =>
    obtain ⟨p, hp, _⟩ := h
    cases hp
  | cons q rest ih =>
    obtain ⟨k, g⟩ := q
    simp only [mergeUpdates]
    by_cases hr : ∃ p ∈ rest, p.1 = l
    · obtain ⟨p, hp, hk, hm⟩ := ih (Function.update labelToResource k (some g)) hr
      exact ⟨p, List.mem_cons_of_mem _ hp, hk, hm⟩
    · have hkl : k = l := by
        obtain ⟨p, hp, hpl⟩ := h
        rcases List.mem_cons.mp hp with h1 | h1
        · rw [h1] at hpl
          exact hpl
        · exact absurd ⟨p, h1, hpl⟩ hr
      refine ⟨(k, g), List.mem_cons_self _ _, hkl, ?_⟩
      rw [mergeUpdates_of_not_mem _ _ _ (fun p hp hpl => hr ⟨p, hp, hpl⟩)]
      simp [Function.update, hkl]

/-- The label->resource map after `ResourcesForSeries`: on a label of the series, what the
label resolves to; on every other label, what it was. -/
theorem ResourcesForSeries_labelToResource (n : metricNamer) (series : Series) (l : String) :
    (n.ResourcesForSeries series).2.labelToResource l =
      if l ∈ series.Labels.map Prod.fst then n.resolveLabel l else n.labelToResource l := by
  obtain ⟨_, _, hinv⟩ := scanLabels_spec n series.Labels _ (scanInv_init n)
  obtain ⟨hsub, _, hall⟩ := scanLabels_updates n series.Labels _ (scanInv_init n)
  have hmerge : (n.ResourcesForSeries series).2.labelToResource l =
      mergeUpdates (n.scanLabels series.Labels
        { resources := [], updates := [], namespaced := false }).updates n.labelToResource l := by
    unfold metricNamer.ResourcesForSeries
    simp only
    split
    · rfl
    · next hlen =>
      have hnil : (n.scanLabels series.Labels
          { resources := [], updates := [], namespaced := false }).updates = [] := by
        apply List.eq_nil_of_length_eq_zero
        omega
      rw [hnil]
      rfl
  rw [hmerge]
  by_cases hmem : ∃ p ∈ (n.scanLabels series.Labels
      { resources := [], updates := [], namespaced := false }).updates, p.1 = l
  · obtain ⟨p, hp, hk, hm⟩ := mergeUpdates_of_mem _ n.labelToResource l hmem
    have hin : l ∈ series.Labels.map Prod.fst := by
      rcases hsub p hp with h1 | h1
      · cases h1
      · rw [← hk]
        exact h1
    rw [hm, if_pos hin, ← hk, (hinv p hp).2]
  · have hno : ∀ p ∈ (n.scanLabels series.Labels
        { resources := [], updates := [], namespaced := false }).updates, p.1 ≠ l :=
      fun p hp hpl => hmem ⟨p, hp, hpl⟩
    rw [mergeUpdates_of_not_mem _ _ _ hno]
    by_cases hin : l ∈ series.Labels.map Prod.fst
    · rw [if_pos hin]
      cases hc : n.labelToResource l with
      | some g => simp [metricNamer.resolveLabel, hc]
      | none =>
        cases hr : n.resolveLabel l with
        | none => rfl
        | some r => exact absurd (hall l hin hc r hr) hmem
    · rw [if_neg hin]

theorem resolveLabel_of_uncached (n : metricNamer) (l : String) (r : GroupResource)
    (hc : n.labelToResource l = none) :
    n.resolveLabel l = some r ↔
      ∃ e, n.labelResExtractor = some e ∧ (e.GroupResourceForLabel l).2 = true ∧
        n.mapper.Normalize (e.GroupResourceForLabel l).1 = .ok r := by
  unfold metricNamer.resolveLabel
  rw [hc]
  simp only
  cases he : n.labelResExtractor with
  | none => simp
  | some e =>
    simp only [Option.some.injEq, exists_eq_left']
    by_cases hb : (e.GroupResourceForLabel l).2 = true
    · rw [if_pos hb]
      cases hn : n.mapper.Normalize (e.GroupResourceForLabel l).1 with
      | error err => simp [hb]
      | ok info => simp [hb]
    · rw [if_neg hb]
      simp [hb]

/-- Claim C23.  Frame of `ResourcesForSeries`, for every namer state and every series: the
call leaves the resource->label map (and every field of the rule) as it was; an existing
label->resource entry is still there with the same resource; an entry that is there
afterwards for a label that had none is for a label of that series, which the extractor
matched and whose extracted resource normalized to the resource of the entry, and every
such label of the series gets that entry; a label without entry whose normalization fails
has no entry afterwards. -/
theorem ResourcesForSeries_frame (n : metricNamer) (series : Series) :
    (n.ResourcesForSeries series).2.resourceToLabel = n.resourceToLabel ∧
    n.sameRule (n.ResourcesForSeries series).2 ∧
    (∀ l r, n.labelToResource l = some r →
      (n.ResourcesForSeries series).2.labelToResource l = some r) ∧
    (∀ l r, n.labelToResource l = none →
      ((n.ResourcesForSeries series).2.labelToResource l = some r ↔
        l ∈ series.Labels.map Prod.fst ∧
        ∃ e, n.labelResExtractor = some e ∧ (e.GroupResourceForLabel l).2 = true ∧
          n.mapper.Normalize (e.GroupResourceForLabel l).1 = .ok r)) ∧
    (∀ l e err, n.labelToResource l = none → n.labelResExtractor = some e →
      n.mapper.Normalize (e.GroupResourceForLabel l).1 = .error err →
      (n.ResourcesForSeries series).2.labelToResource l = none) := by
  have hadd : ∀ l r, n.labelToResource l = none →
      ((n.ResourcesForSeries series).2.labelToResource l = some r ↔
        l ∈ series.Labels.map Prod.fst ∧
        ∃ e, n.labelResExtractor = some e ∧ (e.GroupResourceForLabel l).2 = true ∧
          n.mapper.Normalize (e.GroupResourceForLabel l).1 = .ok r) := by
    intro l r hc
    rw [ResourcesForSeries_labelToResource, ← resolveLabel_of_uncached n l r hc]
    by_cases hin : l ∈ series.Labels.map Prod.fst
    · rw [if_pos hin]
      exact ⟨fun h => ⟨hin, h⟩, fun h => h.2⟩
    · rw [if_neg hin, hc]
      exact ⟨fun h => (by cases h), fun h => absurd h.1 hin⟩
  refine ⟨(ResourcesForSeries_state n series).2.1, (ResourcesForSeries_state n series).1,
    (ResourcesForSeries_state n series).2.2, hadd, ?_⟩
  intro l e err hc he hn
  cases hafter : (n.ResourcesForSeries series).2.labelToResource l with
  | none => rfl
  | some r =>
    obtain ⟨_, e2, he2, _, hn2⟩ := (hadd l r hc).mp hafter
    rw [he] at he2
    cases he2
    rw [hn] at hn2
    cases hn2

/-! ## Query templates that render nothing -/

theorem emptyQueryNamer_built :
    NamersFromConfig goEnv { Rules := [emptyQueryRule] } restMapper = .ok [emptyQueryNamer] :=
  rfl

/-- The result of `QueryForSeries` once the labels are found and a name is given: the
execution error of the query template, the error on an empty rendering, or the rendering. -/
theorem QueryForSeries_render (n : metricNamer) (series : String) (resource : GroupResource)
    (namespaceName : String) (names : List String) (n1 n2 : metricNamer)
    (nsClauses : List String) (nsValues : List (String × List String)) (resourceLbl : String)
    (hns : (namespaceName = "" ∧ n1 = n ∧ nsClauses = [] ∧ nsValues = []) ∨
       (namespaceName ≠ "" ∧ ∃ namespaceLbl,
          n.LabelForResource nsGroupResource = (.ok namespaceLbl, n1) ∧
          nsClauses = [prom.LabelEq namespaceLbl namespaceName] ∧
          nsValues = [(namespaceLbl, [namespaceName])]))
    (hl : n1.LabelForResource resource = (.ok resourceLbl, n2)) (hnames : names ≠ []) :
    n.QueryForSeries series resource namespaceName names =
      (match n.metricsQueryTemplate.Execute
          { Series := series
            LabelMatchers :=
              String.intercalate "," (nsClauses ++ [resourceClause resourceLbl names])
            LabelValuesByName := mapSet nsValues resourceLbl names
            GroupBy := resourceLbl
            GroupBySlice := [resourceLbl] } with
        | .error err => QueryResult.err err
        | .ok queryBuff =>
          if queryBuff = "" then QueryResult.err "empty query produced by metrics query template"
          else QueryResult.ok queryBuff, n2) := by
  have hclause : ∀ (name0 : String) (rest : List String),
      (if (name0 :: rest).length > 1 then prom.LabelMatches else prom.LabelEq) resourceLbl
        (if (name0 :: rest).length > 1 then String.intercalate "|" (name0 :: rest) else name0) =
      resourceClause resourceLbl (name0 :: rest) := by
    intro name0 rest
    unfold resourceClause
    split <;> rfl
  cases names with
  | nil => exact absurd rfl hnames
  | cons name0 rest =>
    unfold metricNamer.QueryForSeries
    rcases hns with ⟨h0, h1, h2, h3⟩ | ⟨h0, namespaceLbl, h1, h2, h3⟩
    · subst h1 h2 h3
      have ht2 := LabelForResource_template n1 resource
      rw [hl] at ht2
      simp only at ht2
      simp only [h0, ne_eq, not_true_eq_false, if_false, hl, hclause, ht2, List.nil_append]
      cases n1.metricsQueryTemplate.Execute
        { Series := series
          LabelMatchers := String.intercalate "," [resourceClause resourceLbl (name0 :: rest)]
          LabelValuesByName := mapSet [] resourceLbl (name0 :: rest)
          GroupBy := resourceLbl
          GroupBySlice := [resourceLbl] } with
      | error err => rfl
      | ok queryBuff => by_cases hb : queryBuff = "" <;> simp [hb]
    · subst h2 h3
      have ht1 := LabelForResource_template n nsGroupResource
      rw [h1] at ht1
      simp only at ht1
      have ht2 := LabelForResource_template n1 resource
      rw [hl] at ht2
      simp only at ht2
      simp only [h0, ne_eq, not_false_eq_true, if_true, h1, hl, hclause, ht2, ht1]
      cases n.metricsQueryTemplate.Execute
        { Series := series
          LabelMatchers := String.intercalate ","
            ([prom.LabelEq namespaceLbl namespaceName] ++
              [resourceClause resourceLbl (name0 :: rest)])
          LabelValuesByName :=
            mapSet [(namespaceLbl, [namespaceName])] resourceLbl (name0 :: rest)
          GroupBy := resourceLbl
          GroupBySlice := [resourceLbl] } with
      | error err => rfl
      | ok queryBuff => by_cases hb : queryBuff = "" <;> simp [hb]

/-- Claim C21, as amended.  Of the errors of a query template, `NamersFromConfig` detects
the parse errors: when it returns namers, the query template of every rule parsed.  It does
not render the template, so an empty rendering is detected at query time: on a namer it
returned, in any later state of the cache, `QueryForSeries` never returns the empty query,
and when the labels are found, a name is given and the template renders the empty string,
it returns the error `empty query produced by metrics query template`. -/
theorem empty_query_detected_by_QueryForSeries (env : Env) (cfg : MetricsDiscoveryConfig)
    (mapper : RESTMapper) (namers : List metricNamer)
    (h : NamersFromConfig env cfg mapper = .ok namers) :
    (∀ rule ∈ cfg.Rules, ∃ t, env.ParseQuery rule.MetricsQuery = .ok t) ∧
    (∀ n ∈ namers, ∀ (calls : List Call) (series : String) (resource : GroupResource)
        (namespaceName : String) (names : List String),
      (∀ q, ((n.run calls).QueryForSeries series resource namespaceName names).1 = .ok q →
        q ≠ "") ∧
      (∀ (n1 n2 : metricNamer) (nsClauses : List String)
          (nsValues : List (String × List String)) (resourceLbl : String),
        ((namespaceName = "" ∧ n1 = n.run calls ∧ nsClauses = [] ∧ nsValues = []) ∨
         (namespaceName ≠ "" ∧ ∃ namespaceLbl,
            (n.run calls).LabelForResource nsGroupResource = (.ok namespaceLbl, n1) ∧
            nsClauses = [prom.LabelEq namespaceLbl namespaceName] ∧
            nsValues = [(namespaceLbl, [namespaceName])])) →
        n1.LabelForResource resource = (.ok resourceLbl, n2) →
        names ≠ [] →
        n.metricsQueryTemplate.Execute
          { Series := series
            LabelMatchers :=
              String.intercalate "," (nsClauses ++ [resourceClause resourceLbl names])
            LabelValuesByName := mapSet nsValues resourceLbl names
            GroupBy := resourceLbl
            GroupBySlice := [resourceLbl] } = .ok "" →
        (n.run calls).QueryForSeries series resource namespaceName names =
          (.err "empty query produced by metrics query template", n2))) := by
  refine ⟨?_, ?_⟩
  · intro rule hrule
    obtain ⟨_, hget⟩ := rulesLoop_getElem env mapper cfg.Rules namers h
    obtain ⟨i, hi, hri⟩ := List.getElem_of_mem hrule
    obtain ⟨n, _, hn⟩ := hget i rule (by rw [List.getElem?_eq_getElem hi, hri])
    exact ⟨n.metricsQueryTemplate, (namerFromRule_sameRule env mapper rule n hn).2.2.2.2.2⟩
  · intro n _ calls series resource namespaceName names
    have hsame : (n.run calls).metricsQueryTemplate = n.metricsQueryTemplate :=
      (sameRule_run n calls).2.2.2.1
    refine ⟨?_, ?_⟩
    · intro q hq
      rcases hr : (n.run calls).QueryForSeries series resource namespaceName names with
        ⟨res, n2⟩
      rw [hr] at hq
      simp only at hq
      subst hq
      obtain ⟨_, _, _, _, _, _, _, _, hne⟩ :=
        QueryForSeries_ok (n.run calls) series resource namespaceName names q n2 hr
      exact hne
    · intro n1 n2 nsClauses nsValues resourceLbl hns hl hnames hexec
      rw [QueryForSeries_render (n.run calls) series resource namespaceName names n1 n2
        nsClauses nsValues resourceLbl hns hl hnames, hsame, hexec]
      rfl

theorem empty_query_detected_by_QueryForSeries_witness :
    NamersFromConfig goEnv { Rules := [emptyQueryRule] } restMapper = .ok [emptyQueryNamer] ∧
    (emptyQueryNamer.run []).QueryForSeries "my_series" { Group := "", Resource := "pods" }
        "" ["pod1"] =
      (.err "empty query produced by metrics query template",
       (emptyQueryNamer.LabelForResource { Group := "", Resource := "pods" }).2) :=
  ⟨rfl,
   ((empty_query_detected_by_QueryForSeries goEnv { Rules := [emptyQueryRule] } restMapper
      [emptyQueryNamer] rfl).2 emptyQueryNamer (List.mem_singleton.mpr rfl) []
      "my_series" { Group := "", Resource := "pods" } "" ["pod1"]).2
     emptyQueryNamer (emptyQueryNamer.LabelForResource { Group := "", Resource := "pods" }).2
     [] [] "pod" (Or.inl ⟨rfl, rfl, rfl, rfl⟩) rfl (by simp) rfl⟩

/-- Claim C21, as stated, is false.  The rule `emptyQueryRule` has the empty query
template; `NamersFromConfig` accepts it and returns its namer, and on that namer
`QueryForSeries` fails because the rendered query is empty, with and without namespace. -/
theorem empty_query_template_accepted :
    emptyQueryRule.MetricsQuery = "" ∧
    NamersFromConfig goEnv { Rules := [emptyQueryRule] } restMapper = .ok [emptyQueryNamer] ∧
    (emptyQueryNamer.QueryForSeries "my_series" { Group := "", Resource := "pods" }
        "ns1" ["pod1"]).1 = .err "empty query produced by metrics query template" ∧
    (emptyQueryNamer.QueryForSeries "my_series" { Group := "", Resource := "pods" }
        "" ["pod1", "pod2"]).1 = .err "empty query produced by metrics query template" :=
  ⟨rfl, rfl, by decide, by decide⟩

/-! ## Which strings the engine matches against patterns with one repetition -/

/-- The repetition `.*` followed by `k` matches exactly when the input splits into a part
without line break and a part that `k` matches. -/
theorem starLoop_isSome (greedy : Bool) (k : Nat → List Char → reCaps → Option (Nat × reCaps))
    (pos : Nat) (input : List Char) (caps : reCaps) :
    (starLoop greedy k pos input caps).isSome = true ↔
      ∃ a b, input = a ++ b ∧ (∀ c ∈ a, c ≠ '\n') ∧
        (k (pos + a.length) b caps).isSome = true := by
  induction input generalizing pos with
  | nil =>
    rw [starLoop_nil]
    constructor
    · intro h
      exact ⟨[], [], rfl, fun c hc => absurd hc (List.not_mem_nil c), by simpa using h⟩
    · rintro ⟨a, b, hab, _, hk⟩
      obtain ⟨ha, hb⟩ := List.append_eq_nil.mp hab.symm
      subst ha hb
      simpa using hk
  | cons c cs ih =>
    rw [starLoop_cons]
    by_cases hc : c = '\n'
    · rw [if_pos hc]
      constructor
      · intro h
        exact ⟨[], c :: cs, rfl, fun d hd => absurd hd (List.not_mem_nil d), by simpa using h⟩
      · rintro ⟨a, b, hab, hnl, hk⟩
        cases a with
        | nil =>
          simp only [List.nil_append] at hab
          subst hab
          simpa using hk
        | cons d a2 =>
          simp only [List.cons_append, List.cons.injEq] at hab
          exact absurd (hab.1 ▸ hc) (hnl d (List.mem_cons_self _ _))
    · rw [if_neg hc]
      have step : (∃ a b, c :: cs = a ++ b ∧ (∀ d ∈ a, d ≠ '\n') ∧
            (k (pos + a.length) b caps).isSome = true) ↔
          ((k pos (c :: cs) caps).isSome = true ∨
            (starLoop greedy k (pos + 1) cs caps).isSome = true) := by
        rw [ih (pos + 1)]
        constructor
        · rintro ⟨a, b, hab, hnl, hk⟩
          cases a with
          | nil =>
            simp only [List.nil_append] at hab
            subst hab
            exact Or.inl (by simpa using hk)
          | cons d a2 =>
            simp only [List.cons_append, List.cons.injEq] at hab
            refine Or.inr ⟨a2, b, hab.2, fun e he => hnl e (List.mem_cons_of_mem _ he), ?_⟩
            have hlen : pos + 1 + a2.length = pos + (d :: a2).length := by
              simp only [List.length_cons]
              omega
            rw [hlen]
            exact hk
        · rintro (h | ⟨a2, b, hab, hnl, hk⟩)
          · exact ⟨[], c :: cs, rfl, fun d hd => absurd hd (List.not_mem_nil d), by simpa using h⟩
          · refine ⟨c :: a2, b, by rw [hab]; rfl, ?_, ?_⟩
            · intro e he
              rcases List.mem_cons.mp he with h1 | h1
              · rw [h1]
                exact hc
              · exact hnl e h1
            · have hlen : pos + (c :: a2).length = pos + 1 + a2.length := by
                simp only [List.length_cons]
                omega
              rw [hlen]
              exact hk
      rw [step]
      cases greedy with
      | false =>
        simp only [Bool.false_eq_true, if_false]
        cases k pos (c :: cs) caps <;> simp
      | true =>
        simp only [if_true]
        cases starLoop true k (pos + 1) cs caps <;> simp

theorem matchItems_lits_eol (S : List Char) (pos : Nat) (input : List Char) (caps : reCaps) :
    (matchItems (S.map reItem.lit ++ [reItem.eol]) pos input caps).isSome = true ↔
      input = S := by
  rw [matchItems_lits]
  by_cases hp : S.isPrefixOf input = true
  · rw [if_pos hp]
    obtain ⟨t, ht⟩ := List.isPrefixOf_iff_prefix.mp hp
    subst ht
    rw [List.drop_left]
    cases t with
    | nil => simp [matchItems_eol_nil, matchItems_nil]
    | cons d ds => simp [matchItems_eol_cons]
  · rw [if_neg hp]
    constructor
    · intro h
      cases h
    · intro h
      subst h
      exact absurd (List.isPrefixOf_iff_prefix.mpr (List.prefix_refl _)) hp

theorem matchItems_lits_isSome (S : List Char) (pos : Nat) (input : List Char)
    (caps : reCaps) :
    (matchItems (S.map reItem.lit) pos input caps).isSome = true ↔ ∃ t, input = S ++ t := by
  have h := matchItems_lits S [] pos input caps
  rw [List.append_nil] at h
  rw [h]
  by_cases hp : S.isPrefixOf input = true
  · rw [if_pos hp, matchItems_nil]
    obtain ⟨t, ht⟩ := List.isPrefixOf_iff_prefix.mp hp
    simp only [Option.isSome_some, true_iff]
    exact ⟨t, ht.symm⟩
  · rw [if_neg hp]
    constructor
    · intro h2
      cases h2
    · rintro ⟨t, ht⟩
      exact absurd (List.isPrefixOf_iff_prefix.mpr ⟨t, ht.symm⟩) hp

theorem MatchString_regexpOfItems (items : List reItem) (names : List String) (s : String) :
    (regexpOfItems items names).MatchString s = (searchFrom items 0 s.toList).isSome := by
  show (findSubmatch items names.length s.toList).isSome = _
  unfold findSubmatch
  cases searchFrom items 0 s.toList with
  | none => rfl
  | some r => rfl

theorem searchFrom_isSome_of_match (items : List reItem) (pos : Nat) (input : List Char)
    (h : (matchItems items pos input { opens := [], closes := [] }).isSome = true) :
    (searchFrom items pos input).isSome = true := by
  cases input with
  | nil =>
    simp only [searchFrom]
    cases hm : matchItems items pos [] { opens := [], closes := [] } with
    | none => rw [hm] at h; cases h
    | some r => rfl
  | cons c cs =>
    simp only [searchFrom]
    cases hm : matchItems items pos (c :: cs) { opens := [], closes := [] } with
    | none => rw [hm] at h; cases h
    | some r => rfl

theorem searchFrom_bol_isSome (rest : List reItem) (input : List Char) :
    (searchFrom (reItem.bol :: rest) 0 input).isSome =
      (matchItems rest 0 input { opens := [], closes := [] }).isSome := by
  rw [searchFrom_bol]
  cases matchItems rest 0 input { opens := [], closes := [] } <;> rfl

/-- What the pattern `^P(.*)S$` matches begins with `P` and ends with `S`, with no line
break in between. -/
theorem anchored_group_match (P S : List Char) (names : List String) (s : String)
    (h : (regexpOfItems (reItem.bol :: (P.map reItem.lit ++ reItem.openGroup 1 ::
      reItem.star true :: reItem.closeGroup 1 :: (S.map reItem.lit ++ [reItem.eol])))
      names).MatchString s = true) :
    ∃ m, s.toList = P ++ (m ++ S) ∧ ∀ c ∈ m, c ≠ '\n' := by
  rw [MatchString_regexpOfItems, searchFrom_bol_isSome, matchItems_lits] at h
  by_cases hp : P.isPrefixOf s.toList = true
  · rw [if_pos hp, matchItems_openGroup, matchItems_star, starLoop_isSome] at h
    obtain ⟨a, b, hab, hnl, hk⟩ := h
    rw [matchItems_closeGroup, matchItems_lits_eol] at hk
    obtain ⟨t, ht⟩ := List.isPrefixOf_iff_prefix.mp hp
    rw [← ht, List.drop_left] at hab
    exact ⟨a, by rw [← ht, hab, hk], hnl⟩
  · rw [if_neg hp] at h
    cases h

/-- The pattern `^P.*S$` matches what begins with `P` and ends with `S`, with no line
break in between. -/
theorem anchored_plain_match (P S m : List Char) (names : List String) (s : String)
    (hs : s.toList = P ++ (m ++ S)) (hnl : ∀ c ∈ m, c ≠ '\n') :
    (regexpOfItems (reItem.bol :: (P.map reItem.lit ++ reItem.star true ::
      (S.map reItem.lit ++ [reItem.eol]))) names).MatchString s = true := by
  have hp : P.isPrefixOf (P ++ (m ++ S)) = true :=
    List.isPrefixOf_iff_prefix.mpr ⟨_, rfl⟩
  rw [MatchString_regexpOfItems, searchFrom_bol_isSome, matchItems_lits, hs, if_pos hp,
    List.drop_left, matchItems_star, starLoop_isSome]
  exact ⟨m, S, rfl, hnl, (matchItems_lits_eol S _ S _).mpr rfl⟩

/-- The pattern `.*S$` matches what ends with `S` after a part without line break. -/
theorem suffix_plain_match (S m : List Char) (names : List String) (s : String)
    (hs : s.toList = m ++ S) (hnl : ∀ c ∈ m, c ≠ '\n') :
    (regexpOfItems (reItem.star true :: (S.map reItem.lit ++ [reItem.eol]))
      names).MatchString s = true := by
  rw [MatchString_regexpOfItems]
  apply searchFrom_isSome_of_match
  rw [matchItems_star, starLoop_isSome, hs]
  exact ⟨m, S, rfl, hnl, (matchItems_lits_eol S _ S _).mpr rfl⟩

/-- The pattern `.*S`, which has no `$`, matches what has `S` after a part without line
break, whatever follows. -/
theorem open_end_plain_match (S m t : List Char) (names : List String) (s : String)
    (hs : s.toList = m ++ (S ++ t)) (hnl : ∀ c ∈ m, c ≠ '\n') :
    (regexpOfItems (reItem.star true :: S.map reItem.lit) names).MatchString s = true := by
  rw [MatchString_regexpOfItems]
  apply searchFrom_isSome_of_match
  rw [matchItems_star, starLoop_isSome, hs]
  exact ⟨m, S ++ t, rfl, hnl, (matchItems_lits_isSome S _ _ _).mpr ⟨t, rfl⟩⟩

/-- A match of `^P(.*)S1S2$` is a match of `^P.*S2$`. -/
theorem anchored_group_to_plain (P S1 S2 : List Char) (names names2 : List String)
    (s : String) (hS1 : ∀ c ∈ S1, c ≠ '\n')
    (h : (regexpOfItems (reItem.bol :: (P.map reItem.lit ++ reItem.openGroup 1 ::
      reItem.star true :: reItem.closeGroup 1 :: ((S1 ++ S2).map reItem.lit ++ [reItem.eol])))
      names).MatchString s = true) :
    (regexpOfItems (reItem.bol :: (P.map reItem.lit ++ reItem.star true ::
      (S2.map reItem.lit ++ [reItem.eol]))) names2).MatchString s = true := by
  obtain ⟨m, hs, hnl⟩ := anchored_group_match P (S1 ++ S2) names s h
  apply anchored_plain_match P S2 (m ++ S1) names2 s
  · rw [hs]
    simp only [List.append_assoc]
  · intro c hc
    rcases List.mem_append.mp hc with h1 | h1
    · exact hnl c h1
    · exact hS1 c h1

/-- A match of `^(.*)S1S2$` is a match of `.*S2$`. -/
theorem group_to_suffix (S1 S2 : List Char) (names names2 : List String)
    (s : String) (hS1 : ∀ c ∈ S1, c ≠ '\n')
    (h : (regexpOfItems (reItem.bol :: reItem.openGroup 1 ::
      reItem.star true :: reItem.closeGroup 1 :: ((S1 ++ S2).map reItem.lit ++ [reItem.eol]))
      names).MatchString s = true) :
    (regexpOfItems (reItem.star true :: (S2.map reItem.lit ++ [reItem.eol]))
      names2).MatchString s = true := by
  obtain ⟨m, hs, hnl⟩ := anchored_group_match [] (S1 ++ S2) names s h
  apply suffix_plain_match S2 (m ++ S1) names2 s
  · rw [hs]
    simp only [List.nil_append, List.append_assoc]
  · intro c hc
    rcases List.mem_append.mp hc with h1 | h1
    · exact hnl c h1
    · exact hS1 c h1

/-- A match of `^(.*)S$` is a match of `.*S`. -/
theorem group_to_open_end (S : List Char) (names names2 : List String) (s : String)
    (h : (regexpOfItems (reItem.bol :: reItem.openGroup 1 ::
      reItem.star true :: reItem.closeGroup 1 :: (S.map reItem.lit ++ [reItem.eol]))
      names).MatchString s = true) :
    (regexpOfItems (reItem.star true :: S.map reItem.lit) names2).MatchString s = true := by
  obtain ⟨m, hs, hnl⟩ := anchored_group_match [] S names s h
  apply open_end_plain_match S m [] names2 s
  · rw [hs]
    simp only [List.nil_append, List.append_nil]
  · exact hnl

/-! ## The default rules that share a selector claim different names -/

/-- The series matchers of the six default rules, for every selector helper, rate interval
and label prefix: the compiled filters of the rule, then its compiled name pattern. -/
theorem defaultRules_matchers (client : promHelpers) (rateInterval labelPrefix : String) :
    (DefaultConfig client rateInterval labelPrefix).Rules.map (seriesMatchersOfRule reEnv) =
      [.ok [reMatcher.mk (regexpOfItems (reItem.bol :: ("container_".toList.map reItem.lit ++
              reItem.openGroup 1 :: reItem.star true :: reItem.closeGroup 1 ::
              ("_seconds_total".toList.map reItem.lit ++ [reItem.eol]))) [""]) true],
       .ok [reMatcher.mk (regexpOfItems (reItem.bol :: ("container_".toList.map reItem.lit ++
              reItem.star true ::
              ("_seconds_total".toList.map reItem.lit ++ [reItem.eol]))) []) false,
            reMatcher.mk (regexpOfItems (reItem.bol :: ("container_".toList.map reItem.lit ++
              reItem.openGroup 1 :: reItem.star true :: reItem.closeGroup 1 ::
              ("_total".toList.map reItem.lit ++ [reItem.eol]))) [""]) true],
       .ok [reMatcher.mk (regexpOfItems (reItem.bol :: ("container_".toList.map reItem.lit ++
              reItem.star true ::
              ("_total".toList.map reItem.lit ++ [reItem.eol]))) []) false,
            reMatcher.mk (regexpOfItems (reItem.bol :: ("container_".toList.map reItem.lit ++
              [reItem.openGroup 1, reItem.star true, reItem.closeGroup 1, reItem.eol]))
              [""]) true],
       .ok [reMatcher.mk (regexpOfItems (reItem.star true ::
              ("_total".toList.map reItem.lit ++ [reItem.eol])) []) false],
       .ok [reMatcher.mk (regexpOfItems (reItem.star true ::
              "_seconds_total".toList.map reItem.lit) []) false,
            reMatcher.mk (regexpOfItems (reItem.bol ::
              reItem.openGroup 1 :: reItem.star true :: reItem.closeGroup 1 ::
              ("_total".toList.map reItem.lit ++ [reItem.eol])) [""]) true],
       .ok [reMatcher.mk (regexpOfItems (reItem.bol ::
              reItem.openGroup 1 :: reItem.star true :: reItem.closeGroup 1 ::
              ("_seconds_total".toList.map reItem.lit ++ [reItem.eol])) [""]) true]] :=
  rfl

/-- The name pattern and substitution of the last default rule, the seconds rate rule. -/
theorem defaultRules_seconds_name (client : promHelpers) (rateInterval labelPrefix : String) :
    ((DefaultConfig client rateInterval labelPrefix).Rules.map (nameOfRule reEnv))[5]? =
      some (.ok (regexpOfItems (reItem.bol ::
              reItem.openGroup 1 :: reItem.star true :: reItem.closeGroup 1 ::
              ("_seconds_total".toList.map reItem.lit ++ [reItem.eol])) [""], "$1")) :=
  rfl

/-- The namer at place `i` of a successful build holds the matchers and the name rule
that the rule at place `i` gives. -/
theorem rulesLoop_parts (env : Env) (mapper : RESTMapper) (rules : List DiscoveryRule)
    (namers : List metricNamer) (h : rulesLoop env mapper rules = .ok namers)
    (i : Nat) (n : metricNamer) (hn : namers[i]? = some n) :
    (rules.map (seriesMatchersOfRule env))[i]? = some (.ok n.seriesMatchers) ∧
    (rules.map (nameOfRule env))[i]? = some (.ok (n.nameMatches, n.nameAs)) := by
  obtain ⟨hlen, hget⟩ := rulesLoop_getElem env mapper rules namers h
  have hi : i < namers.length := by
    by_contra hcon
    rw [List.getElem?_eq_none (by omega)] at hn
    cases hn
  have hi2 : i < rules.length := by omega
  obtain ⟨n2, h1, h2⟩ := hget i rules[i] (List.getElem?_eq_getElem hi2)
  rw [hn, Option.some.injEq] at h1
  subst h1
  obtain ⟨_, _, hsm, hname, _, _⟩ := namerFromRule_sameRule env mapper _ n h2
  simp only [List.getElem?_map, List.getElem?_eq_getElem hi2, Option.map_some', hsm, hname,
    and_self]

/-- Two default rules with the same selector, the one at place `i` before the one at place
`j`, never both have all their matchers accept a name. -/
theorem defaultRules_disjoint (client : promHelpers) (rateInterval labelPrefix : String)
    (mapper : RESTMapper) (namers : List metricNamer)
    (h : NamersFromConfig reEnv (DefaultConfig client rateInterval labelPrefix) mapper =
      .ok namers)
    (i j : Nat) (ni nj : metricNamer) (hij : i < j) (hi : namers[i]? = some ni)
    (hj : namers[j]? = some nj) (hgrp : i < 3 ↔ j < 3) (name : String)
    (hpi : ni.seriesMatchers.all (fun m => m.Matches name) = true)
    (hpj : nj.seriesMatchers.all (fun m => m.Matches name) = true) : False := by
  have hlen : namers.length = 6 := (rulesLoop_getElem reEnv mapper _ namers h).1
  have hj6 : j < 6 := by
    by_contra hcon
    rw [List.getElem?_eq_none (by omega)] at hj
    cases hj
  have hmi := (rulesLoop_parts reEnv mapper _ namers h i ni hi).1
  have hmj := (rulesLoop_parts reEnv mapper _ namers h j nj hj).1
  rw [defaultRules_matchers] at hmi hmj
  have hcases : (i = 0 ∧ j = 1) ∨ (i = 0 ∧ j = 2) ∨ (i = 1 ∧ j = 2) ∨
      (i = 3 ∧ j = 4) ∨ (i = 3 ∧ j = 5) ∨ (i = 4 ∧ j = 5) := by omega
  rcases hcases with ⟨h1, h2⟩ | ⟨h1, h2⟩ | ⟨h1, h2⟩ | ⟨h1, h2⟩ | ⟨h1, h2⟩ | ⟨h1, h2⟩ <;>
    subst h1 h2 <;>
    simp only [List.getElem?_cons_zero, List.getElem?_cons_succ, Option.some.injEq,
      Except.ok.injEq] at hmi hmj <;>
    rw [← hmi] at hpi <;> rw [← hmj] at hpj <;>
    simp only [List.all_cons, List.all_nil, Bool.and_true, Bool.and_eq_true,
      reMatcher.Matches, beq_iff_eq] at hpi hpj
  · exact Bool.false_ne_true (hpj.1.symm.trans
      (anchored_group_to_plain "container_".toList [] "_seconds_total".toList [""] [] name
        (fun c hc => absurd hc (List.not_mem_nil c)) hpi))
  · exact Bool.false_ne_true (hpj.1.symm.trans
      (anchored_group_to_plain "container_".toList "_seconds".toList "_total".toList [""] []
        name (by decide) hpi))
  · exact Bool.false_ne_true (hpj.1.symm.trans
      (anchored_group_to_plain "container_".toList [] "_total".toList [""] [] name
        (fun c hc => absurd hc (List.not_mem_nil c)) hpi.2))
  · exact Bool.false_ne_true (hpi.symm.trans
      (group_to_suffix [] "_total".toList [""] [] name
        (fun c hc => absurd hc (List.not_mem_nil c)) hpj.2))
  · exact Bool.false_ne_true (hpi.symm.trans
      (group_to_suffix "_seconds".toList "_total".toList [""] [] name (by decide) hpj))
  · exact Bool.false_ne_true (hpi.1.symm.trans
      (group_to_open_end "_seconds_total".toList [""] [] name hpj))

/-- Claim C24.  In the namers that `NamersFromConfig` builds from `DefaultConfig`, for
every rate interval and label prefix: there are six, and two of them that share a
selector (both among the three container rules, places 0 to 2, or both among the three
normal rules, places 3 to 5) never both keep a series of the same name in
`FilterSeries`; the name `work_queue_wait_seconds_total` is kept by the seconds rate rule
only, which names it `work_queue_wait`. -/
theorem default_rules_exclusive (client : promHelpers) (rateInterval labelPrefix : String)
    (mapper : RESTMapper) (namers : List metricNamer)
    (h : NamersFromConfig reEnv (DefaultConfig client rateInterval labelPrefix) mapper =
      .ok namers) :
    namers.length = 6 ∧
    (∀ (i j : Nat) (ni nj : metricNamer), namers[i]? = some ni → namers[j]? = some nj →
      i ≠ j → (i < 3 ↔ j < 3) →
      ∀ (l1 l2 : List Series) (s1 s2 : Series),
        s1 ∈ ni.FilterSeries l1 → s2 ∈ nj.FilterSeries l2 → s1.Name ≠ s2.Name) ∧
    (∀ n, namers[5]? = some n →
      n.FilterSeries [{ Name := "work_queue_wait_seconds_total", Labels := [] }] =
        [{ Name := "work_queue_wait_seconds_total", Labels := [] }] ∧
      n.MetricNameForSeries { Name := "work_queue_wait_seconds_total", Labels := [] } =
        .ok "work_queue_wait") ∧
    (∀ n, namers[3]? = some n ∨ namers[4]? = some n →
      n.FilterSeries [{ Name := "work_queue_wait_seconds_total", Labels := [] }] = []) := by
  have pass : ∀ (n : metricNamer) (l : List Series) (s : Series), s ∈ n.FilterSeries l →
      n.seriesMatchers.all (fun m => m.Matches s.Name) = true := by
    intro n l s hs
    rw [FilterSeries_filter_all] at hs
    exact (List.mem_filter.mp hs).2
  refine ⟨(rulesLoop_getElem reEnv mapper _ namers h).1, ?_, ?_, ?_⟩
  · intro i j ni nj hi hj hij hgrp l1 l2 s1 s2 hs1 hs2 hname
    have hp1 := pass ni l1 s1 hs1
    have hp2 := pass nj l2 s2 hs2
    rw [← hname] at hp2
    rcases Nat.lt_or_gt_of_ne hij with hlt | hgt
    · exact defaultRules_disjoint client rateInterval labelPrefix mapper namers h i j ni nj
        hlt hi hj hgrp s1.Name hp1 hp2
    · exact defaultRules_disjoint client rateInterval labelPrefix mapper namers h j i nj ni
        hgt hj hi hgrp.symm s1.Name hp2 hp1
  · intro n hn
    obtain ⟨hm, hname⟩ := rulesLoop_parts reEnv mapper _ namers h 5 n hn
    rw [defaultRules_matchers] at hm
    rw [defaultRules_seconds_name] at hname
    simp only [List.getElem?_cons_zero, List.getElem?_cons_succ, Option.some.injEq,
      Except.ok.injEq, Prod.mk.injEq] at hm hname
    refine ⟨?_, ?_⟩
    · rw [FilterSeries_filter_all, ← hm]
      rfl
    · unfold metricNamer.MetricNameForSeries
      rw [← hname.1, ← hname.2]
      rfl
  · intro n hn
    rcases hn with hn | hn
    · have hm := (rulesLoop_parts reEnv mapper _ namers h 3 n hn).1
      rw [defaultRules_matchers] at hm
      simp only [List.getElem?_cons_zero, List.getElem?_cons_succ, Option.some.injEq,
        Except.ok.injEq] at hm
      rw [FilterSeries_filter_all, ← hm]
      rfl
    · have hm := (rulesLoop_parts reEnv mapper _ namers h 4 n hn).1
      rw [defaultRules_matchers] at hm
      simp only [List.getElem?_cons_zero, List.getElem?_cons_succ, Option.some.injEq,
        Except.ok.injEq] at hm
      rw [FilterSeries_filter_all, ← hm]
      rfl

theorem default_rules_exclusive_witness :
    NamersFromConfig reEnv (DefaultConfig promText "1m" "") restMapper = .ok defaultNamers ∧
    defaultNamers.length = 6 ∧
    (∀ n, defaultNamers[5]? = some n →
      n.FilterSeries [{ Name := "work_queue_wait_seconds_total", Labels := [] }] =
        [{ Name := "work_queue_wait_seconds_total", Labels := [] }] ∧
      n.MetricNameForSeries { Name := "work_queue_wait_seconds_total", Labels := [] } =
        .ok "work_queue_wait") :=
  ⟨defaultNamers_built,
   (default_rules_exclusive promText "1m" "" restMapper defaultNamers defaultNamers_built).1,
   (default_rules_exclusive promText "1m" "" restMapper defaultNamers
      defaultNamers_built).2.2.1⟩

/-! ## Calls that overlap in time -/

theorem deploymentNamer_built :
    NamersFromConfig reEnv { Rules := [exampleRule] } deploymentMapper =
      .ok [deploymentNamer] := rfl

/-- The two regions of `ResourcesForSeries`, run one after the other, are the method. -/
theorem region_resourcesForSeries (n : metricNamer) (series : Series) :
    ((n.region (.resourcesForSeries series)).1.region
        (n.region (.resourcesForSeries series)).2).1 = (n.ResourcesForSeries series).2 ∧
    ((n.region (.resourcesForSeries series)).1.region
        (n.region (.resourcesForSeries series)).2).2 = .returned := by
  have h1 : n.region (.resourcesForSeries series) =
      if (n.scanLabels series.Labels
          { resources := [], updates := [], namespaced := false }).updates.length > 0 then
        (n, .mergeUpdates (n.scanLabels series.Labels
          { resources := [], updates := [], namespaced := false }).updates)
      else (n, .returned) := rfl
  rw [h1]
  unfold metricNamer.ResourcesForSeries
  by_cases hlen : (n.scanLabels series.Labels
      { resources := [], updates := [], namespaced := false }).updates.length > 0
  · simp only [hlen, if_true]
    exact ⟨rfl, rfl⟩
  · simp only [hlen, if_false]
    exact ⟨rfl, rfl⟩

/-- The two regions of `LabelForResource`, run one after the other, are the method. -/
theorem region_labelForResource (n : metricNamer) (resource : GroupResource) :
    ((n.region (.labelForResource resource)).1.region
        (n.region (.labelForResource resource)).2).1 = (n.LabelForResource resource).2 ∧
    ((n.region (.labelForResource resource)).1.region
        (n.region (.labelForResource resource)).2).2 = .returned := by
  have h1 : n.region (.labelForResource resource) =
      match n.resourceToLabel resource with
      | some _ => (n, .returned)
      | none => (n, .makeLabelForResource resource) := rfl
  rw [h1]
  unfold metricNamer.LabelForResource
  cases hc : n.resourceToLabel resource with
  | some lbl => exact ⟨rfl, rfl⟩
  | none =>
    refine ⟨?_, rfl⟩
    show (n.makeLabelForResource resource).2 = _
    rcases hm : n.makeLabelForResource resource with ⟨res, n1⟩
    cases res <;> rfl

/-- Claim C22, the code at a failing input.  The namer is built from `exampleRule` (label
template `<<.Resource>>`) with a mapper that has deployments in `extensions` and in
`apps`.  One goroutine calls `ResourcesForSeries` on a series with the label `deployment`,
another calls `LabelForResource` on deployments.apps.  When the lookup and the store of
`LabelForResource` run between the scan and the merge of `ResourcesForSeries`, both calls
return and the cache maps the label `deployment` to deployments.extensions, while it maps
deployments.apps to that label; after the two calls in either serial order the label maps
to deployments.apps.  So the final cache is that of no serial order. -/
theorem interleaved_calls_not_serial :
    NamersFromConfig reEnv { Rules := [exampleRule] } deploymentMapper =
      .ok [deploymentNamer] ∧
    (deploymentNamer.interleave [0, 1, 1, 0]
      [.resourcesForSeries { Name := "replicas", Labels := [("deployment", "web")] },
       .labelForResource { Group := "apps", Resource := "deployments" }]).2 =
      [.returned, .returned] ∧
    (deploymentNamer.interleave [0, 1, 1, 0]
      [.resourcesForSeries { Name := "replicas", Labels := [("deployment", "web")] },
       .labelForResource { Group := "apps", Resource := "deployments" }]).1.labelToResource
      "deployment" = some { Group := "extensions", Resource := "deployments" } ∧
    (deploymentNamer.interleave [0, 1, 1, 0]
      [.resourcesForSeries { Name := "replicas", Labels := [("deployment", "web")] },
       .labelForResource { Group := "apps", Resource := "deployments" }]).1.resourceToLabel
      { Group := "apps", Resource := "deployments" } = some "deployment" ∧
    (deploymentNamer.run
      [.resourcesForSeries { Name := "replicas", Labels := [("deployment", "web")] },
       .labelForResource { Group := "apps", Resource := "deployments" }]).labelToResource
      "deployment" = some { Group := "apps", Resource := "deployments" } ∧
    (deploymentNamer.run
      [.labelForResource { Group := "apps", Resource := "deployments" },
       .resourcesForSeries { Name := "replicas", Labels := [("deployment", "web")] }]
      ).labelToResource "deployment" = some { Group := "apps", Resource := "deployments" } ∧
    (∀ calls ∈ [[Call.resourcesForSeries
          { Name := "replicas", Labels := [("deployment", "web")] },
        Call.labelForResource { Group := "apps", Resource := "deployments" }],
       [Call.labelForResource { Group := "apps", Resource := "deployments" },
        Call.resourcesForSeries { Name := "replicas", Labels := [("deployment", "web")] }]],
      (deploymentNamer.interleave [0, 1, 1, 0]
        [.resourcesForSeries { Name := "replicas", Labels := [("deployment", "web")] },
         .labelForResource { Group := "apps", Resource := "deployments" }]).1 ≠
        deploymentNamer.run calls) := by
  have hi : (deploymentNamer.interleave [0, 1, 1, 0]
      [.resourcesForSeries { Name := "replicas", Labels := [("deployment", "web")] },
       .labelForResource { Group := "apps", Resource := "deployments" }]).1.labelToResource
      "deployment" = some { Group := "extensions", Resource := "deployments" } := by decide
  have h1 : (deploymentNamer.run
      [.resourcesForSeries { Name := "replicas", Labels := [("deployment", "web")] },
       .labelForResource { Group := "apps", Resource := "deployments" }]).labelToResource
      "deployment" = some { Group := "apps", Resource := "deployments" } := by decide
  have h2 : (deploymentNamer.run
      [.labelForResource { Group := "apps", Resource := "deployments" },
       .resourcesForSeries { Name := "replicas", Labels := [("deployment", "web")] }]
      ).labelToResource "deployment" = some { Group := "apps", Resource := "deployments" } := by
    decide
  refine ⟨rfl, by decide, hi, by decide, h1, h2, ?_⟩
  intro calls hcalls heq
  simp only [List.mem_cons, List.mem_singleton, List.not_mem_nil, or_false] at hcalls
  rw [heq] at hi
  rcases hcalls with rfl | rfl
  · rw [h1] at hi
    exact absurd hi (by decide)
  · rw [h2] at hi
    exact absurd hi (by decide)

/-! ## Round trip from a rendered label back to the resource -/

theorem tmplScan_char (c : Char) (rest : List Char) (inAction : Bool) (cur : List Char)
    (h1 : c ≠ '<') (h2 : c ≠ '>') :
    tmplScan (c :: rest) inAction cur = tmplScan rest inAction (c :: cur) := by
  rw [tmplScan.eq_def]
  split <;> simp_all

theorem labelChars_cases (c : Char) (h : c ∈ labelChars) :
    c ≠ '<' ∧ c ≠ '>' ∧ c ≠ '\n' ∧
    ∀ (rest : List Char) (st : reParseState),
      reParse (c :: rest) none st = reParse rest none (st.push [reItem.lit c]) := by
  have hmem : c ∈ ['a', 'b', 'c', 'd', 'e', 'f', 'g', 'h', 'i', 'j', 'k', 'l', 'm', 'n', 'o',
      'p', 'q', 'r', 's', 't', 'u', 'v', 'w', 'x', 'y', 'z', 'A', 'B', 'C', 'D', 'E', 'F', 'G',
      'H', 'I', 'J', 'K', 'L', 'M', 'N', 'O', 'P', 'Q', 'R', 'S', 'T', 'U', 'V', 'W', 'X', 'Y',
      'Z', '0', '1', '2', '3', '4', '5', '6', '7', '8', '9', '_'] := h
  simp only [List.mem_cons, List.mem_singleton, List.not_mem_nil, or_false] at hmem
  rcases hmem with rfl | rfl | rfl | rfl | rfl | rfl | rfl | rfl | rfl | rfl | rfl | rfl | rfl | rfl | rfl | rfl | rfl | rfl | rfl | rfl | rfl | rfl | rfl | rfl | rfl | rfl | rfl | rfl | rfl | rfl | rfl | rfl | rfl | rfl | rfl | rfl | rfl | rfl | rfl | rfl | rfl | rfl | rfl | rfl | rfl | rfl | rfl | rfl | rfl | rfl | rfl | rfl | rfl | rfl | rfl | rfl | rfl | rfl | rfl | rfl | rfl | rfl | rfl <;>
    exact ⟨by decide, by decide, by decide, fun _ _ => rfl⟩

theorem tmplScan_plain (l rest : List Char) (inAction : Bool) (cur : List Char)
    (h : ∀ c ∈ l, c ∈ labelChars) :
    tmplScan (l ++ rest) inAction cur = tmplScan rest inAction (l.reverse ++ cur) := by
  induction l generalizing cur with
  | nil => rfl
  | cons c l ih =>
    obtain ⟨h1, h2, _, _⟩ := labelChars_cases c (h c (List.mem_cons_self _ _))
    rw [List.cons_append, tmplScan_char c _ _ _ h1 h2,
      ih _ (fun d hd => h d (List.mem_cons_of_mem _ hd))]
    simp

theorem reParse_lits (l rest : List Char) (st : reParseState)
    (h : ∀ c ∈ l, c ∈ labelChars) :
    reParse (l ++ rest) none st = reParse rest none (st.push (l.map reItem.lit)) := by
  induction l generalizing st with
  | nil =>
    simp only [List.nil_append, List.map_nil, reParseState.push, List.append_nil]
  | cons c l ih =>
    obtain ⟨_, _, _, hstep⟩ := labelChars_cases c (h c (List.mem_cons_self _ _))
    rw [List.cons_append, hstep, ih _ (fun d hd => h d (List.mem_cons_of_mem _ hd))]
    simp only [reParseState.push, List.map_cons, List.append_assoc, List.singleton_append]

theorem tmplScan_literal (S : List Char) (h : ∀ c ∈ S, c ∈ labelChars) :
    tmplScan S false [] = .ok [tmplNode.text (String.mk S)] := by
  have h1 := tmplScan_plain S [] false [] h
  rw [List.append_nil] at h1
  rw [h1]
  simp [tmplScan]

theorem tmplScan_resource (S cur : List Char) (nodes : List tmplNode)
    (hS : tmplScan S false [] = .ok nodes) :
    tmplScan ("<<.Resource>>".toList ++ S) false cur =
      .ok (tmplNode.text (String.mk cur.reverse) :: tmplNode.field "Resource" :: nodes) := by
  have e1 : tmplScan ("<<.Resource>>".toList ++ S) false cur =
      (match tmplScan (".Resource>>".toList ++ S) true [] with
       | .error err => .error err
       | .ok nodes => .ok (tmplNode.text (String.mk cur.reverse) :: nodes)) := rfl
  have e2 : tmplScan (".Resource>>".toList ++ S) true [] =
      (match tmplScan S false [] with
       | .error err => .error err
       | .ok nodes => .ok (tmplNode.field "Resource" :: nodes)) := rfl
  rw [e1, e2, hS]

theorem tmplScan_group (S cur : List Char) (nodes : List tmplNode)
    (hS : tmplScan S false [] = .ok nodes) :
    tmplScan ("<<.Group>>".toList ++ S) false cur =
      .ok (tmplNode.text (String.mk cur.reverse) :: tmplNode.field "Group" :: nodes) := by
  have e1 : tmplScan ("<<.Group>>".toList ++ S) false cur =
      (match tmplScan (".Group>>".toList ++ S) true [] with
       | .error err => .error err
       | .ok nodes => .ok (tmplNode.text (String.mk cur.reverse) :: nodes)) := rfl
  have e2 : tmplScan (".Group>>".toList ++ S) true [] =
      (match tmplScan S false [] with
       | .error err => .error err
       | .ok nodes => .ok (tmplNode.field "Group" :: nodes)) := rfl
  rw [e1, e2, hS]

theorem tmplScan_resource_form (P S : List Char) (hP : ∀ c ∈ P, c ∈ labelChars)
    (hS : ∀ c ∈ S, c ∈ labelChars) :
    tmplScan (P ++ ("<<.Resource>>".toList ++ S)) false [] =
      .ok [tmplNode.text (String.mk P), tmplNode.field "Resource",
        tmplNode.text (String.mk S)] := by
  rw [tmplScan_plain P _ false [] hP, tmplScan_resource S _ _ (tmplScan_literal S hS)]
  simp

theorem tmplScan_group_form (P M S : List Char) (hP : ∀ c ∈ P, c ∈ labelChars)
    (hM : ∀ c ∈ M, c ∈ labelChars) (hS : ∀ c ∈ S, c ∈ labelChars) :
    tmplScan (P ++ ("<<.Group>>".toList ++ (M ++ ("<<.Resource>>".toList ++ S)))) false [] =
      .ok [tmplNode.text (String.mk P), tmplNode.field "Group", tmplNode.text (String.mk M),
        tmplNode.field "Resource", tmplNode.text (String.mk S)] := by
  rw [tmplScan_plain P _ false [] hP,
    tmplScan_group _ _ _ (tmplScan_resource_form M S hM hS)]
  simp

theorem tmplExec_resource_form (gr : GroupResource) (P S : String) :
    tmplExec (groupResourceField gr)
      [tmplNode.text P, tmplNode.field "Resource", tmplNode.text S] =
      .ok (P ++ (gr.Resource ++ S)) := by
  simp [tmplExec, groupResourceField]

theorem tmplExec_group_form (gr : GroupResource) (P M S : String) :
    tmplExec (groupResourceField gr)
      [tmplNode.text P, tmplNode.field "Group", tmplNode.text M, tmplNode.field "Resource",
        tmplNode.text S] =
      .ok (P ++ (gr.Group ++ (M ++ (gr.Resource ++ S)))) := by
  simp [tmplExec, groupResourceField]

theorem reParse_resource_form (P S : List Char) (hP : ∀ c ∈ P, c ∈ labelChars)
    (hS : ∀ c ∈ S, c ∈ labelChars) :
    reParse ('^' :: (P ++ ("(?P<resource>.+?)".toList ++ (S ++ ['$'])))) none
        { items := [], names := [], stack := [] } =
      .ok { items := reItem.bol :: (P.map reItem.lit ++ reItem.openGroup 1 :: reItem.any ::
              reItem.star false :: reItem.closeGroup 1 :: (S.map reItem.lit ++ [reItem.eol]))
            names := ["resource"]
            stack := [] } := by
  have e1 : ∀ (rest : List Char) (st : reParseState),
      reParse ('^' :: rest) none st = reParse rest none (st.push [reItem.bol]) :=
    fun _ _ => rfl
  have e2 : ∀ (rest : List Char) (st : reParseState),
      reParse ("(?P<resource>.+?)".toList ++ rest) none st =
        reParse rest none
          { items := st.items ++ [reItem.openGroup (st.names.length + 1)] ++
              [reItem.any, reItem.star false] ++ [reItem.closeGroup (st.names.length + 1)]
            names := st.names ++ ["resource"]
            stack := st.stack } := fun _ _ => rfl
  have e3 : ∀ (st : reParseState), st.stack = [] →
      reParse ['$'] none st = .ok (st.push [reItem.eol]) := by
    intro st h
    show (if (st.push [reItem.eol]).stack = [] then _ else _) = _
    rw [if_pos (by exact h)]
  rw [e1, reParse_lits P _ _ hP, e2, reParse_lits S _ _ hS, e3 _ rfl]
  simp [reParseState.push]

theorem reParse_group_form (P M S : List Char) (hP : ∀ c ∈ P, c ∈ labelChars)
    (hM : ∀ c ∈ M, c ∈ labelChars) (hS : ∀ c ∈ S, c ∈ labelChars) :
    reParse ('^' :: (P ++ ("(?P<group>.+?)".toList ++
        (M ++ ("(?P<resource>.+?)".toList ++ (S ++ ['$'])))))) none
        { items := [], names := [], stack := [] } =
      .ok { items := reItem.bol :: (P.map reItem.lit ++ reItem.openGroup 1 :: reItem.any ::
              reItem.star false :: reItem.closeGroup 1 :: (M.map reItem.lit ++
              reItem.openGroup 2 :: reItem.any :: reItem.star false :: reItem.closeGroup 2 ::
              (S.map reItem.lit ++ [reItem.eol])))
            names := ["group", "resource"]
            stack := [] } := by
  have e1 : ∀ (rest : List Char) (st : reParseState),
      reParse ('^' :: rest) none st = reParse rest none (st.push [reItem.bol]) :=
    fun _ _ => rfl
  have e2 : ∀ (rest : List Char) (st : reParseState),
      reParse ("(?P<resource>.+?)".toList ++ rest) none st =
        reParse rest none
          { items := st.items ++ [reItem.openGroup (st.names.length + 1)] ++
              [reItem.any, reItem.star false] ++ [reItem.closeGroup (st.names.length + 1)]
            names := st.names ++ ["resource"]
            stack := st.stack } := fun _ _ => rfl
  have e4 : ∀ (rest : List Char) (st : reParseState),
      reParse ("(?P<group>.+?)".toList ++ rest) none st =
        reParse rest none
          { items := st.items ++ [reItem.openGroup (st.names.length + 1)] ++
              [reItem.any, reItem.star false] ++ [reItem.closeGroup (st.names.length + 1)]
            names := st.names ++ ["group"]
            stack := st.stack } := fun _ _ => rfl
  have e3 : ∀ (st : reParseState), st.stack = [] →
      reParse ['$'] none st = .ok (st.push [reItem.eol]) := by
    intro st h
    show (if (st.push [reItem.eol]).stack = [] then _ else _) = _
    rw [if_pos (by exact h)]
  rw [e1, reParse_lits P _ _ hP, e4, reParse_lits M _ _ hM, e2, reParse_lits S _ _ hS,
    e3 _ rfl]
  simp [reParseState.push]

/-- The lazy repetition stops at the first split at which what follows matches. -/
theorem starLoop_lazy_first (k : Nat → List Char → reCaps → Option (Nat × reCaps))
    (a b : List Char) (pos : Nat) (caps : reCaps) (res : Nat × reCaps)
    (hnl : ∀ c ∈ a, c ≠ '\n')
    (hfail : ∀ a1 a2, a = a1 ++ a2 → a2 ≠ [] → k (pos + a1.length) (a2 ++ b) caps = none)
    (hok : k (pos + a.length) b caps = some res) :
    starLoop false k pos (a ++ b) caps = some res := by
  induction a generalizing pos with
  | nil =>
    simp only [List.length_nil, Nat.add_zero] at hok
    rw [List.nil_append]
    cases b with
    | nil => rw [starLoop_nil, hok]
    | cons c cs =>
      rw [starLoop_cons]
      by_cases hc : c = '\n'
      · rw [if_pos hc, hok]
      · rw [if_neg hc]
        simp only [Bool.false_eq_true, if_false]
        rw [hok]
  | cons c a ih =>
    have hc : c ≠ '\n' := hnl c (List.mem_cons_self _ _)
    have hk := hfail [] (c :: a) rfl (List.cons_ne_nil _ _)
    simp only [List.length_nil, Nat.add_zero, List.cons_append] at hk
    rw [List.cons_append, starLoop_cons, if_neg hc]
    simp only [Bool.false_eq_true, if_false]
    rw [hk]
    simp only
    apply ih (pos + 1) (fun d hd => hnl d (List.mem_cons_of_mem _ hd))
    · intro a1 a2 h ha2
      have := hfail (c :: a1) a2 (by rw [h]; rfl) ha2
      have hlen : pos + (c :: a1).length = pos + 1 + a1.length := by
        simp only [List.length_cons]
        omega
      rw [hlen] at this
      exact this
    · have hlen : pos + 1 + a.length = pos + (c :: a).length := by
        simp only [List.length_cons]
        omega
      rw [hlen]
      exact hok

theorem matchItems_lits_eol_self (S : List Char) (pos : Nat) (caps : reCaps) :
    matchItems (S.map reItem.lit ++ [reItem.eol]) pos S caps = some (pos + S.length, caps) := by
  have hp : S.isPrefixOf S = true := List.isPrefixOf_iff_prefix.mpr (List.prefix_refl _)
  rw [matchItems_lits, if_pos hp, List.drop_length, matchItems_eol_nil, matchItems_nil]

theorem matchItems_lits_eol_ne (S : List Char) (pos : Nat) (input : List Char) (caps : reCaps)
    (h : input ≠ S) : matchItems (S.map reItem.lit ++ [reItem.eol]) pos input caps = none := by
  cases hm : matchItems (S.map reItem.lit ++ [reItem.eol]) pos input caps with
  | none => rfl
  | some r =>
    exact absurd ((matchItems_lits_eol S pos input caps).mp (by rw [hm]; rfl)) h

/-- The group `(.+?)` takes the shortest non-empty text after which the rest of the
pattern matches. -/
theorem matchItems_lazy_group (i : Nat) (rest : List reItem) (r t : List Char) (pos : Nat)
    (caps : reCaps) (res : Nat × reCaps) (hr : r ≠ []) (hnl : ∀ c ∈ r, c ≠ '\n')
    (hfail : ∀ r1 r2, r = r1 ++ r2 → r1 ≠ [] → r2 ≠ [] → ∀ caps2,
      matchItems rest (pos + r1.length) (r2 ++ t) caps2 = none)
    (hok : matchItems rest (pos + r.length) t
      { opens := (i, pos) :: caps.opens, closes := (i, pos + r.length) :: caps.closes } =
      some res) :
    matchItems (reItem.openGroup i :: reItem.any :: reItem.star false :: reItem.closeGroup i ::
      rest) pos (r ++ t) caps = some res := by
  cases r with
  | nil => exact absurd rfl hr
  | cons c r =>
    have hc : c ≠ '\n' := hnl c (List.mem_cons_self _ _)
    rw [List.cons_append, matchItems_openGroup, matchItems_any_cons, if_neg hc, matchItems_star]
    apply starLoop_lazy_first _ r t (pos + 1) _ res
      (fun d hd => hnl d (List.mem_cons_of_mem _ hd))
    · intro a1 a2 h ha2
      rw [matchItems_closeGroup]
      have := hfail (c :: a1) a2 (by rw [h]; rfl) (List.cons_ne_nil _ _) ha2
      have hlen : pos + (c :: a1).length = pos + 1 + a1.length := by
        simp only [List.length_cons]
        omega
      rw [hlen] at this
      exact this _
    · rw [matchItems_closeGroup]
      have hlen : pos + (c :: r).length = pos + 1 + r.length := by
        simp only [List.length_cons]
        omega
      rw [hlen] at hok
      exact hok

/-- The pattern `P(.+?)S$` on the text `P`, `r`, `S`: the group is `r`. -/
theorem matchItems_resource_form (i : Nat) (P S r : List Char) (pos : Nat) (caps : reCaps)
    (hr : r ≠ []) (hnl : ∀ c ∈ r, c ≠ '\n') :
    matchItems (P.map reItem.lit ++ reItem.openGroup i :: reItem.any :: reItem.star false ::
      reItem.closeGroup i :: (S.map reItem.lit ++ [reItem.eol])) pos (P ++ (r ++ S)) caps =
      some (pos + P.length + r.length + S.length,
        { opens := (i, pos + P.length) :: caps.opens,
          closes := (i, pos + P.length + r.length) :: caps.closes }) := by
  have hp : P.isPrefixOf (P ++ (r ++ S)) = true := List.isPrefixOf_iff_prefix.mpr ⟨_, rfl⟩
  rw [matchItems_lits, if_pos hp, List.drop_left]
  apply matchItems_lazy_group i _ r S _ caps _ hr hnl
  · intro r1 r2 _ _ hr2 caps2
    apply matchItems_lits_eol_ne
    intro h
    have hl := congrArg List.length h
    simp only [List.length_append] at hl
    have : r2.length = 0 := by omega
    exact hr2 (List.length_eq_zero.mp this)
  · rw [matchItems_lits_eol_self]

/-- The pattern `P(.+?)M(.+?)S$` on the text `P`, `g`, `M`, `r`, `S`, when the first
character of `M` does not occur in `g`: the groups are `g` and `r`. -/
theorem matchItems_group_form (P Mt S g r : List Char) (m0 : Char) (pos : Nat) (caps : reCaps)
    (hg : g ≠ []) (hgnl : ∀ c ∈ g, c ≠ '\n') (hm0 : m0 ∉ g)
    (hr : r ≠ []) (hnl : ∀ c ∈ r, c ≠ '\n') :
    matchItems (P.map reItem.lit ++ reItem.openGroup 1 :: reItem.any :: reItem.star false ::
      reItem.closeGroup 1 :: ((m0 :: Mt).map reItem.lit ++ reItem.openGroup 2 :: reItem.any ::
      reItem.star false :: reItem.closeGroup 2 :: (S.map reItem.lit ++ [reItem.eol])))
      pos (P ++ (g ++ ((m0 :: Mt) ++ (r ++ S)))) caps =
      some (pos + P.length + g.length + (m0 :: Mt).length + r.length + S.length,
        { opens := (2, pos + P.length + g.length + (m0 :: Mt).length) ::
            (1, pos + P.length) :: caps.opens,
          closes := (2, pos + P.length + g.length + (m0 :: Mt).length + r.length) ::
            (1, pos + P.length + g.length) :: caps.closes }) := by
  have hp : P.isPrefixOf (P ++ (g ++ ((m0 :: Mt) ++ (r ++ S)))) = true :=
    List.isPrefixOf_iff_prefix.mpr ⟨_, rfl⟩
  rw [matchItems_lits, if_pos hp, List.drop_left]
  apply matchItems_lazy_group 1 _ g _ _ caps _ hg hgnl
  · intro r1 r2 hsplit _ hr2 caps2
    cases r2 with
    | nil => exact absurd rfl hr2
    | cons d r2 =>
      have hd : d ∈ g := by
        rw [hsplit]
        exact List.mem_append_right _ (List.mem_cons_self _ _)
      have hne : m0 ≠ d := fun h => hm0 (h ▸ hd)
      rw [List.map_cons, List.cons_append, List.cons_append, matchItems_lit_cons, if_neg hne]
  · have hp2 : (m0 :: Mt).isPrefixOf ((m0 :: Mt) ++ (r ++ S)) = true :=
      List.isPrefixOf_iff_prefix.mpr ⟨_, rfl⟩
    rw [matchItems_lits, if_pos hp2, List.drop_left]
    have h2 := matchItems_resource_form 2 [] S r (pos + P.length + g.length + (m0 :: Mt).length)
      { opens := (1, pos + P.length) :: caps.opens,
        closes := (1, pos + P.length + g.length) :: caps.closes } hr hnl
    simp only [List.map_nil, List.nil_append, List.length_nil, Nat.add_zero] at h2
    exact h2

theorem resource_form_FindStringSubmatch (P S r : String) (hr : r ≠ "")
    (hnl : ∀ c ∈ r.toList, c ≠ '\n') :
    (regexpOfItems (reItem.bol :: (P.toList.map reItem.lit ++ reItem.openGroup 1 ::
      reItem.any :: reItem.star false :: reItem.closeGroup 1 ::
      (S.toList.map reItem.lit ++ [reItem.eol]))) ["resource"]).FindStringSubmatch
      (P ++ (r ++ S)) = some [P ++ (r ++ S), r] := by
  have hr2 : r.toList ≠ [] := by
    intro h
    apply hr
    apply String.ext
    exact h
  show findSubmatch _ 1 (P.toList ++ (r.toList ++ S.toList)) = _
  unfold findSubmatch
  rw [searchFrom_bol, matchItems_resource_form 1 P.toList S.toList r.toList 0 _ hr2 hnl]
  have hrange : List.range 1 = [0] := rfl
  simp only [Option.map_some', hrange, List.map_cons, List.map_nil, sliceText, groupText,
    List.lookup, beq_self_eq_true, Nat.zero_add, List.drop_zero, Nat.sub_zero]
  have h1 : List.take (P.toList.length + r.toList.length + S.toList.length)
      (P.toList ++ (r.toList ++ S.toList)) = P.toList ++ (r.toList ++ S.toList) := by
    apply List.take_of_length_le
    simp only [List.length_append]
    omega
  have h2 : P.toList.length + r.toList.length - P.toList.length = r.toList.length := by omega
  rw [h1, h2, List.drop_left, List.take_left]
  rfl

theorem drop_three (a b c d : List Char) :
    (a ++ (b ++ (c ++ d))).drop (a.length + b.length + c.length) = d := by
  have h1 : a ++ (b ++ (c ++ d)) = (a ++ b ++ c) ++ d := by simp
  have h2 : a.length + b.length + c.length = (a ++ b ++ c).length := by
    simp only [List.length_append]
  rw [h1, h2, List.drop_left]

theorem group_form_FindStringSubmatch (name1 name2 : String) (P M S g r : String)
    (m0 : Char) (Mt : List Char)
    (hM : M.toList = m0 :: Mt) (hg : g ≠ "") (hgnl : ∀ c ∈ g.toList, c ≠ '\n')
    (hm0 : m0 ∉ g.toList) (hr : r ≠ "") (hnl : ∀ c ∈ r.toList, c ≠ '\n') :
    (regexpOfItems (reItem.bol :: (P.toList.map reItem.lit ++ reItem.openGroup 1 ::
      reItem.any :: reItem.star false :: reItem.closeGroup 1 :: (M.toList.map reItem.lit ++
      reItem.openGroup 2 :: reItem.any :: reItem.star false :: reItem.closeGroup 2 ::
      (S.toList.map reItem.lit ++ [reItem.eol])))) [name1, name2]).FindStringSubmatch
      (P ++ (g ++ (M ++ (r ++ S)))) = some [P ++ (g ++ (M ++ (r ++ S))), g, r] := by
  have hr2 : r.toList ≠ [] := by
    intro h
    apply hr
    apply String.ext
    exact h
  have hg2 : g.toList ≠ [] := by
    intro h
    apply hg
    apply String.ext
    exact h
  show findSubmatch _ 2 (P.toList ++ (g.toList ++ (M.toList ++ (r.toList ++ S.toList)))) = _
  unfold findSubmatch
  rw [searchFrom_bol, hM,
    matchItems_group_form P.toList Mt S.toList g.toList r.toList m0 0 _ hg2 hgnl hm0 hr2 hnl,
    ← hM]
  have hrange : List.range 2 = [0, 1] := rfl
  have b1 : ((1 : Nat) == 2) = false := rfl
  have b2 : ((1 : Nat) == 1) = true := rfl
  have b3 : ((1 : Nat) + 1 == 2) = true := rfl
  simp only [Option.map_some', hrange, List.map_cons, List.map_nil, sliceText, groupText,
    List.lookup, Nat.zero_add, List.drop_zero, Nat.sub_zero, b1, b2, b3]
  have h1 : List.take (P.toList.length + g.toList.length + M.toList.length +
      r.toList.length + S.toList.length)
      (P.toList ++ (g.toList ++ (M.toList ++ (r.toList ++ S.toList)))) =
      P.toList ++ (g.toList ++ (M.toList ++ (r.toList ++ S.toList))) := by
    apply List.take_of_length_le
    simp only [List.length_append]
    omega
  have h2 : P.toList.length + g.toList.length - P.toList.length = g.toList.length := by omega
  have h3 : P.toList.length + g.toList.length + M.toList.length + r.toList.length -
      (P.toList.length + g.toList.length + M.toList.length) = r.toList.length := by omega
  rw [h1, h2, h3, List.drop_left, List.take_left, drop_three, List.take_left]
  rfl

theorem compileRe_resource_form (P S : String) (hP : ∀ c ∈ P.toList, c ∈ labelChars)
    (hS : ∀ c ∈ S.toList, c ∈ labelChars) :
    compileRe ("^" ++ (P ++ ("(?P<resource>.+?)" ++ S)) ++ "$") =
      .ok (regexpOfItems (reItem.bol :: (P.toList.map reItem.lit ++ reItem.openGroup 1 ::
        reItem.any :: reItem.star false :: reItem.closeGroup 1 ::
        (S.toList.map reItem.lit ++ [reItem.eol]))) ["resource"]) := by
  have hl : ("^" ++ (P ++ ("(?P<resource>.+?)" ++ S)) ++ "$").toList =
      '^' :: (P.toList ++ ("(?P<resource>.+?)".toList ++ (S.toList ++ ['$']))) := by
    show ['^'] ++ (P.toList ++ ("(?P<resource>.+?)".toList ++ S.toList)) ++ ['$'] = _
    simp only [List.cons_append, List.nil_append, List.append_assoc]
  unfold compileRe
  rw [hl, reParse_resource_form P.toList S.toList hP hS]

theorem compileRe_group_form (P M S : String) (hP : ∀ c ∈ P.toList, c ∈ labelChars)
    (hM : ∀ c ∈ M.toList, c ∈ labelChars) (hS : ∀ c ∈ S.toList, c ∈ labelChars) :
    compileRe ("^" ++ (P ++ ("(?P<group>.+?)" ++ (M ++ ("(?P<resource>.+?)" ++ S)))) ++ "$") =
      .ok (regexpOfItems (reItem.bol :: (P.toList.map reItem.lit ++ reItem.openGroup 1 ::
        reItem.any :: reItem.star false :: reItem.closeGroup 1 :: (M.toList.map reItem.lit ++
        reItem.openGroup 2 :: reItem.any :: reItem.star false :: reItem.closeGroup 2 ::
        (S.toList.map reItem.lit ++ [reItem.eol])))) ["group", "resource"]) := by
  have hl : ("^" ++ (P ++ ("(?P<group>.+?)" ++ (M ++ ("(?P<resource>.+?)" ++ S)))) ++
      "$").toList =
      '^' :: (P.toList ++ ("(?P<group>.+?)".toList ++
        (M.toList ++ ("(?P<resource>.+?)".toList ++ (S.toList ++ ['$']))))) := by
    show ['^'] ++ (P.toList ++ ("(?P<group>.+?)".toList ++
      (M.toList ++ ("(?P<resource>.+?)".toList ++ S.toList)))) ++ ['$'] = _
    simp only [List.cons_append, List.nil_append, List.append_assoc]
  unfold compileRe
  rw [hl, reParse_group_form P.toList M.toList S.toList hP hM hS]

theorem append_ne_empty_of_left (a b : String) (h : a ≠ "") : a ++ b ≠ "" := by
  intro hab
  apply h
  apply String.ext
  have := congrArg String.data hab
  rw [String.data_append] at this
  exact (List.append_eq_nil.mp this).1

theorem append_ne_empty_of_right (a b : String) (h : b ≠ "") : a ++ b ≠ "" := by
  intro hab
  apply h
  apply String.ext
  have := congrArg String.data hab
  rw [String.data_append] at this
  exact (List.append_eq_nil.mp this).2

theorem newLabelGroupResExtractor_resource_form (P S : String)
    (hP : ∀ c ∈ P.toList, c ∈ labelChars) (hS : ∀ c ∈ S.toList, c ∈ labelChars) :
    newLabelGroupResExtractor reEnv (Template.mk fun gr => tmplExec (groupResourceField gr)
        [tmplNode.text P, tmplNode.field "Resource", tmplNode.text S]) =
      .ok (labelGroupResExtractor.mk
        (regexpOfItems (reItem.bol :: (P.toList.map reItem.lit ++ reItem.openGroup 1 ::
          reItem.any :: reItem.star false :: reItem.closeGroup 1 ::
          (S.toList.map reItem.lit ++ [reItem.eol]))) ["resource"]) 1 none) := by
  have hnebuf : P ++ ("(?P<resource>.+?)" ++ S) ≠ "" :=
    append_ne_empty_of_right _ _ (append_ne_empty_of_left _ _ (by decide))
  have hc : reEnv.Compile ("^" ++ (P ++ ("(?P<resource>.+?)" ++ S)) ++ "$") = _ :=
    compileRe_resource_form P S hP hS
  unfold newLabelGroupResExtractor
  simp only [tmplExec_resource_form]
  rw [if_neg hnebuf, hc]
  rfl

theorem newLabelGroupResExtractor_group_form (P M S : String)
    (hP : ∀ c ∈ P.toList, c ∈ labelChars) (hM : ∀ c ∈ M.toList, c ∈ labelChars)
    (hS : ∀ c ∈ S.toList, c ∈ labelChars) :
    newLabelGroupResExtractor reEnv (Template.mk fun gr => tmplExec (groupResourceField gr)
        [tmplNode.text P, tmplNode.field "Group", tmplNode.text M, tmplNode.field "Resource",
          tmplNode.text S]) =
      .ok (labelGroupResExtractor.mk
        (regexpOfItems (reItem.bol :: (P.toList.map reItem.lit ++ reItem.openGroup 1 ::
          reItem.any :: reItem.star false :: reItem.closeGroup 1 :: (M.toList.map reItem.lit ++
          reItem.openGroup 2 :: reItem.any :: reItem.star false :: reItem.closeGroup 2 ::
          (S.toList.map reItem.lit ++ [reItem.eol])))) ["group", "resource"]) 2 (some 1)) := by
  have hnebuf : P ++ ("(?P<group>.+?)" ++ (M ++ ("(?P<resource>.+?)" ++ S))) ≠ "" :=
    append_ne_empty_of_right _ _ (append_ne_empty_of_left _ _ (by decide))
  have hc : reEnv.Compile
      ("^" ++ (P ++ ("(?P<group>.+?)" ++ (M ++ ("(?P<resource>.+?)" ++ S)))) ++ "$") = _ :=
    compileRe_group_form P M S hP hM hS
  unfold newLabelGroupResExtractor
  simp only [tmplExec_group_form]
  rw [if_neg hnebuf, hc]
  rfl

theorem labelTemplateOfRule_resource_form (rule : DiscoveryRule) (P S : String)
    (hT : rule.Resources.Template = P ++ "<<.Resource>>" ++ S)
    (hP : ∀ c ∈ P.toList, c ∈ labelChars) (hS : ∀ c ∈ S.toList, c ∈ labelChars) :
    labelTemplateOfRule reEnv rule =
      .ok (some (Template.mk fun gr => tmplExec (groupResourceField gr)
              [tmplNode.text P, tmplNode.field "Resource", tmplNode.text S]),
           some (labelGroupResExtractor.mk
              (regexpOfItems (reItem.bol :: (P.toList.map reItem.lit ++ reItem.openGroup 1 ::
                reItem.any :: reItem.star false :: reItem.closeGroup 1 ::
                (S.toList.map reItem.lit ++ [reItem.eol]))) ["resource"]) 1 none)) := by
  have hne : rule.Resources.Template ≠ "" := by
    rw [hT, String.append_assoc]
    exact append_ne_empty_of_right _ _ (append_ne_empty_of_left _ _ (by decide))
  have hscan : tmplScan rule.Resources.Template.toList false [] =
      .ok [tmplNode.text P, tmplNode.field "Resource", tmplNode.text S] := by
    rw [hT]
    show tmplScan (P.toList ++ "<<.Resource>>".toList ++ S.toList) false [] = _
    rw [List.append_assoc, tmplScan_resource_form P.toList S.toList hP hS]
    rfl
  have hparse : reEnv.ParseLabel rule.Resources.Template =
      .ok (Template.mk fun gr => tmplExec (groupResourceField gr)
        [tmplNode.text P, tmplNode.field "Resource", tmplNode.text S]) := by
    show parseLabelTemplate _ = _
    unfold parseLabelTemplate
    rw [hscan]
  unfold labelTemplateOfRule
  rw [if_pos hne, hparse]
  simp only
  rw [newLabelGroupResExtractor_resource_form P S hP hS]

theorem labelTemplateOfRule_group_form (rule : DiscoveryRule) (P M S : String)
    (hT : rule.Resources.Template = P ++ "<<.Group>>" ++ M ++ "<<.Resource>>" ++ S)
    (hP : ∀ c ∈ P.toList, c ∈ labelChars) (hM : ∀ c ∈ M.toList, c ∈ labelChars)
    (hS : ∀ c ∈ S.toList, c ∈ labelChars) :
    labelTemplateOfRule reEnv rule =
      .ok (some (Template.mk fun gr => tmplExec (groupResourceField gr)
              [tmplNode.text P, tmplNode.field "Group", tmplNode.text M,
                tmplNode.field "Resource", tmplNode.text S]),
           some (labelGroupResExtractor.mk
              (regexpOfItems (reItem.bol :: (P.toList.map reItem.lit ++ reItem.openGroup 1 ::
                reItem.any :: reItem.star false :: reItem.closeGroup 1 ::
                (M.toList.map reItem.lit ++ reItem.openGroup 2 :: reItem.any ::
                reItem.star false :: reItem.closeGroup 2 ::
                (S.toList.map reItem.lit ++ [reItem.eol])))) ["group", "resource"]) 2
              (some 1))) := by
  have hne : rule.Resources.Template ≠ "" := by
    rw [hT]
    exact append_ne_empty_of_left _ _ (append_ne_empty_of_right _ _ (by decide))
  have hscan : tmplScan rule.Resources.Template.toList false [] =
      .ok [tmplNode.text P, tmplNode.field "Group", tmplNode.text M,
        tmplNode.field "Resource", tmplNode.text S] := by
    rw [hT]
    show tmplScan (P.toList ++ "<<.Group>>".toList ++ M.toList ++ "<<.Resource>>".toList ++
      S.toList) false [] = _
    simp only [List.append_assoc]
    rw [tmplScan_group_form P.toList M.toList S.toList hP hM hS]
    rfl
  have hparse : reEnv.ParseLabel rule.Resources.Template =
      .ok (Template.mk fun gr => tmplExec (groupResourceField gr)
        [tmplNode.text P, tmplNode.field "Group", tmplNode.text M,
          tmplNode.field "Resource", tmplNode.text S]) := by
    show parseLabelTemplate _ = _
    unfold parseLabelTemplate
    rw [hscan]
  unfold labelTemplateOfRule
  rw [if_pos hne, hparse]
  simp only
  rw [newLabelGroupResExtractor_group_form P M S hP hM hS]

theorem tmplScan_resource_group_form (P M S : List Char) (hP : ∀ c ∈ P, c ∈ labelChars)
    (hM : ∀ c ∈ M, c ∈ labelChars) (hS : ∀ c ∈ S, c ∈ labelChars) :
    tmplScan (P ++ ("<<.Resource>>".toList ++ (M ++ ("<<.Group>>".toList ++ S)))) false [] =
      .ok [tmplNode.text (String.mk P), tmplNode.field "Resource", tmplNode.text (String.mk M),
        tmplNode.field "Group", tmplNode.text (String.mk S)] := by
  have htail : tmplScan (M ++ ("<<.Group>>".toList ++ S)) false [] =
      .ok [tmplNode.text (String.mk M), tmplNode.field "Group",
        tmplNode.text (String.mk S)] := by
    rw [tmplScan_plain M _ false [] hM, tmplScan_group S _ _ (tmplScan_literal S hS)]
    simp
  rw [tmplScan_plain P _ false [] hP, tmplScan_resource _ _ _ htail]
  simp

theorem tmplExec_resource_group_form (gr : GroupResource) (P M S : String) :
    tmplExec (groupResourceField gr)
      [tmplNode.text P, tmplNode.field "Resource", tmplNode.text M, tmplNode.field "Group",
        tmplNode.text S] =
      .ok (P ++ (gr.Resource ++ (M ++ (gr.Group ++ S)))) := by
  simp [tmplExec, groupResourceField]

theorem reParse_resource_group_form (P M S : List Char) (hP : ∀ c ∈ P, c ∈ labelChars)
    (hM : ∀ c ∈ M, c ∈ labelChars) (hS : ∀ c ∈ S, c ∈ labelChars) :
    reParse ('^' :: (P ++ ("(?P<resource>.+?)".toList ++
        (M ++ ("(?P<group>.+?)".toList ++ (S ++ ['$'])))))) none
        { items := [], names := [], stack := [] } =
      .ok { items := reItem.bol :: (P.map reItem.lit ++ reItem.openGroup 1 :: reItem.any ::
              reItem.star false :: reItem.closeGroup 1 :: (M.map reItem.lit ++
              reItem.openGroup 2 :: reItem.any :: reItem.star false :: reItem.closeGroup 2 ::
              (S.map reItem.lit ++ [reItem.eol])))
            names := ["resource", "group"]
            stack := [] } := by
  have e1 : ∀ (rest : List Char) (st : reParseState),
      reParse ('^' :: rest) none st = reParse rest none (st.push [reItem.bol]) :=
    fun _ _ => rfl
  have e2 : ∀ (rest : List Char) (st : reParseState),
      reParse ("(?P<resource>.+?)".toList ++ rest) none st =
        reParse rest none
          { items := st.items ++ [reItem.openGroup (st.names.length + 1)] ++
              [reItem.any, reItem.star false] ++ [reItem.closeGroup (st.names.length + 1)]
            names := st.names ++ ["resource"]
            stack := st.stack } := fun _ _ => rfl
  have e4 : ∀ (rest : List Char) (st : reParseState),
      reParse ("(?P<group>.+?)".toList ++ rest) none st =
        reParse rest none
          { items := st.items ++ [reItem.openGroup (st.names.length + 1)] ++
              [reItem.any, reItem.star false] ++ [reItem.closeGroup (st.names.length + 1)]
            names := st.names ++ ["group"]
            stack := st.stack } := fun _ _ => rfl
  have e3 : ∀ (st : reParseState), st.stack = [] →
      reParse ['$'] none st = .ok (st.push [reItem.eol]) := by
    intro st h
    show (if (st.push [reItem.eol]).stack = [] then _ else _) = _
    rw [if_pos (by exact h)]
  rw [e1, reParse_lits P _ _ hP, e2, reParse_lits M _ _ hM, e4, reParse_lits S _ _ hS,
    e3 _ rfl]
  simp [reParseState.push]

theorem compileRe_resource_group_form (P M S : String) (hP : ∀ c ∈ P.toList, c ∈ labelChars)
    (hM : ∀ c ∈ M.toList, c ∈ labelChars) (hS : ∀ c ∈ S.toList, c ∈ labelChars) :
    compileRe ("^" ++ (P ++ ("(?P<resource>.+?)" ++ (M ++ ("(?P<group>.+?)" ++ S)))) ++ "$") =
      .ok (regexpOfItems (reItem.bol :: (P.toList.map reItem.lit ++ reItem.openGroup 1 ::
        reItem.any :: reItem.star false :: reItem.closeGroup 1 :: (M.toList.map reItem.lit ++
        reItem.openGroup 2 :: reItem.any :: reItem.star false :: reItem.closeGroup 2 ::
        (S.toList.map reItem.lit ++ [reItem.eol])))) ["resource", "group"]) := by
  have hl : ("^" ++ (P ++ ("(?P<resource>.+?)" ++ (M ++ ("(?P<group>.+?)" ++ S)))) ++
      "$").toList =
      '^' :: (P.toList ++ ("(?P<resource>.+?)".toList ++
        (M.toList ++ ("(?P<group>.+?)".toList ++ (S.toList ++ ['$']))))) := by
    show ['^'] ++ (P.toList ++ ("(?P<resource>.+?)".toList ++
      (M.toList ++ ("(?P<group>.+?)".toList ++ S.toList)))) ++ ['$'] = _
    simp only [List.cons_append, List.nil_append, List.append_assoc]
  unfold compileRe
  rw [hl, reParse_resource_group_form P.toList M.toList S.toList hP hM hS]

theorem newLabelGroupResExtractor_resource_group_form (P M S : String)
    (hP : ∀ c ∈ P.toList, c ∈ labelChars) (hM : ∀ c ∈ M.toList, c ∈ labelChars)
    (hS : ∀ c ∈ S.toList, c ∈ labelChars) :
    newLabelGroupResExtractor reEnv (Template.mk fun gr => tmplExec (groupResourceField gr)
        [tmplNode.text P, tmplNode.field "Resource", tmplNode.text M, tmplNode.field "Group",
          tmplNode.text S]) =
      .ok (labelGroupResExtractor.mk
        (regexpOfItems (reItem.bol :: (P.toList.map reItem.lit ++ reItem.openGroup 1 ::
          reItem.any :: reItem.star false :: reItem.closeGroup 1 :: (M.toList.map reItem.lit ++
          reItem.openGroup 2 :: reItem.any :: reItem.star false :: reItem.closeGroup 2 ::
          (S.toList.map reItem.lit ++ [reItem.eol])))) ["resource", "group"]) 1 (some 2)) := by
  have hnebuf : P ++ ("(?P<resource>.+?)" ++ (M ++ ("(?P<group>.+?)" ++ S))) ≠ "" :=
    append_ne_empty_of_right _ _ (append_ne_empty_of_left _ _ (by decide))
  have hc : reEnv.Compile
      ("^" ++ (P ++ ("(?P<resource>.+?)" ++ (M ++ ("(?P<group>.+?)" ++ S)))) ++ "$") = _ :=
    compileRe_resource_group_form P M S hP hM hS
  unfold newLabelGroupResExtractor
  simp only [tmplExec_resource_group_form]
  rw [if_neg hnebuf, hc]
  rfl

theorem labelTemplateOfRule_resource_group_form (rule : DiscoveryRule) (P M S : String)
    (hT : rule.Resources.Template = P ++ "<<.Resource>>" ++ M ++ "<<.Group>>" ++ S)
    (hP : ∀ c ∈ P.toList, c ∈ labelChars) (hM : ∀ c ∈ M.toList, c ∈ labelChars)
    (hS : ∀ c ∈ S.toList, c ∈ labelChars) :
    labelTemplateOfRule reEnv rule =
      .ok (some (Template.mk fun gr => tmplExec (groupResourceField gr)
              [tmplNode.text P, tmplNode.field "Resource", tmplNode.text M,
                tmplNode.field "Group", tmplNode.text S]),
           some (labelGroupResExtractor.mk
              (regexpOfItems (reItem.bol :: (P.toList.map reItem.lit ++ reItem.openGroup 1 ::
                reItem.any :: reItem.star false :: reItem.closeGroup 1 ::
                (M.toList.map reItem.lit ++ reItem.openGroup 2 :: reItem.any ::
                reItem.star false :: reItem.closeGroup 2 ::
                (S.toList.map reItem.lit ++ [reItem.eol])))) ["resource", "group"]) 1
              (some 2))) := by
  have hne : rule.Resources.Template ≠ "" := by
    rw [hT]
    exact append_ne_empty_of_left _ _ (append_ne_empty_of_right _ _ (by decide))
  have hscan : tmplScan rule.Resources.Template.toList false [] =
      .ok [tmplNode.text P, tmplNode.field "Resource", tmplNode.text M,
        tmplNode.field "Group", tmplNode.text S] := by
    rw [hT]
    show tmplScan (P.toList ++ "<<.Resource>>".toList ++ M.toList ++ "<<.Group>>".toList ++
      S.toList) false [] = _
    simp only [List.append_assoc]
    rw [tmplScan_resource_group_form P.toList M.toList S.toList hP hM hS]
    rfl
  have hparse : reEnv.ParseLabel rule.Resources.Template =
      .ok (Template.mk fun gr => tmplExec (groupResourceField gr)
        [tmplNode.text P, tmplNode.field "Resource", tmplNode.text M,
          tmplNode.field "Group", tmplNode.text S]) := by
    show parseLabelTemplate _ = _
    unfold parseLabelTemplate
    rw [hscan]
  unfold labelTemplateOfRule
  rw [if_pos hne, hparse]
  simp only
  rw [newLabelGroupResExtractor_resource_group_form P M S hP hM hS]

theorem kubeNamer_built :
    NamersFromConfig reEnv { Rules := [kubeRule] } restMapper = .ok [kubeNamer] := rfl

theorem resourceGroupNamer_built :
    NamersFromConfig reEnv { Rules := [resourceGroupRule] } restMapper =
      .ok [resourceGroupNamer] := rfl

theorem groupNamer_built :
    NamersFromConfig reEnv { Rules := [groupRule] } restMapper = .ok [groupNamer] := rfl

theorem GroupResourceForLabel_resource_form (P S r : String) (hr : r ≠ "")
    (hnl : ∀ c ∈ r.toList, c ≠ '\n') :
    (labelGroupResExtractor.mk
      (regexpOfItems (reItem.bol :: (P.toList.map reItem.lit ++ reItem.openGroup 1 ::
        reItem.any :: reItem.star false :: reItem.closeGroup 1 ::
        (S.toList.map reItem.lit ++ [reItem.eol]))) ["resource"]) 1 none).GroupResourceForLabel
      (P ++ (r ++ S)) = ({ Group := "", Resource := r }, true) := by
  unfold labelGroupResExtractor.GroupResourceForLabel
  simp only [resource_form_FindStringSubmatch P S r hr hnl]
  rfl

theorem GroupResourceForLabel_group_form (P M S g r : String) (m0 : Char) (Mt : List Char)
    (hM : M.toList = m0 :: Mt) (hg : g ≠ "") (hgnl : ∀ c ∈ g.toList, c ≠ '\n')
    (hm0 : m0 ∉ g.toList) (hr : r ≠ "") (hnl : ∀ c ∈ r.toList, c ≠ '\n') :
    (labelGroupResExtractor.mk
      (regexpOfItems (reItem.bol :: (P.toList.map reItem.lit ++ reItem.openGroup 1 ::
        reItem.any :: reItem.star false :: reItem.closeGroup 1 :: (M.toList.map reItem.lit ++
        reItem.openGroup 2 :: reItem.any :: reItem.star false :: reItem.closeGroup 2 ::
        (S.toList.map reItem.lit ++ [reItem.eol])))) ["group", "resource"]) 2
      (some 1)).GroupResourceForLabel (P ++ (g ++ (M ++ (r ++ S)))) =
      ({ Group := g, Resource := r }, true) := by
  unfold labelGroupResExtractor.GroupResourceForLabel
  simp only [group_form_FindStringSubmatch "group" "resource" P M S g r m0 Mt hM hg hgnl
    hm0 hr hnl]
  rfl

theorem GroupResourceForLabel_resource_group_form (P M S r g : String) (m0 : Char)
    (Mt : List Char) (hM : M.toList = m0 :: Mt) (hr : r ≠ "")
    (hnl : ∀ c ∈ r.toList, c ≠ '\n') (hm0 : m0 ∉ r.toList) (hg : g ≠ "")
    (hgnl : ∀ c ∈ g.toList, c ≠ '\n') :
    (labelGroupResExtractor.mk
      (regexpOfItems (reItem.bol :: (P.toList.map reItem.lit ++ reItem.openGroup 1 ::
        reItem.any :: reItem.star false :: reItem.closeGroup 1 :: (M.toList.map reItem.lit ++
        reItem.openGroup 2 :: reItem.any :: reItem.star false :: reItem.closeGroup 2 ::
        (S.toList.map reItem.lit ++ [reItem.eol])))) ["resource", "group"]) 1
      (some 2)).GroupResourceForLabel (P ++ (r ++ (M ++ (g ++ S)))) =
      ({ Group := g, Resource := r }, true) := by
  unfold labelGroupResExtractor.GroupResourceForLabel
  simp only [group_form_FindStringSubmatch "resource" "group" P M S r g m0 Mt hM hr hnl hm0
    hg hgnl]
  rfl

/-- What a successful `LabelForResource` that misses the cache has rendered, on a namer
built from a rule, in any later state: the label template of the rule, executed on the
sanitized group and the singular name of the resource. -/
theorem LabelForResource_rendered (mapper : RESTMapper) (cfg : MetricsDiscoveryConfig)
    (namers : List metricNamer) (rule : DiscoveryRule) (n0 : metricNamer)
    (hbuild : NamersFromConfig reEnv cfg mapper = .ok namers)
    (hrule : (rule, n0) ∈ cfg.Rules.zip namers)
    (cs : List Call) (R : GroupResource) (L : String) (n1 : metricNamer)
    (hmiss : (n0.run cs).resourceToLabel R = none)
    (hL : (n0.run cs).LabelForResource R = (.ok L, n1)) :
    ∃ T singularRes,
      labelTemplateOfRule reEnv rule = .ok (some T, (n0.run cs).labelResExtractor) ∧
      mapper.ResourceSingularizer R.Resource = .ok singularRes ∧
      T.Execute { Group := groupNameSanitizer R.Group, Resource := singularRes } = .ok L := by
  have hb := rulesLoop_zip reEnv mapper cfg.Rules namers hbuild (rule, n0) hrule
  obtain ⟨_, hmap, _, _, hlt, _⟩ := namerFromRule_sameRule reEnv mapper rule n0 hb
  obtain ⟨_, s2, s3, _, _, _, _, s8⟩ := sameRule_run n0 cs
  rcases LabelForResource_ok _ R L n1 hL with ⟨hhit, _⟩ | ⟨_, hmake⟩
  · rw [hmiss] at hhit
    cases hhit
  · obtain ⟨T, sing, hT1, hsing, hexec, _, _⟩ := makeLabelForResource_ok _ R L n1 hmake
    rw [s8, hmap] at hsing
    rw [s2] at hT1
    refine ⟨T, sing, ?_, hsing, hexec⟩
    rw [hlt, hT1, s3]

/-- Claim C11, as amended.  Round trip for the label templates of the forms
`P<<.Resource>>S`, `P<<.Group>>M<<.Resource>>S` and `P<<.Resource>>M<<.Group>>S`, where the
texts `P`, `M`, `S` are made of label-name characters and `M` is not empty.  In every state
of a namer built from a rule with such a template, let `LabelForResource` miss the cache
on `R` and succeed with the label `L`, the singular name of `R` being non-empty and
without line break.  First form: `L` is `P`, the singular name, `S`; the extractor applied
to `L` reports found = true and extracts the singular name with the empty group; the
extracted identifier is `R` after normalization when the mapper normalizes the group-less
singular name to `R`.  Second and third form, when the sanitized group of `R` is non-empty
and without line break and the text before `M` (the sanitized group in the second form,
the singular name in the third) does not contain the first character of `M`: `L` is the
template with the sanitized group and the singular name in the places of the two actions;
the extractor reports found = true and extracts the sanitized group and the singular name;
the extracted identifier is `R` after normalization when the mapper normalizes that pair to
`R`.  The mapper of the tests normalizes both pairs to `R` for each of its kinds. -/
theorem label_round_trip (mapper : RESTMapper) (cfg : MetricsDiscoveryConfig)
    (namers : List metricNamer) (rule : DiscoveryRule) (n0 : metricNamer)
    (hbuild : NamersFromConfig reEnv cfg mapper = .ok namers)
    (hrule : (rule, n0) ∈ cfg.Rules.zip namers)
    (cs : List Call) (R : GroupResource) (L : String) (n1 : metricNamer)
    (hmiss : (n0.run cs).resourceToLabel R = none)
    (hL : (n0.run cs).LabelForResource R = (.ok L, n1))
    (singularRes : String)
    (hsing : mapper.ResourceSingularizer R.Resource = .ok singularRes)
    (hne : singularRes ≠ "") (hnl : ∀ c ∈ singularRes.toList, c ≠ '\n') :
    (∀ P S : String, rule.Resources.Template = P ++ "<<.Resource>>" ++ S →
      (∀ c ∈ P.toList ++ S.toList, c ∈ labelChars) →
      mapper.Normalize { Group := "", Resource := singularRes } = .ok R →
      L = P ++ singularRes ++ S ∧
      ∃ e, (n0.run cs).labelResExtractor = some e ∧
        e.GroupResourceForLabel L = ({ Group := "", Resource := singularRes }, true) ∧
        mapper.Normalize (e.GroupResourceForLabel L).1 = .ok R) ∧
    (∀ (P M S : String) (m0 : Char) (Mt : List Char),
      rule.Resources.Template = P ++ "<<.Group>>" ++ M ++ "<<.Resource>>" ++ S →
      (∀ c ∈ P.toList ++ M.toList ++ S.toList, c ∈ labelChars) →
      M.toList = m0 :: Mt →
      groupNameSanitizer R.Group ≠ "" →
      (∀ c ∈ (groupNameSanitizer R.Group).toList, c ≠ '\n' ∧ c ≠ m0) →
      mapper.Normalize { Group := groupNameSanitizer R.Group, Resource := singularRes } =
        .ok R →
      L = P ++ groupNameSanitizer R.Group ++ M ++ singularRes ++ S ∧
      ∃ e, (n0.run cs).labelResExtractor = some e ∧
        e.GroupResourceForLabel L =
          ({ Group := groupNameSanitizer R.Group, Resource := singularRes }, true) ∧
        mapper.Normalize (e.GroupResourceForLabel L).1 = .ok R) ∧
    (∀ (P M S : String) (m0 : Char) (Mt : List Char),
      rule.Resources.Template = P ++ "<<.Resource>>" ++ M ++ "<<.Group>>" ++ S →
      (∀ c ∈ P.toList ++ M.toList ++ S.toList, c ∈ labelChars) →
      M.toList = m0 :: Mt →
      groupNameSanitizer R.Group ≠ "" →
      (∀ c ∈ (groupNameSanitizer R.Group).toList, c ≠ '\n') →
      (∀ c ∈ singularRes.toList, c ≠ m0) →
      mapper.Normalize { Group := groupNameSanitizer R.Group, Resource := singularRes } =
        .ok R →
      L = P ++ singularRes ++ M ++ groupNameSanitizer R.Group ++ S ∧
      ∃ e, (n0.run cs).labelResExtractor = some e ∧
        e.GroupResourceForLabel L =
          ({ Group := groupNameSanitizer R.Group, Resource := singularRes }, true) ∧
        mapper.Normalize (e.GroupResourceForLabel L).1 = .ok R) ∧
    (∀ R1 ∈ [({ Group := "", Resource := "pods" } : GroupResource),
        { Group := "", Resource := "services" }, { Group := "", Resource := "namespaces" },
        { Group := "extensions", Resource := "ingresses" },
        { Group := "extensions", Resource := "deployments" }],
      ∃ L1, restMapper.ResourceSingularizer R1.Resource = .ok L1 ∧
        restMapper.Normalize { Group := "", Resource := L1 } = .ok R1 ∧
        restMapper.Normalize { Group := groupNameSanitizer R1.Group, Resource := L1 } =
          .ok R1) := by
  obtain ⟨T, sing, hlt, hsing2, hexec⟩ :=
    LabelForResource_rendered mapper cfg namers rule n0 hbuild hrule cs R L n1 hmiss hL
  rw [hsing, Except.ok.injEq] at hsing2
  subst hsing2
  refine ⟨?_, ?_, ?_, ?_⟩
  · intro P S hT hchars hnorm
    have hP : ∀ c ∈ P.toList, c ∈ labelChars :=
      fun c hc => hchars c (List.mem_append_left _ hc)
    have hS : ∀ c ∈ S.toList, c ∈ labelChars :=
      fun c hc => hchars c (List.mem_append_right _ hc)
    rw [labelTemplateOfRule_resource_form rule P S hT hP hS] at hlt
    simp only [Except.ok.injEq, Prod.mk.injEq, Option.some.injEq] at hlt
    obtain ⟨hlt1, hlt2⟩ := hlt
    rw [← hlt1] at hexec
    simp only [tmplExec_resource_form, Except.ok.injEq] at hexec
    have hLeq : L = P ++ singularRes ++ S := by
      rw [← hexec, String.append_assoc]
    have hext := GroupResourceForLabel_resource_form P S singularRes hne hnl
    rw [hexec] at hext
    refine ⟨hLeq, _, hlt2.symm, hext, ?_⟩
    rw [hext]
    exact hnorm
  · intro P M S m0 Mt hT hchars hM hg hgc hnorm
    have hP : ∀ c ∈ P.toList, c ∈ labelChars :=
      fun c hc => hchars c (List.mem_append_left _ (List.mem_append_left _ hc))
    have hMc : ∀ c ∈ M.toList, c ∈ labelChars :=
      fun c hc => hchars c (List.mem_append_left _ (List.mem_append_right _ hc))
    have hS : ∀ c ∈ S.toList, c ∈ labelChars :=
      fun c hc => hchars c (List.mem_append_right _ hc)
    rw [labelTemplateOfRule_group_form rule P M S hT hP hMc hS] at hlt
    simp only [Except.ok.injEq, Prod.mk.injEq, Option.some.injEq] at hlt
    obtain ⟨hlt1, hlt2⟩ := hlt
    rw [← hlt1] at hexec
    simp only [tmplExec_group_form, Except.ok.injEq] at hexec
    have hLeq : L = P ++ groupNameSanitizer R.Group ++ M ++ singularRes ++ S := by
      rw [← hexec]
      simp only [String.append_assoc]
    have hext := GroupResourceForLabel_group_form P M S (groupNameSanitizer R.Group)
      singularRes m0 Mt hM hg (fun c hc => (hgc c hc).1)
      (fun hmem => (hgc m0 hmem).2 rfl) hne hnl
    rw [hexec] at hext
    refine ⟨hLeq, _, hlt2.symm, hext, ?_⟩
    rw [hext]
    exact hnorm
  · intro P M S m0 Mt hT hchars hM hg hgnl hsep hnorm
    have hP : ∀ c ∈ P.toList, c ∈ labelChars :=
      fun c hc => hchars c (List.mem_append_left _ (List.mem_append_left _ hc))
    have hMc : ∀ c ∈ M.toList, c ∈ labelChars :=
      fun c hc => hchars c (List.mem_append_left _ (List.mem_append_right _ hc))
    have hS : ∀ c ∈ S.toList, c ∈ labelChars :=
      fun c hc => hchars c (List.mem_append_right _ hc)
    rw [labelTemplateOfRule_resource_group_form rule P M S hT hP hMc hS] at hlt
    simp only [Except.ok.injEq, Prod.mk.injEq, Option.some.injEq] at hlt
    obtain ⟨hlt1, hlt2⟩ := hlt
    rw [← hlt1] at hexec
    simp only [tmplExec_resource_group_form, Except.ok.injEq] at hexec
    have hLeq : L = P ++ singularRes ++ M ++ groupNameSanitizer R.Group ++ S := by
      rw [← hexec]
      simp only [String.append_assoc]
    have hext := GroupResourceForLabel_resource_group_form P M S singularRes
      (groupNameSanitizer R.Group) m0 Mt hM hne hnl (fun hmem => hsep m0 hmem rfl) hg hgnl
    rw [hexec] at hext
    refine ⟨hLeq, _, hlt2.symm, hext, ?_⟩
    rw [hext]
    exact hnorm
  · intro R1 hR1
    simp only [List.mem_cons, List.mem_singleton, List.not_mem_nil, or_false] at hR1
    rcases hR1 with rfl | rfl | rfl | rfl | rfl
    · exact ⟨"pod", rfl, rfl, rfl⟩
    · exact ⟨"service", rfl, rfl, rfl⟩
    · exact ⟨"namespace", rfl, rfl, rfl⟩
    · exact ⟨"ingress", rfl, rfl, rfl⟩
    · exact ⟨"deployment", rfl, rfl, rfl⟩

theorem label_round_trip_witness :
    (NamersFromConfig reEnv { Rules := [kubeRule] } restMapper = .ok [kubeNamer] ∧
      kubeNamer.LabelForResource { Group := "", Resource := "pods" } =
        (.ok "kube_pod", (kubeNamer.LabelForResource { Group := "", Resource := "pods" }).2) ∧
      ("kube_pod" = "kube_" ++ "pod" ++ "" ∧
        ∃ e, kubeNamer.labelResExtractor = some e ∧
          e.GroupResourceForLabel "kube_pod" = ({ Group := "", Resource := "pod" }, true) ∧
          restMapper.Normalize (e.GroupResourceForLabel "kube_pod").1 =
            .ok { Group := "", Resource := "pods" })) ∧
    (NamersFromConfig reEnv { Rules := [groupRule] } restMapper = .ok [groupNamer] ∧
      groupNamer.LabelForResource { Group := "extensions", Resource := "ingresses" } =
        (.ok "extensions_ingress",
         (groupNamer.LabelForResource { Group := "extensions", Resource := "ingresses" }).2) ∧
      ("extensions_ingress" = "" ++ "extensions" ++ "_" ++ "ingress" ++ "" ∧
        ∃ e, groupNamer.labelResExtractor = some e ∧
          e.GroupResourceForLabel "extensions_ingress" =
            ({ Group := "extensions", Resource := "ingress" }, true) ∧
          restMapper.Normalize (e.GroupResourceForLabel "extensions_ingress").1 =
            .ok { Group := "extensions", Resource := "ingresses" })) ∧
    (NamersFromConfig reEnv { Rules := [resourceGroupRule] } restMapper =
        .ok [resourceGroupNamer] ∧
      resourceGroupNamer.LabelForResource { Group := "extensions", Resource := "ingresses" } =
        (.ok "ingress_extensions",
         (resourceGroupNamer.LabelForResource
            { Group := "extensions", Resource := "ingresses" }).2) ∧
      ("ingress_extensions" = "" ++ "ingress" ++ "_" ++ "extensions" ++ "" ∧
        ∃ e, resourceGroupNamer.labelResExtractor = some e ∧
          e.GroupResourceForLabel "ingress_extensions" =
            ({ Group := "extensions", Resource := "ingress" }, true) ∧
          restMapper.Normalize (e.GroupResourceForLabel "ingress_extensions").1 =
            .ok { Group := "extensions", Resource := "ingresses" })) :=
  ⟨⟨rfl, rfl,
    (label_round_trip restMapper { Rules := [kubeRule] } [kubeNamer] kubeRule kubeNamer rfl
      (List.mem_singleton.mpr rfl) [] { Group := "", Resource := "pods" } "kube_pod" _ rfl rfl
      "pod" rfl (by decide) (by decide)).1 "kube_" "" rfl (by decide) rfl⟩,
   ⟨rfl, rfl,
    (label_round_trip restMapper { Rules := [groupRule] } [groupNamer] groupRule groupNamer rfl
      (List.mem_singleton.mpr rfl) [] { Group := "extensions", Resource := "ingresses" }
      "extensions_ingress" _ rfl rfl "ingress" rfl (by decide) (by decide)).2.1
      "" "_" "" '_' [] rfl (by decide) rfl (by decide) (by decide) rfl⟩,
   ⟨rfl, rfl,
    (label_round_trip restMapper { Rules := [resourceGroupRule] } [resourceGroupNamer]
      resourceGroupRule resourceGroupNamer rfl (List.mem_singleton.mpr rfl) []
      { Group := "extensions", Resource := "ingresses" } "ingress_extensions" _ rfl rfl
      "ingress" rfl (by decide) (by decide)).2.2.1
      "" "_" "" '_' [] rfl (by decide) rfl (by decide) (by decide) (by decide) rfl⟩⟩

theorem groupDeploymentNamer_built :
    NamersFromConfig reEnv { Rules := [groupRule] } deploymentMapper =
      .ok [groupDeploymentNamer] := rfl

/-- Claim C11, counterexamples.  (1) The rule `groupRule` has the label template
`<<.Group>>_<<.Resource>>`; on its namer `LabelForResource` of pods, whose group is empty,
succeeds with `_pod`, and the extractor reports found = false on `_pod`: its pattern asks
for a group of at least one character.  (2) With the template `<<.Resource>>` and a
mapper that has deployments in `extensions` and in `apps`, `LabelForResource` of
deployments.apps succeeds with `deployment`; the extractor finds the group-less
`deployment`, which normalizes to deployments.extensions.  (3) With the template
`<<.Group>>_<<.Resource>>`, `LabelForResource` of routes.route.openshift.io succeeds with
`route_openshift_io_route`, the dots of the group replaced; the extractor finds the group
`route` and the resource `openshift_io_route`, which the mapper does not know.  Each
resource is in normal form. -/
theorem label_round_trip_fails :
    (NamersFromConfig reEnv { Rules := [groupRule] } restMapper = .ok [groupNamer] ∧
      (groupNamer.LabelForResource { Group := "", Resource := "pods" }).1 = .ok "_pod" ∧
      (groupNamer.labelResExtractor.map fun e => e.GroupResourceForLabel "_pod") =
        some ({ Group := "", Resource := "" }, false) ∧
      restMapper.Normalize { Group := "", Resource := "pods" } =
        .ok { Group := "", Resource := "pods" }) ∧
    (NamersFromConfig reEnv { Rules := [exampleRule] } deploymentMapper =
        .ok [deploymentNamer] ∧
      (deploymentNamer.LabelForResource { Group := "apps", Resource := "deployments" }).1 =
        .ok "deployment" ∧
      (deploymentNamer.labelResExtractor.map fun e => e.GroupResourceForLabel "deployment") =
        some ({ Group := "", Resource := "deployment" }, true) ∧
      deploymentMapper.Normalize { Group := "", Resource := "deployment" } =
        .ok { Group := "extensions", Resource := "deployments" } ∧
      deploymentMapper.Normalize { Group := "apps", Resource := "deployments" } =
        .ok { Group := "apps", Resource := "deployments" }) ∧
    (NamersFromConfig reEnv { Rules := [groupRule] } deploymentMapper =
        .ok [groupDeploymentNamer] ∧
      (groupDeploymentNamer.LabelForResource
        { Group := "route.openshift.io", Resource := "routes" }).1 =
        .ok "route_openshift_io_route" ∧
      (groupDeploymentNamer.labelResExtractor.map fun e =>
        e.GroupResourceForLabel "route_openshift_io_route") =
        some ({ Group := "route", Resource := "openshift_io_route" }, true) ∧
      (∃ err, deploymentMapper.Normalize { Group := "route", Resource := "openshift_io_route" } =
        .error err) ∧
      deploymentMapper.Normalize { Group := "route.openshift.io", Resource := "routes" } =
        .ok { Group := "route.openshift.io", Resource := "routes" }) :=
  ⟨⟨rfl, rfl, by decide, rfl⟩, ⟨rfl, rfl, by decide, rfl, rfl⟩,
   ⟨rfl, rfl, by decide, ⟨_, rfl⟩, rfl⟩⟩

end provider
